import Mathlib

/-!
CoreHook.Host: the trusted-module list, the host lifecycle and the coreload
library.

A shallow embedding of `Windows/src/corerundll/corerundll.cpp` and of
`src/coreload` (`host_startup_info.cc`, `common/path_utils.cc`,
`dll/coreload_dll.cc`).

* Wide strings (`std::wstring`, `WCHAR*`) are lists of characters; a string
  truncated by writing a NUL character is the list cut at that index.
* `HRESULT` is an integer, `FAILED(hr)` is `hr < 0`; `DWORD` is a natural
  number below `2^32`.
* Pointers are `Option` values (`none` is the null pointer).  A function whose
  C++ body would read through a null or out-of-range pointer returns `none`.
* The operating system and the CoreCLR engine are explicit inputs: the file
  system is a function from a directory path to its listing, the engine is an
  oracle that answers every call from the history of the calls made so far,
  and every call made on the engine is recorded in the global state.
-/

namespace CoreHook

/-! ## Strings -/

/-- Wide strings of the sources. -/
abbrev WString := List Char

/-- Wide string literal, the `W("...")` of the sources. -/
def W (s : String) : WString := s.data

/-- C runtime: `towlower` in the default "C" locale maps `A`..`Z` to `a`..`z`
and leaves every other character alone. -/
def towlower (c : Char) : Char := c.toLower

/-- C runtime: `wcsrchr(s, c)`, the index of the last occurrence of `c` in `s`
(`none` for the null result). -/
def wcsrchr : WString → Char → Option Nat
  | [], _ => none
  | x :: xs, c =>
    match wcsrchr xs c with
    | some k => some (k + 1)
    | none => if x = c then some 0 else none

/-- C++ library: `hay.find(needle) != npos`, whether `needle` occurs in `hay`
as a contiguous run of characters. -/
def wfind : WString → WString → Bool
  | [], needle => needle.isPrefixOf []
  | x :: xs, needle => needle.isPrefixOf (x :: xs) || wfind xs needle

/-! ## The file system as seen by `FindFirstFileW` / `FindNextFileW` -/

/-- Windows SDK: the directory bit of `dwFileAttributes`. -/
def FILE_ATTRIBUTE_DIRECTORY : Nat := 0x10

/-- Windows SDK: the two fields of `WIN32_FIND_DATA` that the host reads. -/
structure WIN32_FIND_DATA where
  dwFileAttributes : Nat
  cFileName : WString
  deriving DecidableEq, Repr

/-- A file system: the listing of the directory named by a path that ends in a
backslash, in the order in which the system enumerates it. -/
abbrev FileSystem := WString → List WIN32_FIND_DATA

/-- Windows: a file name matches the wild card `*suffix` when it ends in
`suffix`, letter case ignored. -/
def wildcardMatch (pattern name : WString) : Bool :=
  ((pattern.drop 1).map towlower).isSuffixOf (name.map towlower)

/-- Windows: the entries that `FindFirstFileW(targetPath + pattern)` followed by
`FindNextFileW` until it returns 0 deliver, in order. An invalid handle is the
empty enumeration. -/
def FindFiles (fs : FileSystem) (targetPath pattern : WString) : List WIN32_FIND_DATA :=
  (fs targetPath).filter (fun data => wildcardMatch pattern data.cFileName)

/-! ## `HostEnvironment`: the trusted platform assembly list -/

/-- Source function `HostEnvironment::TPAListContainsFile` (corerundll.cpp 185-206). -/
def TPAListContainsFile (m_tpaList fileNameWithoutExtension : WString)
    (rgTPAExtensions : List WString) : Bool :=
  if m_tpaList.isEmpty then false
  else rgTPAExtensions.any (fun ext =>
    wfind m_tpaList (W "\\" ++ fileNameWithoutExtension ++ ext.drop 1 ++ W ";"))

/-- Source function `HostEnvironment::RemoveExtensionAndNi` (corerundll.cpp 208-229). -/
def RemoveExtensionAndNi (fileName : WString) : WString :=
  match wcsrchr fileName '.' with
  | none => fileName
  | some extension =>
    let fileName := fileName.take extension
    let len := fileName.length
    if len > 3 ∧ fileName.get? (len - 1) = some 'i' ∧ fileName.get? (len - 2) = some 'n'
        ∧ fileName.get? (len - 3) = some '.' then
      fileName.take (len - 3)
    else fileName

/-- The body of the `do ... while` loop of `AddFilesFromDirectoryToTPAList`
(corerundll.cpp 250-285) for one enumerated entry. -/
def AddFileToTPAList (targetPath : WString) (rgTPAExtensions : List WString)
    (m_tpaList : WString) (data : WIN32_FIND_DATA) : WString :=
  if data.dwFileAttributes &&& FILE_ATTRIBUTE_DIRECTORY ≠ 0 then m_tpaList
  else
    let cFileName := data.cFileName.map towlower
    let fileNameWithoutExtension := RemoveExtensionAndNi cFileName
    if !TPAListContainsFile m_tpaList fileNameWithoutExtension rgTPAExtensions then
      m_tpaList ++ (targetPath ++ cFileName) ++ W ";"
    else m_tpaList

/-- Source function `HostEnvironment::AddFilesFromDirectoryToTPAList` (corerundll.cpp 231-291):
the new value of `m_tpaList`. -/
def AddFilesFromDirectoryToTPAList (fs : FileSystem) (m_tpaList targetPath : WString)
    (rgTPAExtensions : List WString) : WString :=
  rgTPAExtensions.foldl
    (fun tpa ext =>
      (FindFiles fs targetPath ext).foldl (AddFileToTPAList targetPath rgTPAExtensions) tpa)
    m_tpaList

/-- The extension table of `HostEnvironment::GetTpaList` (corerundll.cpp 296-305). -/
def rgTPAExtensions : List WString :=
  [W "*.ni.dll", W "*.dll", W "*.ni.exe", W "*.exe", W "*.ni.winmd", W "*.winmd"]

/-! ## Vocabulary of the claims about the list -/

/-- A scanned file: the directory path passed to the scan and the entry that
the enumeration delivered. -/
abbrev ScannedFile := WString × WIN32_FIND_DATA

/-- The normalized stem of a scanned file: its name lower-cased, then cut by
`RemoveExtensionAndNi`, as the scan loop computes it. -/
def stemOf (f : ScannedFile) : WString :=
  RemoveExtensionAndNi (f.2.cFileName.map towlower)

/-- The text that the scan loop appends for a file it adds: directory path,
lower-cased name, semicolon. -/
def entryOf (f : ScannedFile) : WString :=
  f.1 ++ f.2.cFileName.map towlower ++ W ";"

/-- The semicolon-joined output form of a sequence of entries. -/
def joinEntries (l : List ScannedFile) : WString := l.flatMap entryOf

/-- The files one call of `AddFilesFromDirectoryToTPAList` visits, in order:
pattern by pattern, each enumeration in the order of the system, directories
left out. A file that matches several patterns is visited once per pattern. -/
def scanOrder (fs : FileSystem) (targetPath : WString) (exts : List WString) :
    List ScannedFile :=
  exts.flatMap (fun ext =>
    ((FindFiles fs targetPath ext).filter
      (fun data => data.dwFileAttributes &&& FILE_ATTRIBUTE_DIRECTORY = 0)).map
      (fun data => (targetPath, data)))

/-- One visit of the scan loop, on a file that is not a directory. -/
def addScanned (exts : List WString) (tpa : WString) (f : ScannedFile) : WString :=
  if TPAListContainsFile tpa (stemOf f) exts then tpa else tpa ++ entryOf f

/-- A scanned file is well formed for an extension table when its directory
path ends in a backslash and its lower-cased name is its stem followed by an
extension of the table. -/
def WellFormed (exts : List WString) (f : ScannedFile) : Prop :=
  W "\\" <:+ f.1 ∧ ∃ x ∈ exts, f.2.cFileName.map towlower = stemOf f ++ x.drop 1

/-- The invariant of the scan loop: the list is the joined form of the files
added so far, every file visited so far is found by `TPAListContainsFile`, each
added file is the first visited file of its stem, and no stem was added twice. -/
def ScanInv (exts : List WString) (tpa : WString) (seen added : List ScannedFile) : Prop :=
  tpa = joinEntries added ∧ added.Sublist seen ∧
  (∀ f ∈ seen, TPAListContainsFile tpa (stemOf f) exts = true) ∧
  (∀ e ∈ added, seen.find? (fun f => stemOf f == stemOf e) = some e) ∧
  (added.map stemOf).Nodup

/-- The rank of a file name in an extension table: the index of the first
pattern that matches it (the length of the table when none does). A smaller
rank is a higher priority. -/
def extensionRank : List WString → WString → Nat
  | [], _ => 0
  | ext :: exts, name => if wildcardMatch ext name then 0 else extensionRank exts name + 1

/-- The entries of a semicolon-joined list: the runs of characters that end at
a semicolon. -/
def splitEntries : WString → List WString
  | [] => []
  | c :: cs =>
    if c = ';' then [] :: splitEntries cs
    else
      match splitEntries cs with
      | [] => []
      | e :: es => (c :: e) :: es

/-- The case-insensitive base name of a path: the part after the last
backslash, lower-cased, then cut by `RemoveExtensionAndNi`. -/
def baseNameOf (path : WString) : WString :=
  RemoveExtensionAndNi
    ((match wcsrchr path '\\' with
      | some k => path.drop (k + 1)
      | none => path).map towlower)

/-! ## The operating system and the engine -/

/-- Windows SDK: `MAX_PATH`. -/
def MAX_PATH : Nat := 260

/-- Windows SDK (winerror.h): `S_OK`. -/
def S_OK : Int := 0

/-- Windows SDK (winerror.h): `NOERROR`. -/
def NOERROR : Int := 0

/-- Windows SDK (winerror.h): `E_FAIL`, 0x80004005 as a signed 32-bit value. -/
def E_FAIL : Int := 0x80004005 - 2 ^ 32

/-- Windows SDK (winerror.h): `E_HANDLE`, 0x80070006 as a signed 32-bit value. -/
def E_HANDLE : Int := 0x80070006 - 2 ^ 32

/-- Windows SDK (winerror.h): `E_INVALIDARG`, 0x80070057 as a signed 32-bit value. -/
def E_INVALIDARG : Int := 0x80070057 - 2 ^ 32

/-- Windows SDK (winerror.h): the macro `FAILED(hr)`. -/
def FAILED (hr : Int) : Bool := decide (hr < 0)

/-- Windows SDK (winerror.h): the macro `SUCCEEDED(hr)`. -/
def SUCCEEDED (hr : Int) : Bool := decide (0 ≤ hr)

/-- The enumerators of `mscoree.h` that the host uses. The header is not among
the sources, so their values are parameters of the model. -/
structure MsCoree where
  STARTUP_CONCURRENT_GC : Nat
  STARTUP_LOADER_OPTIMIZATION_SINGLE_DOMAIN : Nat
  STARTUP_SERVER_GC : Nat
  STARTUP_SINGLE_APPDOMAIN : Nat
  APPDOMAIN_ENABLE_PLATFORM_SPECIFIC_APPS : Nat
  APPDOMAIN_ENABLE_PINVOKE_AND_CLASSIC_COMINTEROP : Nat
  APPDOMAIN_DISABLE_TRANSPARENCY_ENFORCEMENT : Nat

/-- The calls of the operating system that the host makes, as functions of
their arguments. Module handles and interface pointers are natural numbers,
`none` is the null handle or pointer. -/
structure Win32 where
  /-- Call `GetModuleFileNameW(hModule, buf, MAX_PATH)`: the path written to the
  buffer, `none` when the call returns 0. The handle `none` is the module of
  the process, what `GetModuleHandleW(nullptr)` returns. -/
  GetModuleFileNameW : Option Nat → Option WString
  /-- Call `LoadLibraryExW(path, NULL, 0)`. -/
  LoadLibraryExW : WString → Option Nat
  /-- Call `GetModuleHandleExW(GET_MODULE_HANDLE_EX_FLAG_PIN, path, &dummy)`: whether
  the module was pinned. -/
  GetModuleHandleExW : WString → Bool
  /-- Call `ExpandEnvironmentStringsW(src, dst, MAX_PATH)`: the text left in `dst`. -/
  ExpandEnvironmentStringsW : WString → WString
  /-- Call `GetProcAddress(module, "GetCLRRuntimeHost")` followed by a call of the
  function found: `none` when the module has no such export, otherwise the
  HRESULT of the call and the interface pointer it stored. -/
  GetCLRRuntimeHost : Nat → Option (Int × Option Nat)
  /-- Call `GetFullPathNameW(path, MAX_PATH, buf, NULL)`: the text left in `buf`. -/
  GetFullPathNameW : WString → WString
  /-- The environment block of the process: the value of a variable, `none`
  when it is not set. -/
  getenv : WString → Option WString
  /-- The directory listings. -/
  fs : FileSystem

/-- The methods of `ICLRRuntimeHost4` that the host calls, with the arguments
it passes, and the invocation of a delegate obtained from the engine. -/
inductive EngineCall where
  | SetStartupFlags (flags : Nat)
  | Start
  | CreateAppDomainWithManager (friendlyName : WString) (dwFlags : Nat)
      (propertyKeys propertyValues : List WString)
  | UnloadAppDomain2 (domainId : Nat) (fWaitUntilDone : Bool)
  | Stop
  | Release
  | CreateDelegate (domainId : Nat) (assembly type entry : WString)
  | InvokeDelegate (pfnDelegate : Nat) (argument : Option WString)
  deriving DecidableEq, Repr

/-- The engine behind the hosting interface: it answers every call from the
calls made before it. -/
structure Engine where
  /-- The HRESULT of a call, given the earlier calls. -/
  hresult : List EngineCall → EngineCall → Int
  /-- The identifier that `CreateAppDomainWithManager` stores through its last
  argument, given the earlier calls. -/
  domainId : List EngineCall → Nat
  /-- The pointer that `CreateDelegate` stores through its last argument,
  given the earlier calls; `none` is the null pointer. -/
  delegate : List EngineCall → Option Nat

/-- The globals of corerundll.cpp (`g_Host`, `g_domainId`) together with the
record of the calls made on the engine so far, oldest first. -/
structure Globals where
  g_Host : Option Nat
  g_domainId : Nat
  calls : List EngineCall
  deriving DecidableEq, Repr

/-- A call through the hosting interface: the engine answers, the call is
recorded. -/
def Globals.call (E : Engine) (g : Globals) (c : EngineCall) : Int × Globals :=
  (E.hresult g.calls c, { g with calls := g.calls ++ [c] })

/-- Source function `SetGlobalHost` (corerundll.cpp 368-374). -/
def SetGlobalHost (g : Globals) (host : Option Nat) : Globals := { g with g_Host := host }

/-- Source function `GetGlobalHost` (corerundll.cpp 376-382). -/
def GetGlobalHost (g : Globals) : Option Nat := g.g_Host

/-- Source function `SetDomainId` (corerundll.cpp 384-390). -/
def SetDomainId (g : Globals) (domainId : Nat) : Globals := { g with g_domainId := domainId }

/-- Source function `GetDomainId` (corerundll.cpp 392-398). -/
def GetDomainId (g : Globals) : Nat := g.g_domainId

/-! ## `HostEnvironment` -/

/-- The name of the engine library (corerundll.cpp 19). -/
def coreCLRDll : WString := W "CoreCLR.dll"

/-- The well-known install directory (corerundll.cpp 23). -/
def coreCLRInstallDirectory : WString := W "%windir%\\system32\\"

/-- The data members of `HostEnvironment` (corerundll.cpp 35-53, 111); the
logger is left out. `attempted` records the paths passed to `LoadLibraryExW`,
oldest first. -/
structure HostEnvironment where
  m_hostPath : WString
  m_hostDirectoryPath : WString
  m_hostExeName : WString
  m_tpaList : WString
  m_CLRRuntimeHost : Option Nat
  m_coreCLRModule : Option Nat
  m_coreCLRDirectoryPath : WString
  attempted : List WString
  deriving DecidableEq, Repr

/-- Source function `HostEnvironment::GetModuleFileNameWrapper` (corerundll.cpp 55-74): the new
content of `buffer`, which is left alone when the system call returns 0. -/
def GetModuleFileNameWrapper (os : Win32) (hModule : Option Nat) (buffer : WString) : WString :=
  match os.GetModuleFileNameW hModule with
  | none => buffer
  | some buf => buf

/-- Source function `HostEnvironment::TryLoadCoreCLR` (corerundll.cpp 79-107): the handle
returned and the path that was tried. -/
def TryLoadCoreCLR (os : Win32) (directoryPath : WString) : Option Nat × WString :=
  let coreCLRPath := directoryPath ++ coreCLRDll
  match os.LoadLibraryExW coreCLRPath with
  | none => (none, coreCLRPath)
  | some result =>
    if !os.GetModuleHandleExW coreCLRPath then (none, coreCLRPath)
    else (some result, coreCLRPath)

/-- The constructor `HostEnvironment::HostEnvironment` (corerundll.cpp 113-174).
The result is `none` when `m_coreCLRDirectoryPath.resize` is called with `npos`
(the loaded module has a path without a backslash), which throws. -/
def HostEnvironment.ctor (os : Win32) (coreRootPath : Option WString) :
    Option HostEnvironment :=
  let m_hostPath := GetModuleFileNameWrapper os none []
  let lastBackslash :=
    match wcsrchr m_hostPath '\\' with
    | some k => k + 1
    | none => 0
  let m_hostDirectoryPath := m_hostPath.take lastBackslash
  let m_hostExeName := m_hostPath.drop lastBackslash
  let fromCoreRoot : Option Nat × List WString :=
    match coreRootPath with
    | some root => ((TryLoadCoreCLR os (root ++ W "\\")).1, [(TryLoadCoreCLR os (root ++ W "\\")).2])
    | none => (none, [])
  let fromHostDirectory : Option Nat × List WString :=
    if fromCoreRoot.1 = none then
      ((TryLoadCoreCLR os m_hostDirectoryPath).1,
        fromCoreRoot.2 ++ [(TryLoadCoreCLR os m_hostDirectoryPath).2])
    else fromCoreRoot
  let coreCLRInstallPath := os.ExpandEnvironmentStringsW coreCLRInstallDirectory
  let fromInstallDirectory : Option Nat × List WString :=
    if fromHostDirectory.1 = none then
      ((TryLoadCoreCLR os coreCLRInstallPath).1,
        fromHostDirectory.2 ++ [(TryLoadCoreCLR os coreCLRInstallPath).2])
    else fromHostDirectory
  match fromInstallDirectory.1 with
  | some m_coreCLRModule =>
    let loadedPath := GetModuleFileNameWrapper os (some m_coreCLRModule) []
    match wcsrchr loadedPath '\\' with
    | none => none
    | some lastBackslash =>
      some {
        m_hostPath := m_hostPath
        m_hostDirectoryPath := m_hostDirectoryPath
        m_hostExeName := m_hostExeName
        m_tpaList := []
        m_CLRRuntimeHost := none
        m_coreCLRModule := some m_coreCLRModule
        m_coreCLRDirectoryPath := loadedPath.take lastBackslash
        attempted := fromInstallDirectory.2 }
  | none =>
    some {
      m_hostPath := m_hostPath
      m_hostDirectoryPath := m_hostDirectoryPath
      m_hostExeName := m_hostExeName
      m_tpaList := []
      m_CLRRuntimeHost := none
      m_coreCLRModule := none
      m_coreCLRDirectoryPath := []
      attempted := fromInstallDirectory.2 }

/-- Source function `HostEnvironment::GetTpaList` (corerundll.cpp 295-320) for a non-null
`coreLibsPath`: the environment after the call; the string returned is its
`m_tpaList`. -/
def GetTpaList (fs : FileSystem) (env : HostEnvironment) (coreLibsPath : WString) :
    HostEnvironment :=
  let env1 : HostEnvironment :=
    if env.m_tpaList.isEmpty then
      { env with m_tpaList :=
          (AddFilesFromDirectoryToTPAList fs env.m_tpaList
            (env.m_coreCLRDirectoryPath ++ W "\\") rgTPAExtensions) }
    else env
  let coreLibraries : WString := [] ++ coreLibsPath
  if coreLibraries ≠ env1.m_coreCLRDirectoryPath then
    { env1 with m_tpaList :=
        (AddFilesFromDirectoryToTPAList fs env1.m_tpaList (coreLibraries ++ W "\\")
          rgTPAExtensions) }
  else env1

/-- Source function `HostEnvironment::GetCLRRuntimeHost` (corerundll.cpp 333-365): the
environment after the call and the pointer returned. -/
def GetCLRRuntimeHost (os : Win32) (env : HostEnvironment) : HostEnvironment × Option Nat :=
  match env.m_CLRRuntimeHost with
  | some host => (env, some host)
  | none =>
    match env.m_coreCLRModule with
    | none => (env, none)
    | some m_coreCLRModule =>
      match os.GetCLRRuntimeHost m_coreCLRModule with
      | none => (env, none)
      | some (hr, host) =>
        if FAILED hr then ({ env with m_CLRRuntimeHost := host }, none)
        else ({ env with m_CLRRuntimeHost := host }, host)

/-! ## Startup flags -/

/-- The name of the server GC variable (corerundll.cpp 12). -/
def serverGcVar : WString := W "COMPlus_gcServer"

/-- The name of the concurrent GC variable (corerundll.cpp 16). -/
def concurrentGcVar : WString := W "COMPlus_gcConcurrent"

/-- The macro `HAS_FLAG(value, flag)` (corerundll.cpp 8). -/
def HAS_FLAG (value flag : Nat) : Bool := (value &&& flag) == flag

/-- C runtime: `_wcsicmp(a, b) == 0`, equality of the lower-cased strings. -/
def wcsicmp_eq (a b : WString) : Bool := a.map towlower == b.map towlower

/-- The lambda `checkVariable` of `CreateStartupFlags` (corerundll.cpp 471-485):
the new value of `initialFlags`. `_wgetenv_s` with a buffer of 25 characters
returns 0 with `outsize > 0` exactly when the variable is set and its value
with the final NUL fits the buffer. The complement `~flag` is taken in 32
bits. -/
def checkVariable (getenv : WString → Option WString) (initialFlags flag : Nat)
    (var : WString) : Nat :=
  match getenv var with
  | none => initialFlags
  | some result =>
    if result.length + 1 ≤ 25 then
      if wcsicmp_eq result (W "1") then initialFlags ||| flag
      else if wcsicmp_eq result (W "0") then initialFlags &&& (0xFFFFFFFF ^^^ flag)
      else initialFlags
    else initialFlags

/-- Source function `CreateStartupFlags` (corerundll.cpp 459-491). -/
def CreateStartupFlags (K : MsCoree) (getenv : WString → Option WString) : Nat :=
  let initialFlags :=
    K.STARTUP_LOADER_OPTIMIZATION_SINGLE_DOMAIN ||| K.STARTUP_SINGLE_APPDOMAIN |||
      K.STARTUP_CONCURRENT_GC
  let initialFlags := checkVariable getenv initialFlags K.STARTUP_SERVER_GC serverGcVar
  let initialFlags := checkVariable getenv initialFlags K.STARTUP_CONCURRENT_GC concurrentGcVar
  initialFlags

/-! ## The lifecycle -/

/-- Source function `UnloadStopHost` (corerundll.cpp 595-649): the HRESULT returned and the
globals after the call. -/
def UnloadStopHost (E : Engine) (g : Globals) : Int × Globals :=
  match GetGlobalHost g with
  | some _ =>
    let unloaded := g.call E (.UnloadAppDomain2 (GetDomainId g) true)
    if FAILED unloaded.1 then (unloaded.1, unloaded.2)
    else
      let stopped := unloaded.2.call E .Stop
      if FAILED stopped.1 then (stopped.1, stopped.2)
      else
        let released := stopped.2.call E .Release
        (stopped.1, SetDomainId (SetGlobalHost released.2 none) 0xFFFFFFFF)
  | none => (E_HANDLE, SetDomainId (SetGlobalHost g none) 0xFFFFFFFF)

/-- The property keys of `StartHost` (corerundll.cpp 833-838). -/
def property_keys : List WString :=
  [W "TRUSTED_PLATFORM_ASSEMBLIES", W "APP_PATHS", W "APP_NI_PATHS",
    W "NATIVE_DLL_SEARCH_DIRECTORIES"]

/-- Source function `StartHost` (corerundll.cpp 651-895): the BOOLEAN returned, the value left
in `exitCode`, and the globals after the call. The result is `none` where the
C++ code reads through a null pointer (`coreLibraries` at line 756, `coreRoot`
at line 811), runs off the front of `targetAssemblyPath` because the full path
has no backslash (lines 709-713), or the constructor of `HostEnvironment`
throws. Waiting for the debugger only reads the console and writes the log. -/
def StartHost (os : Win32) (K : MsCoree) (E : Engine) (g : Globals)
    (dllPath : Option WString) (_waitForDebugger : Bool) (exitCode : Int)
    (coreRoot coreLibraries : Option WString) : Option (Bool × Int × Globals) :=
  if GetGlobalHost g ≠ none then some (false, exitCode, g)
  else
    match HostEnvironment.ctor os coreRoot with
    | none => none
    | some hostEnvironment =>
      match dllPath with
      | none => some (false, E_INVALIDARG, g)
      | some dllPath =>
        let targetAssembly := os.GetFullPathNameW dllPath
        match wcsrchr targetAssembly '\\' with
        | none => none
        | some i =>
          let targetAssemblyPath := targetAssembly.take i
          let appPath := targetAssemblyPath
          let managedAssemblyFullName := targetAssembly
          let appNiPath := appPath ++ W "NI" ++ W ";" ++ appPath
          let managedAssemblyDirectory := managedAssemblyFullName.take (i + 1)
          match coreLibraries with
          | none => none
          | some coreLibraries =>
            let nativeDllSearchDirs :=
              appPath ++ W ";" ++ managedAssemblyDirectory ++
                (if coreLibraries.length ≠ 0 then W ";" ++ coreLibraries else []) ++
                W ";" ++ hostEnvironment.m_coreCLRDirectoryPath
            let got : HostEnvironment × Option Nat :=
              if GetGlobalHost g = none then GetCLRRuntimeHost os hostEnvironment
              else (hostEnvironment, GetGlobalHost g)
            match got.2 with
            | none => some (false, E_HANDLE, g)
            | some host =>
              let g1 := SetGlobalHost g (some host)
              let flags := CreateStartupFlags K os.getenv
              let flagsSet := g1.call E (.SetStartupFlags flags)
              if FAILED flagsSet.1 then some (false, flagsSet.1, flagsSet.2)
              else
                let started := flagsSet.2.call E .Start
                if FAILED started.1 then some (false, started.1, started.2)
                else
                  let tpaList0 : WString :=
                    if !managedAssemblyFullName.isEmpty then managedAssemblyFullName ++ W ";"
                    else []
                  let env1 :=
                    if coreLibraries.length ≠ 0 then GetTpaList os.fs got.1 coreLibraries
                    else got.1
                  let tpaList1 :=
                    if coreLibraries.length ≠ 0 then tpaList0 ++ env1.m_tpaList else tpaList0
                  match coreRoot with
                  | none => none
                  | some coreRoot =>
                    let env2 := GetTpaList os.fs env1 coreRoot
                    let tpaList := tpaList1 ++ env2.m_tpaList
                    let property_values := [tpaList, appPath, appNiPath, nativeDllSearchDirs]
                    let created := started.2.call E
                      (.CreateAppDomainWithManager env2.m_hostExeName
                        (K.APPDOMAIN_ENABLE_PLATFORM_SPECIFIC_APPS |||
                          K.APPDOMAIN_ENABLE_PINVOKE_AND_CLASSIC_COMINTEROP |||
                          K.APPDOMAIN_DISABLE_TRANSPARENCY_ENFORCEMENT)
                        property_keys property_values)
                    if FAILED created.1 then some (false, created.1, created.2)
                    else
                      some (true, NOERROR, SetDomainId created.2 (E.domainId started.2.calls))

/-! ## The exported functions -/

/-- Modelled from the spec: the argument of `StartCoreCLR` is "{verbose flag,
wait-for-debugger flag, target binary path, engine-root override path, external
library directory path}". The struct is declared in corerundll.h, which is not
among the sources; the field names are those that corerundll.cpp reads, and
the three strings are pointers. -/
structure BinaryLoaderArgs where
  Verbose : Bool
  WaitForDebugger : Bool
  BinaryFilePath : Option WString
  CoreRootPath : Option WString
  CoreLibrariesPath : Option WString

/-- Source function `ValidateArgument` (corerundll.cpp 897-913). -/
def ValidateArgument (argument : Option WString) (maxSize : Nat) : Int :=
  match argument with
  | some argument =>
    if argument.length ≥ maxSize then E_INVALIDARG else S_OK
  | none => E_INVALIDARG

/-- Source function `ValidateBinaryLoaderArgs` (corerundll.cpp 930-944). -/
def ValidateBinaryLoaderArgs (args : Option BinaryLoaderArgs) : Int :=
  match args with
  | some args =>
    if SUCCEEDED (ValidateArgument args.BinaryFilePath MAX_PATH)
        && SUCCEEDED (ValidateArgument args.CoreRootPath MAX_PATH)
        && SUCCEEDED (ValidateArgument args.CoreLibrariesPath MAX_PATH) then S_OK
    else E_INVALIDARG
  | none => E_INVALIDARG

/-- Source function `StartCoreCLRInternal` (corerundll.cpp 947-978): the HRESULT returned and
the globals after the call. Enabling or disabling the logger is left out. -/
def StartCoreCLRInternal (os : Win32) (K : MsCoree) (E : Engine) (g : Globals)
    (dllPath : Option WString) (_verbose waitForDebugger : Bool)
    (coreRoot coreLibraries : Option WString) : Option (Int × Globals) :=
  let exitCode : Int := -1
  match StartHost os K E g dllPath waitForDebugger exitCode coreRoot coreLibraries with
  | none => none
  | some (_, exitCode, g) => some (exitCode, g)

/-- Source function `StartCoreCLR` (corerundll.cpp 980-995). -/
def StartCoreCLR (os : Win32) (K : MsCoree) (E : Engine) (g : Globals)
    (args : Option BinaryLoaderArgs) : Option (Int × Globals) :=
  if SUCCEEDED (ValidateBinaryLoaderArgs args) then
    match args with
    | some args =>
      StartCoreCLRInternal os K E g args.BinaryFilePath args.Verbose args.WaitForDebugger
        args.CoreRootPath args.CoreLibrariesPath
    | none => none
  else some (E_INVALIDARG, g)

/-- Source function `UnloadRunTime` (corerundll.cpp 1016-1023). -/
def UnloadRunTime (E : Engine) (g : Globals) : Int × Globals := UnloadStopHost E g

/-! ## Vocabulary of the claims about `GetTpaList`, the flags and `StartHost` -/

/-- The value of `m_tpaList` after `GetTpaList(coreLibsPath)`, as a function of
its value before the call and of `m_coreCLRDirectoryPath`. -/
def tpaListAfter (fs : FileSystem) (m_coreCLRDirectoryPath m_tpaList coreLibsPath : WString) :
    WString :=
  let scanned :=
    if m_tpaList.isEmpty then
      AddFilesFromDirectoryToTPAList fs m_tpaList (m_coreCLRDirectoryPath ++ W "\\")
        rgTPAExtensions
    else m_tpaList
  if coreLibsPath ≠ m_coreCLRDirectoryPath then
    AddFilesFromDirectoryToTPAList fs scanned (coreLibsPath ++ W "\\") rgTPAExtensions
  else scanned

/-- The property "every included file has the highest-priority extension among
the scanned files of its stem": a scanned file whose entry occurs in the list
has a rank at most that of every scanned file with the same stem. -/
def HighestPriorityIncluded (exts : List WString) (scan : List ScannedFile)
    (tpa : WString) : Prop :=
  ∀ e ∈ scan, entryOf e <:+: tpa →
    ∀ f ∈ scan, stemOf f = stemOf e →
      extensionRank exts e.2.cFileName ≤ extensionRank exts f.2.cFileName

/-- The target paths that `GetTpaList(coreLibsPath)` scans when `m_tpaList` is
empty, in order: the engine directory, then the library directory unless it is
the same string. -/
def scannedPaths (m_coreCLRDirectoryPath coreLibsPath : WString) : List WString :=
  if coreLibsPath ≠ m_coreCLRDirectoryPath then
    [m_coreCLRDirectoryPath ++ W "\\", coreLibsPath ++ W "\\"]
  else [m_coreCLRDirectoryPath ++ W "\\"]

/-- The assumption on the startup enumerators of `mscoree.h`: they fit 32 bits,
the two GC flags are non-zero, and the two GC flags have no bit in common with
each other or with the two flags that are always set. -/
def MsCoree.StartupFlagsDistinct (K : MsCoree) : Prop :=
  K.STARTUP_CONCURRENT_GC < 2 ^ 32 ∧
  K.STARTUP_LOADER_OPTIMIZATION_SINGLE_DOMAIN < 2 ^ 32 ∧
  K.STARTUP_SERVER_GC < 2 ^ 32 ∧
  K.STARTUP_SINGLE_APPDOMAIN < 2 ^ 32 ∧
  K.STARTUP_CONCURRENT_GC ≠ 0 ∧
  K.STARTUP_SERVER_GC ≠ 0 ∧
  K.STARTUP_CONCURRENT_GC &&& K.STARTUP_SERVER_GC = 0 ∧
  K.STARTUP_CONCURRENT_GC &&&
    (K.STARTUP_LOADER_OPTIMIZATION_SINGLE_DOMAIN ||| K.STARTUP_SINGLE_APPDOMAIN) = 0 ∧
  K.STARTUP_SERVER_GC &&&
    (K.STARTUP_LOADER_OPTIMIZATION_SINGLE_DOMAIN ||| K.STARTUP_SINGLE_APPDOMAIN) = 0

/-- The TRUSTED_PLATFORM_ASSEMBLIES value that `StartHost` builds (corerundll.cpp
799-811) from the full path of the target, `coreLibraries` and `coreRoot`, in
an environment `env`: the target and a semicolon, the string returned by
`GetTpaList(coreLibraries)` when `coreLibraries` is not empty, then the string
returned by `GetTpaList(coreRoot)`. -/
def trustedListOf (fs : FileSystem) (env : HostEnvironment)
    (managedAssemblyFullName coreLibraries coreRoot : WString) : WString :=
  managedAssemblyFullName ++ W ";" ++
    (if coreLibraries.length ≠ 0 then (GetTpaList fs env coreLibraries).m_tpaList else []) ++
    (GetTpaList fs
      (if coreLibraries.length ≠ 0 then GetTpaList fs env coreLibraries else env)
      coreRoot).m_tpaList

/-- The property "at most one entry per case-insensitive base name" of a
semicolon-joined list. -/
def OneEntryPerBaseName (tpa : WString) : Prop :=
  ((splitEntries tpa).map baseNameOf).Nodup

/-! ## The invocation bridge of corerundll.cpp -/

/-- The digit table of `ConvertToHexString` (corerundll.cpp 501). -/
def hexDigits : List Char := "0123456789ABCDEF".data

/-- The loop of `ConvertToHexString` (corerundll.cpp 503-505) with `remaining`
characters still to write and the shift count `j`, for a 64-bit `input`. The
expression `(input >> j) & 0x0f` is the remainder modulo 16 of the arithmetic
shift; a shift count of 64 or more is undefined for a 64-bit operand, which
gives `none`. The step `j -= 4` after the last character is never used. -/
def ConvertToHexString_loop (input : Int) : Nat → Nat → Option (List Char)
  | 0, _ => some []
  | remaining + 1, j =>
    if 64 ≤ j then none
    else
      match ConvertToHexString_loop input remaining (j - 4) with
      | none => none
      | some rest => some (hexDigits.getD (((input >>> j) % 16).toNat) '0' :: rest)

/-- Source function `ConvertToHexString` (corerundll.cpp 493-507) at the type
`LONGLONG`: `none` where a shift is undefined. -/
def ConvertToHexString (input : Int) (hex_len : Nat) : Option (List Char) :=
  ConvertToHexString_loop input hex_len ((hex_len - 1) * 4)

/-- The fields of `RemoteFunctionArgs` that corerundll.cpp copies (lines
579-580): a pointer and a size, as numbers. The struct is declared in
corerundll.h, which is not among the sources. -/
structure RemoteFunctionArgs where
  UserData : Nat
  UserDataSize : Nat
  deriving DecidableEq, Repr

/-- Source function `ExecuteAssemblyClassFunction` (corerundll.cpp 540-593): the
HRESULT returned and the globals after the call. `entryInfoAddress` is the
address of the local `EntryInfo`, converted to `LONGLONG`. The call of the
delegate is recorded with the argument string it receives (`none` for NULL).
The test `FAILED(hr) || pfnDelegate == NULL` of line 568 is the two branches
that return `hr` before any delegate is called. The result is `none` only where
`ConvertToHexString` is undefined. -/
def ExecuteAssemblyClassFunction (E : Engine) (g : Globals) (entryInfoAddress : Int)
    (assembly type entry : WString) (arguments : Option RemoteFunctionArgs) :
    Option (Int × Globals) :=
  match GetGlobalHost g with
  | none => some (E_HANDLE, g)
  | some _ =>
    let created := g.call E (.CreateDelegate (GetDomainId g) assembly type entry)
    match E.delegate g.calls with
    | none => some (created.1, created.2)
    | some pfnDelegate =>
      if FAILED created.1 then some (created.1, created.2)
      else
        match arguments with
        | some _ =>
          match ConvertToHexString entryInfoAddress 16 with
          | none => none
          | some paramString =>
            some (created.1,
              (created.2.call E (.InvokeDelegate pfnDelegate (some paramString))).2)
        | none => some (created.1, (created.2.call E (.InvokeDelegate pfnDelegate none)).2)

/-- Modelled from the spec: the argument of `ExecuteAssemblyFunction` is
"{assembly name, type name, method name - each bounded to a fixed maximum
length - opaque fixed-size argument descriptor}". The struct is declared in
corerundll.h, which is not among the sources; the field names are those that
corerundll.cpp reads, and the strings and the descriptor are pointers. -/
structure AssemblyFunctionCall where
  Assembly : Option WString
  Class : Option WString
  Function : Option WString
  Arguments : Option RemoteFunctionArgs

/-- Source function `ValidateAssemblyFunctionCallArgs` (corerundll.cpp 915-928).
The bound `FunctionNameSize` is defined in corerundll.h, which is not among the
sources, and is a parameter. -/
def ValidateAssemblyFunctionCallArgs (FunctionNameSize : Nat)
    (args : Option AssemblyFunctionCall) : Int :=
  match args with
  | some args =>
    if SUCCEEDED (ValidateArgument args.Assembly FunctionNameSize)
        && SUCCEEDED (ValidateArgument args.Class FunctionNameSize)
        && SUCCEEDED (ValidateArgument args.Function FunctionNameSize) then S_OK
    else E_INVALIDARG
  | none => E_INVALIDARG

/-- Source function `ExecuteAssemblyFunction` (corerundll.cpp 998-1013). -/
def ExecuteAssemblyFunction (FunctionNameSize : Nat) (E : Engine) (g : Globals)
    (entryInfoAddress : Int) (args : Option AssemblyFunctionCall) : Option (Int × Globals) :=
  if SUCCEEDED (ValidateAssemblyFunctionCallArgs FunctionNameSize args) then
    match args with
    | some args =>
      match args.Assembly, args.Class, args.Function with
      | some assembly, some type, some function =>
        ExecuteAssemblyClassFunction E g entryInfoAddress assembly type function args.Arguments
      | _, _, _ => none
    | none => none
  else some (E_INVALIDARG, g)

/-! ## The coreload library: `path_utils.cc`, `host_startup_info.cc`, `coreload_dll.cc` -/

namespace coreload

/-- The platform layer `pal` (pal.h) is not among the sources: the constants
and functions of it that the embedded code uses are parameters. `realpath`
gives the boolean it returns and the content it leaves in its argument;
`get_own_executable_path` likewise. -/
structure Pal where
  DIR_SEPARATOR : Char
  exe_suffix : WString
  is_path_rooted : WString → Bool
  strcmp : WString → WString → Int
  strcasecmp : WString → WString → Int
  realpath : WString → Bool × WString
  get_own_executable_path : Bool × WString

/-- The enumerators of `StatusCode` (status_code.h, not among the sources) that
the embedded code uses: their values are parameters. -/
structure StatusCode where
  Success : Int
  InvalidArgFailure : Int
  HostApiFailed : Int
  LibHostCurExeFindFailure : Int

/-- The string left by `while (!ret.empty() && ret.back() == sep) ret.pop_back()`. -/
def pop_back_while (sep : Char) (ret : WString) : WString :=
  (ret.reverse.dropWhile (fun c => c == sep)).reverse

/-- Source function `get_filename` (path_utils.cc 6-16). -/
def get_filename (pal : Pal) (path : WString) : WString :=
  if path.isEmpty then path
  else
    match wcsrchr path pal.DIR_SEPARATOR with
    | none => path
    | some name_pos => path.drop (name_pos + 1)

/-- Source function `append_path` (path_utils.cc 18-28): the new content of
`path1`. -/
def append_path (pal : Pal) (path1 path2 : WString) : WString :=
  if pal.is_path_rooted path2 then path2
  else
    (if !path1.isEmpty && path1.getLast? != some pal.DIR_SEPARATOR then
      path1 ++ [pal.DIR_SEPARATOR]
    else path1) ++ path2

/-- Source function `get_directory` (path_utils.cc 43-61). The second loop moves
`pos` from the last separator down over the separators in front of it, so
`ret.substr(0, pos + 1)` is the part up to that separator with its trailing
separators removed. -/
def get_directory (pal : Pal) (path : WString) : WString :=
  let ret := pop_back_while pal.DIR_SEPARATOR path
  match wcsrchr ret pal.DIR_SEPARATOR with
  | none => ret ++ [pal.DIR_SEPARATOR]
  | some path_sep =>
    pop_back_while pal.DIR_SEPARATOR (ret.take (path_sep + 1)) ++ [pal.DIR_SEPARATOR]

/-- Source function `ends_with` (path_utils.cc 91-95). -/
def ends_with (pal : Pal) (value suffix : WString) (match_case : Bool) : Bool :=
  let cmp := if match_case then pal.strcmp else pal.strcasecmp
  decide (value.length ≥ suffix.length) &&
    cmp (value.drop (value.length - suffix.length)) suffix == 0

/-- Source function `strip_executable_ext` (path_utils.cc 97-111). -/
def strip_executable_ext (pal : Pal) (filename : WString) : WString :=
  let exe_suffix := pal.exe_suffix
  if exe_suffix.isEmpty then filename
  else if ends_with pal filename exe_suffix false then
    filename.take (filename.length - exe_suffix.length)
  else filename

/-- The data members of `host_startup_info_t` (host_startup_info.h 25-27). -/
structure host_startup_info_t where
  host_path : WString
  dotnet_root : WString
  app_path : WString
  deriving DecidableEq, Repr

/-- Source function `get_path_from_argv` (host_startup_info.cc 17-28): the
boolean returned, the content left in `path`, and the strings passed to
`pal::realpath`. -/
def get_path_from_argv (pal : Pal) (path : WString) : Bool × WString × List WString :=
  if pal.DIR_SEPARATOR ∈ path then ((pal.realpath path).1, (pal.realpath path).2, [path])
  else (false, path, [])

/-- What `get_host_path` leaves behind: the status returned, the content of
`host_path`, the strings passed to `pal::realpath` (oldest first), and whether
`pal::get_own_executable_path` was called. -/
structure HostPathResult where
  status : Int
  host_path : WString
  canonicalized : List WString
  askedExecutable : Bool
  deriving DecidableEq, Repr

/-- Source function `host_startup_info_t::get_host_path` (host_startup_info.cc
62-83). `host_path` is the content of the string on entry. The result is `none`
when `argc >= 1` and `argv` has no element 0. -/
def get_host_path (pal : Pal) (S : StatusCode) (argc : Int) (argv : List WString)
    (host_path : WString) : Option HostPathResult :=
  let fromArgv : Option (WString × List WString) :=
    if argc ≥ 1 then
      match argv.head? with
      | none => none
      | some argv0 =>
        if !argv0.isEmpty then
          if !(get_path_from_argv pal argv0).1 then
            some ([], (get_path_from_argv pal argv0).2.2)
          else some ((get_path_from_argv pal argv0).2.1, (get_path_from_argv pal argv0).2.2)
        else some (argv0, [])
    else some (host_path, [])
  match fromArgv with
  | none => none
  | some (host_path, canonicalized) =>
    if host_path.isEmpty then
      if !pal.get_own_executable_path.1 then
        some ⟨S.LibHostCurExeFindFailure, pal.get_own_executable_path.2, canonicalized, true⟩
      else if !(pal.realpath pal.get_own_executable_path.2).1 then
        some ⟨S.LibHostCurExeFindFailure, (pal.realpath pal.get_own_executable_path.2).2,
          canonicalized ++ [pal.get_own_executable_path.2], true⟩
      else
        some ⟨0, (pal.realpath pal.get_own_executable_path.2).2,
          canonicalized ++ [pal.get_own_executable_path.2], true⟩
    else some ⟨0, host_path, canonicalized, false⟩

/-- Source function `host_startup_info_t::parse` (host_startup_info.cc 30-49):
the status returned and the object after the call. The value returned by
`get_host_path` is not used. -/
def host_startup_info_t.parse (pal : Pal) (S : StatusCode) (info : host_startup_info_t)
    (argc : Int) (argv : List WString) : Option (Int × host_startup_info_t) :=
  match get_host_path pal S argc argv info.host_path with
  | none => none
  | some r =>
    let host_path := r.host_path
    let dotnet_root := get_directory pal host_path
    let app_name := get_filename pal (strip_executable_ext pal host_path)
    let app_path := append_path pal dotnet_root app_name ++ W ".dll"
    some (0, { host_path := host_path, dotnet_root := dotnet_root, app_path := app_path })

/-- Source function `host_startup_info_t::is_valid` (host_startup_info.cc 51-56). -/
def host_startup_info_t.is_valid (info : host_startup_info_t) : Bool :=
  !info.host_path.isEmpty && !info.dotnet_root.isEmpty && !info.app_path.isEmpty

/-- The record `RemoteEntryInfo` that the delegate receives by address
(coreload_dll.cc 48-52, 146-154). -/
structure RemoteEntryInfo where
  HostPID : Nat
  UserData : Nat
  UserDataSize : Nat
  deriving DecidableEq, Repr

/-- What `ExecuteAssemblyClassFunction` of the coreload library leaves behind:
the status returned and the delegate calls made, each with the pointer called
and the record passed (`none` for the null argument). -/
structure ExecuteResult where
  exit_code : Int
  invoked : List (Nat × Option RemoteEntryInfo)
  deriving DecidableEq, Repr

/-- Source function `CreateAssemblyDelegate` (coreload_dll.cc 119-131): the
status returned and the pointer stored through `pfnDelegate`.
`fx_muxer_t::create_delegate` is not among the sources and is a parameter. -/
def CreateAssemblyDelegate (create_delegate : WString → WString → WString → Int × Option Nat)
    (assembly_name type_name method_name : WString) : Int × Option Nat :=
  create_delegate assembly_name type_name method_name

/-- Source function `ExecuteAssemblyClassFunction` (coreload_dll.cc 133-168).
`pid` is what `GetCurrentProcessId()` returns. The result is `none` when the
delegate was created with a success status and a null pointer, which the code
calls. -/
def ExecuteAssemblyClassFunction (S : StatusCode)
    (create_delegate : WString → WString → WString → Int × Option Nat) (pid : Nat)
    (assembly type entry : WString) (arguments : Option CoreHook.RemoteFunctionArgs) :
    Option ExecuteResult :=
  let created := CreateAssemblyDelegate create_delegate assembly type entry
  if SUCCEEDED created.1 then
    match created.2 with
    | none => none
    | some pfnDelegate =>
      match arguments with
      | some remoteArgs =>
        some ⟨created.1,
          [(pfnDelegate, some ⟨pid, remoteArgs.UserData, remoteArgs.UserDataSize⟩)]⟩
      | none => some ⟨created.1, [(pfnDelegate, none)]⟩
  else some ⟨S.InvalidArgFailure, []⟩

end coreload

/-! ## Vocabulary of the claims about arguments, the hex string and the loader -/

/-- A string argument that `ValidateArgument` rejects for a bound: the null
pointer, or a string whose length reaches the bound. -/
def InvalidString (argument : Option WString) (bound : Nat) : Prop :=
  argument = none ∨ ∃ s, argument = some s ∧ s.length ≥ bound

/-- The arguments of `StartCoreCLR` that the claim about validation names:
the null struct, or a struct with a path field that is null or as long as
`MAX_PATH`. -/
def InvalidBinaryLoaderArgs (args : Option BinaryLoaderArgs) : Prop :=
  args = none ∨ ∃ a, args = some a ∧
    (InvalidString a.BinaryFilePath MAX_PATH ∨ InvalidString a.CoreRootPath MAX_PATH ∨
      InvalidString a.CoreLibrariesPath MAX_PATH)

/-- The arguments of `ExecuteAssemblyFunction` that the claim about validation
names: the null struct, or a struct with a name field that is null or as long
as `FunctionNameSize`. -/
def InvalidAssemblyFunctionCall (FunctionNameSize : Nat)
    (args : Option AssemblyFunctionCall) : Prop :=
  args = none ∨ ∃ a, args = some a ∧
    (InvalidString a.Assembly FunctionNameSize ∨ InvalidString a.Class FunctionNameSize ∨
      InvalidString a.Function FunctionNameSize)

/-- The value of a hexadecimal digit of `hexDigits`; `none` for another
character. -/
def hexDigitValue (c : Char) : Option Nat :=
  if c ∈ hexDigits then some (hexDigits.indexOf c) else none

/-- The number that a string of hexadecimal digits denotes, most significant
digit first; `none` when a character is not a digit of `hexDigits`. -/
def hexValue : List Char → Option Nat
  | [] => some 0
  | c :: cs =>
    match hexDigitValue c, hexValue cs with
    | some d, some v => some (d * 16 ^ cs.length + v)
    | _, _ => none

/-- The signed 64-bit integer with a given bit pattern below `2^64`. -/
def toSigned64 (v : Nat) : Int :=
  if v < 2 ^ 63 then (v : Int) else (v : Int) - 2 ^ 64

/-- The candidate directories of the loader in the order of the spec: "an
explicit override directory (if provided), then the host's own directory, then
a well-known system-default install directory". -/
def candidateDirectories (os : Win32) (coreRootPath : Option WString)
    (hostDirectory : WString) : List WString :=
  (match coreRootPath with
    | some root => [root ++ W "\\"]
    | none => []) ++
  [hostDirectory, os.ExpandEnvironmentStringsW coreCLRInstallDirectory]

/-- The loader in the words of the spec: "Tries each candidate directory in
order ... stopping at the first directory where the engine shared library
loads successfully". The result is the paths tried, in order, and the module
kept. -/
def loadFirst (os : Win32) : List WString → List WString × Option Nat
  | [] => ([], none)
  | d :: ds =>
    match (TryLoadCoreCLR os d).1 with
    | some m => ([(TryLoadCoreCLR os d).2], some m)
    | none => ((TryLoadCoreCLR os d).2 :: (loadFirst os ds).1, (loadFirst os ds).2)

namespace coreload

/-- The condition of the spec under which the first argument is used as the
path of the host: there is a first argument, it is not empty, it contains a
directory separator, and `pal::realpath` succeeds on it. -/
def usesArgv0 (pal : Pal) (argc : Int) (argv : List WString) : Prop :=
  argc ≥ 1 ∧ ∃ argv0, argv.head? = some argv0 ∧ argv0 ≠ [] ∧
    pal.DIR_SEPARATOR ∈ argv0 ∧ (pal.realpath argv0).1 = true

end coreload

/-! ## The coreload library: `strip_file_ext`, `replace_char`, `get_replaced_char` -/

namespace coreload

/-- C++ library: `path.rfind(needle)` for a string `needle`, the index of the
last place where `needle` occurs in `path` as a contiguous run of characters
(`none` for `npos`). -/
def string_rfind : WString → WString → Option Nat
  | [], needle => if needle.isEmpty then some 0 else none
  | x :: xs, needle =>
    match string_rfind xs needle with
    | some k => some (k + 1)
    | none => if needle.isPrefixOf (x :: xs) then some 0 else none

/-- C++ library: `path.find(c, pos)` for a character `c`, the index of the first
occurrence of `c` at or after `pos` (`none` for `npos`). -/
def string_find : WString → Char → Nat → Option Nat
  | [], _, _ => none
  | x :: xs, c, 0 => if x = c then some 0 else (string_find xs c 0).map (fun k => k + 1)
  | _ :: xs, c, pos + 1 => (string_find xs c pos).map (fun k => k + 1)

/-- Source function `strip_file_ext` (path_utils.cc 112-122). The argument of the
first `rfind` is the string of the two characters slash and backslash; the
second `rfind` looks for the character `.`, as `wcsrchr` does. A position
`npos` is the largest value of `size_t`, so `sep_pos > dot_pos` is false when
`dot_pos` is `npos`, and `substr(0, npos)` is the whole string. -/
def strip_file_ext (path : WString) : WString :=
  if path.isEmpty then path
  else
    let sep_pos := string_rfind path (W "/\\")
    let dot_pos := wcsrchr path '.'
    let after_dot : Bool :=
      match sep_pos, dot_pos with
      | some s, some d => decide (s > d)
      | _, _ => false
    if sep_pos ≠ none ∧ after_dot = true then path
    else
      match dot_pos with
      | some d => path.take d
      | none => path

/-- Source function `host_startup_info_t::get_app_name` (host_startup_info.cc
58-60). -/
def host_startup_info_t.get_app_name (pal : Pal) (info : host_startup_info_t) : WString :=
  get_filename pal (strip_file_ext info.app_path)

/-- The value of the variable `int pos` after `pos = p` for a value `p` of
`size_t`: the low 32 bits of `p` read as a signed number. The argument `none`
is `npos`, whose bits are all set, and gives -1. -/
def to_int (p : Option Nat) : Int :=
  match p with
  | none => -1
  | some p =>
    if p % 2 ^ 32 < 2 ^ 31 then ((p % 2 ^ 32 : Nat) : Int)
    else ((p % 2 ^ 32 : Nat) : Int) - 2 ^ 32

/-- How a run of one of the two replacement loops ends: the function returned
a string, it accessed an element out of range, or the loop is still running
after the number of iterations that was allowed. -/
inductive LoopResult where
  | done (s : WString)
  | undefined
  | running
  deriving DecidableEq, Repr

/-- The loop of `replace_char` (path_utils.cc 71-73), run for at most the given
number of evaluations of its condition, from the current content of `*path`
and the current value of `pos`. The comparison `pos != npos` converts `pos` to
`size_t`, so it is false exactly for the value -1. -/
def replace_char_loop (mtch repl : Char) : Nat → WString → Int → LoopResult
  | 0, _, _ => .running
  | fuel + 1, path, pos =>
    if to_int (string_find path mtch pos.toNat) = -1 then .done path
    else if to_int (string_find path mtch pos.toNat) < 0 ∨
        (to_int (string_find path mtch pos.toNat)).toNat ≥ path.length then .undefined
    else
      replace_char_loop mtch repl fuel
        (path.set (to_int (string_find path mtch pos.toNat)).toNat repl)
        (to_int (string_find path mtch pos.toNat))

/-- Source function `replace_char` (path_utils.cc 69-74): the content of `*path`
when the function returns. -/
def replace_char (fuel : Nat) (path : WString) (mtch repl : Char) : LoopResult :=
  replace_char_loop mtch repl fuel path 0

/-- The `do ... while` loop of `get_replaced_char` (path_utils.cc 37-39), run for
at most the given number of executions of its body, from the current content
of `out` and the current value of `pos`. -/
def get_replaced_char_loop (mtch repl : Char) : Nat → WString → Int → LoopResult
  | 0, _, _ => .running
  | fuel + 1, out, pos =>
    if pos < 0 ∨ pos.toNat ≥ out.length then .undefined
    else if to_int (string_find (out.set pos.toNat repl) mtch pos.toNat) = -1 then
      .done (out.set pos.toNat repl)
    else
      get_replaced_char_loop mtch repl fuel (out.set pos.toNat repl)
        (to_int (string_find (out.set pos.toNat repl) mtch pos.toNat))

/-- Source function `get_replaced_char` (path_utils.cc 30-42). -/
def get_replaced_char (fuel : Nat) (path : WString) (mtch repl : Char) : LoopResult :=
  if to_int (string_find path mtch 0) = -1 then .done path
  else get_replaced_char_loop mtch repl fuel path (to_int (string_find path mtch 0))

/-- The string of the claim about the two functions: "every occurrence of
match replaced by repl and every other character unchanged". -/
def replaceAll (mtch repl : Char) (path : WString) : WString :=
  path.map (fun c => if c = mtch then repl else c)

end coreload

/-! ## Vocabulary of the claims about sequences of `GetTpaList` calls -/

/-- The target paths that one call `GetTpaList(coreLibsPath)` scans, in order:
the engine directory when `m_tpaList` is empty, then the library directory
unless it is the same string as the engine directory. -/
def scansOfCall (env : HostEnvironment) (coreLibsPath : WString) : List WString :=
  (if env.m_tpaList.isEmpty then [env.m_coreCLRDirectoryPath ++ W "\\"] else []) ++
  (if coreLibsPath ≠ env.m_coreCLRDirectoryPath then [coreLibsPath ++ W "\\"] else [])

/-- The target paths that a sequence of `GetTpaList` calls on one environment
scans, in order. -/
def scansOfCalls (fs : FileSystem) : HostEnvironment → List WString → List WString
  | _, [] => []
  | env, p :: ps => scansOfCall env p ++ scansOfCalls fs (GetTpaList fs env p) ps

/-! ## Example inputs -/

/-- The values of the enumerators in the `mscoree.h` of CoreCLR. -/
def coreclrHeader : MsCoree where
  STARTUP_CONCURRENT_GC := 0x1
  STARTUP_LOADER_OPTIMIZATION_SINGLE_DOMAIN := 0x2
  STARTUP_SERVER_GC := 0x1000
  STARTUP_SINGLE_APPDOMAIN := 0x800000
  APPDOMAIN_ENABLE_PLATFORM_SPECIFIC_APPS := 0x40
  APPDOMAIN_ENABLE_PINVOKE_AND_CLASSIC_COMINTEROP := 0x10
  APPDOMAIN_DISABLE_TRANSPARENCY_ENFORCEMENT := 0x100

/-- Windows SDK: `FILE_ATTRIBUTE_ARCHIVE`, the attribute of an ordinary file. -/
def FILE_ATTRIBUTE_ARCHIVE : Nat := 0x20

/-- Two directories: `A` holds foo.ni.dll and foo.dll, `B` holds foo.dll and
bar.dll. -/
def fsTwoDirectories : FileSystem := fun d =>
  if d = W "A\\" then
    [⟨FILE_ATTRIBUTE_ARCHIVE, W "foo.ni.dll"⟩, ⟨FILE_ATTRIBUTE_ARCHIVE, W "foo.dll"⟩]
  else if d = W "B\\" then
    [⟨FILE_ATTRIBUTE_ARCHIVE, W "foo.dll"⟩, ⟨FILE_ATTRIBUTE_ARCHIVE, W "bar.dll"⟩]
  else []

/-- An engine directory `C:\e` with Foo.dll and a library directory `C:\l`
with foo.ni.dll. -/
def fsEngineAndLibraries : FileSystem := fun d =>
  if d = W "C:\\e\\" then [⟨FILE_ATTRIBUTE_ARCHIVE, W "Foo.dll"⟩]
  else if d = W "C:\\l\\" then [⟨FILE_ATTRIBUTE_ARCHIVE, W "foo.ni.dll"⟩]
  else []

/-- A freshly constructed environment whose engine was loaded from `C:\e`. -/
def envEngineInE : HostEnvironment where
  m_hostPath := W "C:\\h\\host.exe"
  m_hostDirectoryPath := W "C:\\h\\"
  m_hostExeName := W "host.exe"
  m_tpaList := []
  m_CLRRuntimeHost := none
  m_coreCLRModule := some 1
  m_coreCLRDirectoryPath := W "C:\\e"
  attempted := [W "C:\\e\\CoreCLR.dll"]

/-- A system with the host in `C:\h` and the engine in `C:\e`; module 1 is the
engine library, interface pointer 7 its hosting interface. The directory of the
engine holds one ordinary file, `app.dll`, given by the parameter. -/
def osEngineInE (engineFiles : List WIN32_FIND_DATA) : Win32 where
  GetModuleFileNameW := fun h =>
    match h with
    | none => some (W "C:\\h\\host.exe")
    | some _ => some (W "C:\\e\\CoreCLR.dll")
  LoadLibraryExW := fun path => if path = W "C:\\e\\CoreCLR.dll" then some 1 else none
  GetModuleHandleExW := fun _ => true
  ExpandEnvironmentStringsW := fun _ => W "C:\\Windows\\system32\\"
  GetCLRRuntimeHost := fun _ => some (0, some 7)
  GetFullPathNameW := fun path => path
  getenv := fun _ => none
  fs := fun d => if d = W "C:\\e\\" then engineFiles else []

/-- An engine on which every call succeeds; the context identifier is 1. -/
def engineAllSucceed : Engine where
  hresult := fun _ _ => 0
  domainId := fun _ => 1
  delegate := fun _ => none

/-- An engine that rejects the startup flags with `E_FAIL` and accepts every
other call. -/
def engineRejectsFlags : Engine where
  hresult := fun _ c =>
    match c with
    | .SetStartupFlags _ => E_FAIL
    | _ => 0
  domainId := fun _ => 1
  delegate := fun _ => none

/-- An engine that accepts the startup flags and fails `Start` with `E_FAIL`. -/
def engineRejectsStart : Engine where
  hresult := fun _ c =>
    match c with
    | .Start => E_FAIL
    | _ => 0
  domainId := fun _ => 1
  delegate := fun _ => none

/-- An engine on which unloading the context fails with `E_FAIL`. -/
def engineUnloadFails : Engine where
  hresult := fun _ c =>
    match c with
    | .UnloadAppDomain2 _ _ => E_FAIL
    | _ => 0
  domainId := fun _ => 1
  delegate := fun _ => none

/-- An engine on which `Stop` fails with `E_FAIL`. -/
def engineStopFails : Engine where
  hresult := fun _ c =>
    match c with
    | .Stop => E_FAIL
    | _ => 0
  domainId := fun _ => 1
  delegate := fun _ => none

/-- The globals of a process in which no host was started. -/
def globalsUnstarted : Globals := ⟨none, 0, []⟩

/-- The globals of a process with host 7 started and context 1 active. -/
def globalsActive : Globals :=
  ⟨some 7, 1, [.SetStartupFlags 0x800003, .Start,
    .CreateAppDomainWithManager (W "host.exe") 0x150 property_keys []]⟩

/-- An environment block with `COMPlus_gcConcurrent=0` and `COMPlus_gcServer=2`. -/
def getenvConcurrentOff : WString → Option WString := fun var =>
  if var = concurrentGcVar then some (W "0")
  else if var = serverGcVar then some (W "2")
  else none

/-- The globals after a successful `StartHost` on the example system with the
target `C:\e\app.dll` in the engine directory and no library directory. -/
def globalsAfterStart : Globals :=
  ⟨some 7, 1, [.SetStartupFlags 0x800003, .Start,
    .CreateAppDomainWithManager (W "host.exe") 0x150 property_keys
      [W "C:\\e\\app.dll;C:\\e\\app.dll;", W "C:\\e", W "C:\\eNI;C:\\e",
        W "C:\\e;C:\\e\\;C:\\e"]]⟩

/-- Arguments of `StartCoreCLR` for the target `C:\e\app.dll`, the engine root
`C:\e` and no library directory. -/
def argsApp : BinaryLoaderArgs where
  Verbose := false
  WaitForDebugger := false
  BinaryFilePath := some (W "C:\\e\\app.dll")
  CoreRootPath := some (W "C:\\e")
  CoreLibrariesPath := some []

/-- An engine on which creating the execution context fails with `E_FAIL` and
unloading a context fails with `E_FAIL` as long as none was created; every
other call succeeds. -/
def engineNoContext : Engine where
  hresult := fun _ c =>
    match c with
    | .CreateAppDomainWithManager _ _ _ _ => E_FAIL
    | .UnloadAppDomain2 _ _ => E_FAIL
    | _ => 0
  domainId := fun _ => 1
  delegate := fun _ => none

/-- The globals after a `StartHost` on the example system in which the engine
started and the creation of the execution context failed. -/
def globalsNoContext : Globals :=
  ⟨some 7, 0, [.SetStartupFlags 0x800003, .Start,
    .CreateAppDomainWithManager (W "host.exe") 0x150 property_keys
      [W "C:\\e\\app.dll;", W "C:\\e", W "C:\\eNI;C:\\e", W "C:\\e;C:\\e\\;C:\\e"]]⟩

/-- An engine on which `CreateDelegate` returns `S_OK` and stores the null
pointer. -/
def engineNullDelegate : Engine where
  hresult := fun _ _ => 0
  domainId := fun _ => 1
  delegate := fun _ => none

/-- A call of `Program.Main` in `app` with no argument descriptor. -/
def callMain : AssemblyFunctionCall where
  Assembly := some (W "app")
  Class := some (W "Program")
  Function := some (W "Main")
  Arguments := none

/-- A call whose assembly name is the null pointer. -/
def callNullAssembly : AssemblyFunctionCall where
  Assembly := none
  Class := some (W "Program")
  Function := some (W "Main")
  Arguments := none

/-- Arguments of `StartCoreCLR` whose target path is the null pointer. -/
def argsNullBinary : BinaryLoaderArgs where
  Verbose := false
  WaitForDebugger := false
  BinaryFilePath := none
  CoreRootPath := some (W "C:\\e")
  CoreLibrariesPath := some []


/-- A system with the host in `C:\h` and the engine beside it: module 2 is the
engine library, loaded from `C:\h\CoreCLR.dll`; no other directory holds one. -/
def osEngineBesideHost : Win32 where
  GetModuleFileNameW := fun h =>
    match h with
    | none => some (W "C:\\h\\host.exe")
    | some _ => some (W "C:\\h\\CoreCLR.dll")
  LoadLibraryExW := fun path => if path = W "C:\\h\\CoreCLR.dll" then some 2 else none
  GetModuleHandleExW := fun _ => true
  ExpandEnvironmentStringsW := fun _ => W "C:\\Windows\\system32\\"
  GetCLRRuntimeHost := fun _ => some (0, some 7)
  GetFullPathNameW := fun path => path
  getenv := fun _ => none
  fs := fun _ => []

/-- The environment constructed on `osEngineBesideHost` with the override
directory `C:\x`. -/
def envEngineBesideHost : HostEnvironment where
  m_hostPath := W "C:\\h\\host.exe"
  m_hostDirectoryPath := W "C:\\h\\"
  m_hostExeName := W "host.exe"
  m_tpaList := []
  m_CLRRuntimeHost := none
  m_coreCLRModule := some 2
  m_coreCLRDirectoryPath := W "C:\\h"
  attempted := [W "C:\\x\\CoreCLR.dll", W "C:\\h\\CoreCLR.dll"]

/-- Values of the status codes as the .NET host defines them, read as signed
32-bit integers. -/
def statusCodes : coreload.StatusCode where
  Success := 0
  InvalidArgFailure := 0x80008081 - 0x100000000
  HostApiFailed := 0x80008097 - 0x100000000
  LibHostCurExeFindFailure := 0x8000808d - 0x100000000

/-- A platform layer in the manner of Windows: the separator is the backslash,
executables end in `.exe`, a rooted path has a colon in second place, the
comparisons return 0 for equal strings (without regard to case for
`strcasecmp`), the paths that exist are `C:\tools\apphost.exe` and
`C:\run\corehost.exe`, and the running executable is the latter. -/
def palWindows : coreload.Pal where
  DIR_SEPARATOR := '\\'
  exe_suffix := W ".exe"
  is_path_rooted := fun p => (p.drop 1).head? == some ':'
  strcmp := fun a b => if a = b then 0 else 1
  strcasecmp := fun a b => if a.map towlower = b.map towlower then 0 else 1
  realpath := fun p =>
    (decide (p = W "C:\\tools\\apphost.exe" ∨ p = W "C:\\run\\corehost.exe"), p)
  get_own_executable_path := (true, W "C:\\run\\corehost.exe")

/-- The platform layer `palWindows` on which the path of the running executable
cannot be obtained. -/
def palNoExecutable : coreload.Pal :=
  { palWindows with get_own_executable_path := (false, []) }

/-- An engine on which creating the execution context fails with `E_FAIL`, and
so does `CreateDelegate` as no context exists; every other call succeeds. -/
def engineContextFails : Engine where
  hresult := fun _ c =>
    match c with
    | .CreateAppDomainWithManager _ _ _ _ => E_FAIL
    | .CreateDelegate _ _ _ _ => E_FAIL
    | _ => 0
  domainId := fun _ => 1
  delegate := fun _ => none

/-- A file system whose directory `A\` holds `a.ni.dll` and `a.ni.ni.dll`, in
this order. -/
def fsNiNi : FileSystem := fun d =>
  if d = W "A\\" then
    [⟨FILE_ATTRIBUTE_ARCHIVE, W "a.ni.dll"⟩, ⟨FILE_ATTRIBUTE_ARCHIVE, W "a.ni.ni.dll"⟩]
  else []
/-! ## Strings: lemmas -/

theorem wfind_iff (hay needle : WString) : wfind hay needle = true ↔ needle <:+: hay := by
  induction hay with
  | nil =>
    cases needle <;> simp [wfind, List.isPrefixOf]
  | cons x xs ih =>
    rw [wfind, Bool.or_eq_true, ih, List.isPrefixOf_iff_prefix, List.infix_cons_iff]

theorem wcsrchr_none (s : WString) (c : Char) (h : c ∉ s) : wcsrchr s c = none := by
  induction s with
  | nil => rfl
  | cons x xs ih =>
    have hx : ¬ x = c := fun e => h (by simp [e])
    have hxs : c ∉ xs := fun e => h (by simp [e])
    simp [wcsrchr, ih hxs, hx]

theorem wcsrchr_append (p e : WString) (c : Char) (h : c ∉ e) :
    wcsrchr (p ++ c :: e) c = some p.length := by
  induction p with
  | nil => simp [wcsrchr, wcsrchr_none e c h]
  | cons x xs ih => simp [wcsrchr, ih]

theorem drop_three_eq (p : WString) (a b c : Char) (hlen : 3 < p.length)
    (h1 : p.get? (p.length - 1) = some c) (h2 : p.get? (p.length - 2) = some b)
    (h3 : p.get? (p.length - 3) = some a) : p.drop (p.length - 3) = [a, b, c] := by
  have hl : (p.drop (p.length - 3)).length = 3 := by
    rw [List.length_drop]; omega
  have g0 := List.getElem?_drop p (p.length - 3) 0
  have g1 := List.getElem?_drop p (p.length - 3) 1
  have g2 := List.getElem?_drop p (p.length - 3) 2
  rw [List.get?_eq_getElem?] at h1 h2 h3
  rw [show p.length - 3 + 0 = p.length - 3 by omega, h3] at g0
  rw [show p.length - 3 + 1 = p.length - 2 by omega, h2] at g1
  rw [show p.length - 3 + 2 = p.length - 1 by omega, h1] at g2
  match hd : p.drop (p.length - 3), hl with
  | [x, y, z], _ =>
    rw [hd] at g0 g1 g2
    simp at g0 g1 g2
    rw [g0, g1, g2]

/-- Cutting a name `p.e` whose extension `e` has no dot: the result is `p`, or
`p` without its trailing `.ni`. -/
theorem RemoveExtensionAndNi_append (p e : WString) (h : '.' ∉ e) :
    RemoveExtensionAndNi (p ++ '.' :: e) = p ∨
      p = RemoveExtensionAndNi (p ++ '.' :: e) ++ ['.', 'n', 'i'] := by
  unfold RemoveExtensionAndNi
  rw [wcsrchr_append p e '.' h]
  simp only [List.take_left]
  split
  · rename_i hc
    right
    obtain ⟨hlen, h1, h2, h3⟩ := hc
    have hd := drop_three_eq p '.' 'n' 'i' hlen h1 h2 h3
    conv_lhs => rw [← List.take_append_drop (p.length - 3) p]
    rw [hd]
  · left; rfl

/-- A lower-cased name `q.e` is its own stem followed by `.e` or by `.ni.e`. -/
theorem canonical_of_ext (exts : List WString) (q e : WString) (h : '.' ∉ e)
    (h1 : ∃ x ∈ exts, x.drop 1 = '.' :: e)
    (h2 : ∃ x ∈ exts, x.drop 1 = '.' :: 'n' :: 'i' :: '.' :: e) :
    ∃ x ∈ exts, q ++ '.' :: e = RemoveExtensionAndNi (q ++ '.' :: e) ++ x.drop 1 := by
  rcases RemoveExtensionAndNi_append q e h with hq | hq
  · obtain ⟨x, hx, hd⟩ := h1
    exact ⟨x, hx, by rw [hq, hd]⟩
  · obtain ⟨x, hx, hd⟩ := h2
    refine ⟨x, hx, ?_⟩
    rw [hd]
    conv_lhs => rw [hq]
    simp

theorem wildcardMatch_iff (pattern name : WString) :
    wildcardMatch pattern name = true ↔
      (pattern.drop 1).map towlower <:+ name.map towlower := by
  unfold wildcardMatch
  exact List.isSuffixOf_iff_suffix

/-- Every name that one of the six patterns of `GetTpaList` matches is,
lower-cased, its normalized stem followed by one of the six extensions. -/
theorem canonical_name (ext name : WString) (hext : ext ∈ rgTPAExtensions)
    (hm : wildcardMatch ext name = true) :
    ∃ x ∈ rgTPAExtensions,
      name.map towlower = RemoveExtensionAndNi (name.map towlower) ++ x.drop 1 := by
  rw [wildcardMatch_iff] at hm
  have dll := fun q => canonical_of_ext rgTPAExtensions q ['d', 'l', 'l'] (by decide)
    ⟨W "*.dll", by decide, by decide⟩ ⟨W "*.ni.dll", by decide, by decide⟩
  have exe := fun q => canonical_of_ext rgTPAExtensions q ['e', 'x', 'e'] (by decide)
    ⟨W "*.exe", by decide, by decide⟩ ⟨W "*.ni.exe", by decide, by decide⟩
  have winmd := fun q => canonical_of_ext rgTPAExtensions q ['w', 'i', 'n', 'm', 'd'] (by decide)
    ⟨W "*.winmd", by decide, by decide⟩ ⟨W "*.ni.winmd", by decide, by decide⟩
  simp only [rgTPAExtensions, List.mem_cons, List.mem_singleton, List.not_mem_nil,
    or_false] at hext
  rcases hext with rfl | rfl | rfl | rfl | rfl | rfl
  · obtain ⟨q, hq⟩ := hm
    rw [← hq, show (List.drop 1 (W "*.ni.dll")).map towlower = ['.', 'n', 'i'] ++ '.' :: ['d', 'l', 'l'] by decide, ← List.append_assoc]
    exact dll _
  · obtain ⟨q, hq⟩ := hm
    rw [← hq, show (List.drop 1 (W "*.dll")).map towlower = '.' :: ['d', 'l', 'l'] by decide]
    exact dll _
  · obtain ⟨q, hq⟩ := hm
    rw [← hq, show (List.drop 1 (W "*.ni.exe")).map towlower = ['.', 'n', 'i'] ++ '.' :: ['e', 'x', 'e'] by decide, ← List.append_assoc]
    exact exe _
  · obtain ⟨q, hq⟩ := hm
    rw [← hq, show (List.drop 1 (W "*.exe")).map towlower = '.' :: ['e', 'x', 'e'] by decide]
    exact exe _
  · obtain ⟨q, hq⟩ := hm
    rw [← hq, show (List.drop 1 (W "*.ni.winmd")).map towlower = ['.', 'n', 'i'] ++ '.' :: ['w', 'i', 'n', 'm', 'd'] by decide, ← List.append_assoc]
    exact winmd _
  · obtain ⟨q, hq⟩ := hm
    rw [← hq, show (List.drop 1 (W "*.winmd")).map towlower = '.' :: ['w', 'i', 'n', 'm', 'd'] by decide]
    exact winmd _

/-! ## The scan loop: lemmas -/

theorem TPAListContainsFile_iff (tpa stem : WString) (exts : List WString) :
    TPAListContainsFile tpa stem exts = true ↔
      tpa ≠ [] ∧ ∃ x ∈ exts, W "\\" ++ stem ++ x.drop 1 ++ W ";" <:+: tpa := by
  unfold TPAListContainsFile
  cases tpa with
  | nil => simp
  | cons a t => simp [wfind_iff]

theorem TPAListContainsFile_append (tpa more stem : WString) (exts : List WString)
    (h : TPAListContainsFile tpa stem exts = true) :
    TPAListContainsFile (tpa ++ more) stem exts = true := by
  rw [TPAListContainsFile_iff] at h ⊢
  obtain ⟨hne, x, hx, hin⟩ := h
  refine ⟨by simp [hne], x, hx, ?_⟩
  exact List.IsInfix.trans hin (List.infix_append [] tpa more)

theorem TPAListContainsFile_entry (tpa : WString) (exts : List WString) (f : ScannedFile)
    (hf : WellFormed exts f) :
    TPAListContainsFile (tpa ++ entryOf f) (stemOf f) exts = true := by
  rw [TPAListContainsFile_iff]
  obtain ⟨⟨d, hd⟩, x, hx, hn⟩ := hf
  refine ⟨by simp [entryOf, W], x, hx, ?_⟩
  refine ⟨tpa ++ d, [], ?_⟩
  simp only [entryOf, ← hd, hn, List.append_assoc, List.append_nil]

theorem addScanned_extends (exts : List WString) (tpa : WString) (f : ScannedFile) :
    tpa <+: addScanned exts tpa f := by
  unfold addScanned
  split
  · exact List.prefix_refl _
  · exact List.prefix_append _ _

theorem foldl_addScanned_extends (exts : List WString) (l : List ScannedFile) (tpa : WString) :
    tpa <+: l.foldl (addScanned exts) tpa := by
  induction l generalizing tpa with
  | nil => exact List.prefix_refl _
  | cons f l ih => exact List.IsPrefix.trans (addScanned_extends exts tpa f) (ih _)

theorem TPAListContainsFile_of_extends (tpa tpa2 stem : WString) (exts : List WString)
    (hp : tpa <+: tpa2) (h : TPAListContainsFile tpa stem exts = true) :
    TPAListContainsFile tpa2 stem exts = true := by
  obtain ⟨more, rfl⟩ := hp
  exact TPAListContainsFile_append tpa more stem exts h

theorem AddFileToTPAList_eq (targetPath : WString) (exts : List WString) (tpa : WString)
    (data : WIN32_FIND_DATA) :
    AddFileToTPAList targetPath exts tpa data =
      if data.dwFileAttributes &&& FILE_ATTRIBUTE_DIRECTORY = 0 then
        addScanned exts tpa (targetPath, data)
      else tpa := by
  unfold AddFileToTPAList addScanned stemOf entryOf
  by_cases hd : data.dwFileAttributes &&& FILE_ATTRIBUTE_DIRECTORY = 0
  · by_cases hc : TPAListContainsFile tpa (RemoveExtensionAndNi (data.cFileName.map towlower)) exts = true
    · simp [hd, hc]
    · simp [hd, hc]
  · simp [hd]

theorem foldl_AddFileToTPAList (targetPath : WString) (exts : List WString)
    (l : List WIN32_FIND_DATA) (tpa : WString) :
    l.foldl (AddFileToTPAList targetPath exts) tpa =
      ((l.filter (fun data => data.dwFileAttributes &&& FILE_ATTRIBUTE_DIRECTORY = 0)).map
        (fun data => (targetPath, data))).foldl (addScanned exts) tpa := by
  induction l generalizing tpa with
  | nil => rfl
  | cons d l ih =>
    rw [List.foldl_cons, ih, AddFileToTPAList_eq]
    by_cases hd : d.dwFileAttributes &&& FILE_ATTRIBUTE_DIRECTORY = 0
    · simp [hd]
    · simp [hd]

theorem foldl_passes (fs : FileSystem) (targetPath : WString) (table exts : List WString)
    (tpa : WString) :
    exts.foldl (fun tpa ext =>
        (FindFiles fs targetPath ext).foldl (AddFileToTPAList targetPath table) tpa) tpa =
      (scanOrder fs targetPath exts).foldl (addScanned table) tpa := by
  induction exts generalizing tpa with
  | nil => rfl
  | cons e es ih =>
    rw [List.foldl_cons, ih, foldl_AddFileToTPAList]
    simp [scanOrder, List.flatMap_cons, List.foldl_append]

/-- The scan of one directory is the fold of `addScanned` over its scan order. -/
theorem AddFilesFromDirectoryToTPAList_eq (fs : FileSystem) (tpa targetPath : WString)
    (exts : List WString) :
    AddFilesFromDirectoryToTPAList fs tpa targetPath exts =
      (scanOrder fs targetPath exts).foldl (addScanned exts) tpa :=
  foldl_passes fs targetPath exts exts tpa

theorem scanInv_nil (exts : List WString) : ScanInv exts [] [] [] := by
  refine ⟨rfl, List.Sublist.refl _, ?_, ?_, ?_⟩ <;> simp

theorem scanInv_step (exts : List WString) (tpa : WString) (seen added : List ScannedFile)
    (f : ScannedFile) (hI : ScanInv exts tpa seen added) (hf : WellFormed exts f) :
    ∃ added2, ScanInv exts (addScanned exts tpa f) (seen ++ [f]) added2 := by
  obtain ⟨hj, hsub, hseen, hfirst, hnd⟩ := hI
  by_cases hc : TPAListContainsFile tpa (stemOf f) exts = true
  · refine ⟨added, ?_, ?_, ?_, ?_, hnd⟩
    · unfold addScanned; rw [if_pos hc]; exact hj
    · exact hsub.trans (List.sublist_append_left seen [f])
    · intro g hg
      simp only [addScanned, hc, if_true]
      rcases List.mem_append.1 hg with hg | hg
      · exact hseen g hg
      · rw [List.mem_singleton.1 hg]; exact hc
    · intro e he
      rw [List.find?_append, hfirst e he]; rfl
  · have hfresh : ∀ g ∈ seen, ¬ stemOf g = stemOf f := by
      intro g hg heq
      exact hc (heq ▸ hseen g hg)
    refine ⟨added ++ [f], ?_, ?_, ?_, ?_, ?_⟩
    · unfold addScanned; rw [if_neg hc, hj]; simp [joinEntries]
    · exact List.Sublist.append hsub (List.Sublist.refl _)
    · intro g hg
      simp only [addScanned, hc]
      rcases List.mem_append.1 hg with hg | hg
      · exact TPAListContainsFile_append _ _ _ _ (hseen g hg)
      · rw [List.mem_singleton.1 hg]; exact TPAListContainsFile_entry tpa exts f hf
    · intro e he
      rcases List.mem_append.1 he with he | he
      · rw [List.find?_append, hfirst e he]; rfl
      · rw [List.mem_singleton.1 he, List.find?_append]
        have hnone : seen.find? (fun g => stemOf g == stemOf f) = none := by
          rw [List.find?_eq_none]
          intro g hg
          simpa using hfresh g hg
        rw [hnone]
        simp
    · rw [List.map_append, List.nodup_append]
      refine ⟨hnd, by simp, ?_⟩
      intro s hs hs2
      obtain ⟨e, he, rfl⟩ := List.mem_map.1 hs
      simp only [List.map_cons, List.map_nil, List.mem_singleton] at hs2
      exact hfresh e (hsub.subset he) hs2

theorem scanInv_foldl (exts : List WString) (rest : List ScannedFile) :
    ∀ (tpa : WString) (seen added : List ScannedFile), ScanInv exts tpa seen added →
      (∀ f ∈ rest, WellFormed exts f) →
      ∃ added2, ScanInv exts (rest.foldl (addScanned exts) tpa) (seen ++ rest) added2 := by
  induction rest with
  | nil =>
    intro tpa seen added hI _
    exact ⟨added, by simpa using hI⟩
  | cons f rest ih =>
    intro tpa seen added hI hwf
    obtain ⟨added1, h1⟩ := scanInv_step exts tpa seen added f hI (hwf f (by simp))
    obtain ⟨added2, h2⟩ := ih _ _ _ h1 (fun g hg => hwf g (by simp [hg]))
    refine ⟨added2, ?_⟩
    simpa using h2

theorem mem_scanOrder (fs : FileSystem) (t : WString) (exts : List WString) (f : ScannedFile) :
    f ∈ scanOrder fs t exts ↔
      f.1 = t ∧ f.2 ∈ fs t ∧ f.2.dwFileAttributes &&& FILE_ATTRIBUTE_DIRECTORY = 0 ∧
        ∃ ext ∈ exts, wildcardMatch ext f.2.cFileName = true := by
  obtain ⟨d, data⟩ := f
  simp only [scanOrder, FindFiles, List.mem_flatMap, List.mem_map, List.mem_filter,
    decide_eq_true_eq, Prod.mk.injEq]
  constructor
  · rintro ⟨ext, hext, data2, ⟨⟨hm, hw⟩, hdir⟩, rfl, rfl⟩
    exact ⟨rfl, hm, hdir, ext, hext, hw⟩
  · rintro ⟨rfl, hm, hdir, ext, hext, hw⟩
    exact ⟨ext, hext, data, ⟨⟨hm, hw⟩, hdir⟩, rfl, rfl⟩

theorem wellFormed_of_mem_scanOrder (fs : FileSystem) (t : WString) (f : ScannedFile)
    (ht : W "\\" <:+ t) (hf : f ∈ scanOrder fs t rgTPAExtensions) :
    WellFormed rgTPAExtensions f := by
  rw [mem_scanOrder] at hf
  obtain ⟨h1, _, _, ext, hext, hw⟩ := hf
  exact ⟨h1 ▸ ht, canonical_name ext f.2.cFileName hext hw⟩

theorem foldl_dirs (fs : FileSystem) (targetPaths : List WString) (tpa : WString) :
    targetPaths.foldl (fun tpa t => AddFilesFromDirectoryToTPAList fs tpa t rgTPAExtensions) tpa =
      (targetPaths.flatMap (fun t => scanOrder fs t rgTPAExtensions)).foldl
        (addScanned rgTPAExtensions) tpa := by
  induction targetPaths generalizing tpa with
  | nil => rfl
  | cons t ts ih =>
    rw [List.foldl_cons, ih, AddFilesFromDirectoryToTPAList_eq, List.flatMap_cons,
      List.foldl_append]

/-- Scanning directories from the empty list establishes the invariant over
the whole scan order. -/
theorem scanInv_dirs (fs : FileSystem) (targetPaths : List WString)
    (h : ∀ t ∈ targetPaths, W "\\" <:+ t) :
    ∃ added, ScanInv rgTPAExtensions
      (targetPaths.foldl (fun tpa t => AddFilesFromDirectoryToTPAList fs tpa t rgTPAExtensions) [])
      (targetPaths.flatMap (fun t => scanOrder fs t rgTPAExtensions)) added := by
  rw [foldl_dirs]
  have := scanInv_foldl rgTPAExtensions
    (targetPaths.flatMap (fun t => scanOrder fs t rgTPAExtensions)) [] [] []
    (scanInv_nil _) (by
      intro f hf
      obtain ⟨t, ht, hft⟩ := List.mem_flatMap.1 hf
      exact wellFormed_of_mem_scanOrder fs t f (h t ht) hft)
  exact this

/-- C1: scanning any sequence of directories (paths ending in a backslash, as
`GetTpaList` passes them) with `AddFilesFromDirectoryToTPAList` from the empty
list gives the joined form of a selection of the scanned files in which no
normalized stem occurs twice and every selected file is the first file of its
stem in scan order; so a file of an earlier directory wins over every
same-stem file of a later one, whatever the extensions. -/
theorem tpaList_one_entry_per_stem_first_wins (fs : FileSystem) (targetPaths : List WString)
    (h : ∀ t ∈ targetPaths, W "\\" <:+ t) :
    ∃ added : List ScannedFile,
      targetPaths.foldl
          (fun tpa t => AddFilesFromDirectoryToTPAList fs tpa t rgTPAExtensions) [] =
        joinEntries added ∧
      added.Sublist (targetPaths.flatMap (fun t => scanOrder fs t rgTPAExtensions)) ∧
      (added.map stemOf).Nodup ∧
      ∀ e ∈ added,
        (targetPaths.flatMap (fun t => scanOrder fs t rgTPAExtensions)).find?
          (fun f => stemOf f == stemOf e) = some e := by
  obtain ⟨added, hj, hsub, _, hfirst, hnd⟩ := scanInv_dirs fs targetPaths h
  exact ⟨added, hj, hsub, hnd, hfirst⟩

/-- Witness of `tpaList_one_entry_per_stem_first_wins`: the directories `A\`
and `B\` of the two-directory example. -/
theorem tpaList_one_entry_per_stem_first_wins_witness :
    (∀ t ∈ [W "A\\", W "B\\"], W "\\" <:+ t) ∧
    ∃ added : List ScannedFile,
      [W "A\\", W "B\\"].foldl
          (fun tpa t => AddFilesFromDirectoryToTPAList fsTwoDirectories tpa t rgTPAExtensions)
          [] =
        joinEntries added ∧
      added.Sublist ([W "A\\", W "B\\"].flatMap
        (fun t => scanOrder fsTwoDirectories t rgTPAExtensions)) ∧
      (added.map stemOf).Nodup ∧
      ∀ e ∈ added,
        ([W "A\\", W "B\\"].flatMap
          (fun t => scanOrder fsTwoDirectories t rgTPAExtensions)).find?
          (fun f => stemOf f == stemOf e) = some e :=
  ⟨by decide, tpaList_one_entry_per_stem_first_wins fsTwoDirectories [W "A\\", W "B\\"]
    (by decide)⟩


/-! ## `GetTpaList`: lemmas -/

theorem foldl_addScanned_contains (exts : List WString) (l : List ScannedFile) :
    ∀ tpa : WString, (∀ f ∈ l, WellFormed exts f) →
      ∀ f ∈ l, TPAListContainsFile (l.foldl (addScanned exts) tpa) (stemOf f) exts = true := by
  induction l with
  | nil => intro _ _ f hf; simp at hf
  | cons a l ih =>
    intro tpa hwf f hf
    rw [List.foldl_cons]
    rcases List.mem_cons.1 hf with rfl | hf
    · apply TPAListContainsFile_of_extends _ _ _ _ (foldl_addScanned_extends exts l _)
      unfold addScanned
      split
      · assumption
      · exact TPAListContainsFile_entry tpa exts f (hwf f (by simp))
    · exact ih _ (fun g hg => hwf g (by simp [hg])) f hf

theorem foldl_addScanned_id (exts : List WString) (l : List ScannedFile) (tpa : WString)
    (h : ∀ f ∈ l, TPAListContainsFile tpa (stemOf f) exts = true) :
    l.foldl (addScanned exts) tpa = tpa := by
  induction l with
  | nil => rfl
  | cons a l ih =>
    rw [List.foldl_cons]
    have ha : addScanned exts tpa a = tpa := by
      unfold addScanned; rw [if_pos (h a (by simp))]
    rw [ha]
    exact ih (fun g hg => h g (by simp [hg]))

theorem AddFilesFromDirectoryToTPAList_extends (fs : FileSystem) (tpa t : WString)
    (exts : List WString) : tpa <+: AddFilesFromDirectoryToTPAList fs tpa t exts := by
  rw [AddFilesFromDirectoryToTPAList_eq]
  exact foldl_addScanned_extends exts _ tpa

/-- Scanning a directory a second time adds nothing. -/
theorem AddFilesFromDirectoryToTPAList_rescan (fs : FileSystem) (tpa t : WString)
    (ht : W "\\" <:+ t) :
    AddFilesFromDirectoryToTPAList fs
        (AddFilesFromDirectoryToTPAList fs tpa t rgTPAExtensions) t rgTPAExtensions =
      AddFilesFromDirectoryToTPAList fs tpa t rgTPAExtensions := by
  rw [AddFilesFromDirectoryToTPAList_eq fs (AddFilesFromDirectoryToTPAList fs tpa t rgTPAExtensions)]
  apply foldl_addScanned_id
  rw [AddFilesFromDirectoryToTPAList_eq]
  exact foldl_addScanned_contains rgTPAExtensions _ tpa
    (fun f hf => wellFormed_of_mem_scanOrder fs t f ht hf)

theorem GetTpaList_eq (fs : FileSystem) (env : HostEnvironment) (p : WString) :
    GetTpaList fs env p =
      { env with m_tpaList := tpaListAfter fs env.m_coreCLRDirectoryPath env.m_tpaList p } := by
  unfold GetTpaList tpaListAfter
  by_cases h1 : env.m_tpaList.isEmpty = true <;> by_cases h2 : p = env.m_coreCLRDirectoryPath <;>
    simp [h1, h2]

theorem eq_nil_of_prefix_nil {l m : WString} (h : l <+: m) (hm : m = []) : l = [] := by
  subst hm
  exact List.prefix_nil.1 h

theorem tpaListAfter_of_ne_nil (fs : FileSystem) (dir tpa p : WString) (h : tpa ≠ []) :
    tpaListAfter fs dir tpa p =
      if p ≠ dir then AddFilesFromDirectoryToTPAList fs tpa (p ++ W "\\") rgTPAExtensions
      else tpa := by
  have hne : tpa.isEmpty = false := by
    cases tpa with
    | nil => exact absurd rfl h
    | cons a l => rfl
  unfold tpaListAfter
  simp only [hne, Bool.false_eq_true, if_false]

theorem tpaListAfter_idempotent (fs : FileSystem) (dir tpa p : WString) :
    tpaListAfter fs dir (tpaListAfter fs dir tpa p) p = tpaListAfter fs dir tpa p := by
  by_cases hnil : tpaListAfter fs dir tpa p = []
  · have htpa : tpa = [] := by
      unfold tpaListAfter at hnil
      by_cases h1 : tpa.isEmpty = true
      · simpa using h1
      · simp only [h1] at hnil
        split at hnil
        · exact eq_nil_of_prefix_nil (AddFilesFromDirectoryToTPAList_extends fs _ _ _) hnil
        · exact hnil
    rw [hnil]
    conv_rhs => rw [← hnil]
    rw [htpa]
  · rw [tpaListAfter_of_ne_nil fs dir _ p hnil]
    by_cases h2 : p = dir
    · simp [h2]
    · simp only [ne_eq, h2, not_false_eq_true, if_true]
      have h3 : tpaListAfter fs dir tpa p =
          AddFilesFromDirectoryToTPAList fs
            (if tpa.isEmpty then
              AddFilesFromDirectoryToTPAList fs tpa (dir ++ W "\\") rgTPAExtensions
            else tpa) (p ++ W "\\") rgTPAExtensions := by
        unfold tpaListAfter
        simp only [ne_eq, h2, not_false_eq_true, if_true]
      rw [h3]
      exact AddFilesFromDirectoryToTPAList_rescan fs _ _ (List.suffix_append _ _)

/-! ## The claims about the trusted-module list -/

/-- C5: `GetTpaList` is idempotent on an unchanged file system: from every
state of the environment and for every library path, a second call with the
same path leaves the environment as the first call left it, so it returns the
same semicolon-joined list and adds no entry, whether the path is the engine
directory (served from the list already built) or another directory (scanned
again). -/
theorem GetTpaList_idempotent (fs : FileSystem) (env : HostEnvironment) (p : WString) :
    GetTpaList fs (GetTpaList fs env p) p = GetTpaList fs env p ∧
      (GetTpaList fs (GetTpaList fs env p) p).m_tpaList = (GetTpaList fs env p).m_tpaList := by
  have h : GetTpaList fs (GetTpaList fs env p) p = GetTpaList fs env p := by
    rw [GetTpaList_eq fs (GetTpaList fs env p), GetTpaList_eq fs env p]
    simp only [tpaListAfter_idempotent]
  exact ⟨h, by rw [h]⟩

/-- C6: scanning directory A (foo.ni.dll, foo.dll) and then directory B
(foo.dll, bar.dll) with the extension priority `*.ni.dll`, `*.dll` from the
empty list gives exactly `A\foo.ni.dll;B\bar.dll;`. -/
theorem scenario_two_directories :
    AddFilesFromDirectoryToTPAList fsTwoDirectories
        (AddFilesFromDirectoryToTPAList fsTwoDirectories [] (W "A\\")
          [W "*.ni.dll", W "*.dll"])
        (W "B\\") [W "*.ni.dll", W "*.dll"] =
      W "A\\foo.ni.dll;B\\bar.dll;" := by
  decide

/-! ## Priority of extensions -/

theorem scanOrder_cons (fs : FileSystem) (t x : WString) (xs : List WString) :
    scanOrder fs t (x :: xs) = scanOrder fs t [x] ++ scanOrder fs t xs := by
  simp [scanOrder, List.flatMap_cons]

theorem find?_isSome_of_mem {α : Type} (P : α → Bool) (l : List α) (f : α) (hf : f ∈ l)
    (hP : P f = true) : ∃ e, l.find? P = some e := by
  cases h : l.find? P with
  | none =>
    rw [List.find?_eq_none] at h
    exact absurd hP (h f hf)
  | some e => exact ⟨e, rfl⟩

/-- Within one directory the first scanned file that satisfies a predicate has
the smallest rank among the scanned files that satisfy it. -/
theorem rank_le_of_first (fs : FileSystem) (t : WString) (P : ScannedFile → Bool) :
    ∀ (exts : List WString) (e f : ScannedFile),
      (scanOrder fs t exts).find? P = some e → f ∈ scanOrder fs t exts → P f = true →
        extensionRank exts e.2.cFileName ≤ extensionRank exts f.2.cFileName := by
  intro exts
  induction exts with
  | nil => intro e f _ hf _; simp [scanOrder] at hf
  | cons x xs ih =>
    intro e f he hf hP
    rw [scanOrder_cons, List.find?_append] at he
    by_cases hex : wildcardMatch x e.2.cFileName = true
    · simp [extensionRank, hex]
    · have hnone : (scanOrder fs t [x]).find? P = none := by
        cases h : (scanOrder fs t [x]).find? P with
        | none => rfl
        | some e2 =>
          rw [h] at he
          have : e2 = e := by simpa using he
          subst this
          have hm := List.mem_of_find?_eq_some h
          rw [mem_scanOrder] at hm
          obtain ⟨_, _, _, ext, hext, hw⟩ := hm
          rw [List.mem_singleton.1 hext] at hw
          exact absurd hw hex
      rw [hnone] at he
      have he2 : (scanOrder fs t xs).find? P = some e := by simpa using he
      have hfx : ¬ wildcardMatch x f.2.cFileName = true := by
        intro hfx
        have hf1 : f ∈ scanOrder fs t [x] := by
          rw [mem_scanOrder] at hf ⊢
          obtain ⟨h1, h2, h3, _⟩ := hf
          exact ⟨h1, h2, h3, x, by simp, hfx⟩
        rw [List.find?_eq_none] at hnone
        exact hnone f hf1 hP
      have hf2 : f ∈ scanOrder fs t xs := by
        rw [mem_scanOrder] at hf ⊢
        obtain ⟨h1, h2, h3, ext, hext, hw⟩ := hf
        refine ⟨h1, h2, h3, ext, ?_, hw⟩
        rcases List.mem_cons.1 hext with rfl | h
        · exact absurd hw hfx
        · exact h
      have := ih e f he2 hf2 hP
      simp only [extensionRank, hex, hfx, Bool.false_eq_true, if_false]
      omega

theorem mem_scanOrder_fst (fs : FileSystem) (t : WString) (exts : List WString)
    (f : ScannedFile) (hf : f ∈ scanOrder fs t exts) : f.1 = t :=
  ((mem_scanOrder fs t exts f).1 hf).1

/-- In a scan of a first directory followed by further files that all lie
under other paths, the first file satisfying a predicate lies in the first
directory whenever some file of that directory satisfies the predicate, and it
has the smallest rank among the files of its own directory that satisfy it. -/
theorem first_of_two (fs : FileSystem) (t1 t2 : WString) (hne : t1 ≠ t2)
    (rest : List ScannedFile) (hrest : rest = [] ∨ rest = scanOrder fs t2 rgTPAExtensions)
    (P : ScannedFile → Bool) (e f : ScannedFile)
    (he : (scanOrder fs t1 rgTPAExtensions ++ rest).find? P = some e)
    (hf : f ∈ scanOrder fs t1 rgTPAExtensions ++ rest) (hP : P f = true) :
    (f.1 = e.1 → extensionRank rgTPAExtensions e.2.cFileName ≤
        extensionRank rgTPAExtensions f.2.cFileName) ∧
      (f.1 = t1 → e.1 = t1) := by
  have hrest1 : ∀ x ∈ rest, x.1 = t2 := by
    intro x hx
    rcases hrest with h | h
    · rw [h] at hx; simp at hx
    · rw [h] at hx; exact mem_scanOrder_fst fs t2 _ x hx
  rw [List.find?_append] at he
  cases h1 : (scanOrder fs t1 rgTPAExtensions).find? P with
  | some e2 =>
    rw [h1] at he
    have : e2 = e := by simpa using he
    subst this
    have he1 : e2.1 = t1 := mem_scanOrder_fst fs t1 _ e2 (List.mem_of_find?_eq_some h1)
    refine ⟨fun hfe => ?_, fun _ => he1⟩
    rcases List.mem_append.1 hf with hf1 | hf2
    · exact rank_le_of_first fs t1 P rgTPAExtensions e2 f h1 hf1 hP
    · exact absurd (he1.symm.trans (hfe.symm.trans (hrest1 f hf2))) hne
  | none =>
    rw [h1] at he
    have he2 : rest.find? P = some e := by simpa using he
    have hnot : f ∉ scanOrder fs t1 rgTPAExtensions := by
      intro hf1
      rw [List.find?_eq_none] at h1
      exact h1 f hf1 hP
    have hf2 : f ∈ rest := by
      rcases List.mem_append.1 hf with hf1 | hf2
      · exact absurd hf1 hnot
      · exact hf2
    refine ⟨fun _ => ?_, fun hft => absurd (hft.symm.trans (hrest1 f hf2)) hne⟩
    rcases hrest with h | h
    · rw [h] at hf2; simp at hf2
    · rw [h] at he2 hf2
      exact rank_le_of_first fs t2 P rgTPAExtensions e f he2 hf2 hP

theorem tpaListAfter_nil (fs : FileSystem) (dir p : WString) :
    tpaListAfter fs dir [] p =
      (scannedPaths dir p).foldl
        (fun tpa t => AddFilesFromDirectoryToTPAList fs tpa t rgTPAExtensions) [] := by
  unfold tpaListAfter scannedPaths
  by_cases h : p = dir <;> simp [h]

theorem scannedPaths_backslash (dir p : WString) : ∀ t ∈ scannedPaths dir p, W "\\" <:+ t := by
  intro t ht
  unfold scannedPaths at ht
  split at ht
  · simp only [List.mem_cons, List.mem_singleton, List.not_mem_nil, or_false] at ht
    rcases ht with rfl | rfl <;> exact List.suffix_append _ _
  · simp only [List.mem_singleton] at ht
    rw [ht]; exact List.suffix_append _ _

theorem scannedPaths_scan (fs : FileSystem) (dir p : WString) :
    ∃ (t2 : WString) (rest : List ScannedFile), dir ++ W "\\" ≠ t2 ∧
      (rest = [] ∨ rest = scanOrder fs t2 rgTPAExtensions) ∧
      (scannedPaths dir p).flatMap (fun t => scanOrder fs t rgTPAExtensions) =
        scanOrder fs (dir ++ W "\\") rgTPAExtensions ++ rest := by
  by_cases h : p = dir
  · refine ⟨dir ++ W "\\" ++ W "\\", [], ?_, Or.inl rfl, ?_⟩
    · intro heq
      have := congrArg List.length heq
      simp [W] at this
    · simp [scannedPaths, h]
  · refine ⟨p ++ W "\\", scanOrder fs (p ++ W "\\") rgTPAExtensions, ?_, Or.inr rfl, ?_⟩
    · intro heq
      exact h (List.append_cancel_right heq).symm
    · simp [scannedPaths, h]

/-- One call of `GetTpaList` on an empty list, in the order in which the code
scans: the engine directory is scanned before the library directory, so an
included file lies under the engine path whenever a scanned file of its stem
does, and among the scanned files of its stem in its own directory it has the
smallest rank. -/
theorem GetTpaList_first_directory_then_priority (fs : FileSystem) (env : HostEnvironment)
    (p : WString) (hfresh : env.m_tpaList = []) :
    ∃ added : List ScannedFile,
      (GetTpaList fs env p).m_tpaList = joinEntries added ∧
      added.Sublist ((scannedPaths env.m_coreCLRDirectoryPath p).flatMap
        (fun t => scanOrder fs t rgTPAExtensions)) ∧
      (added.map stemOf).Nodup ∧
      ∀ e ∈ added, ∀ f ∈ (scannedPaths env.m_coreCLRDirectoryPath p).flatMap
          (fun t => scanOrder fs t rgTPAExtensions),
        stemOf f = stemOf e →
          (f.1 = env.m_coreCLRDirectoryPath ++ W "\\" →
            e.1 = env.m_coreCLRDirectoryPath ++ W "\\") ∧
          (f.1 = e.1 → extensionRank rgTPAExtensions e.2.cFileName ≤
            extensionRank rgTPAExtensions f.2.cFileName) := by
  obtain ⟨added, hj, hsub, _, hfirst, hnd⟩ :=
    scanInv_dirs fs (scannedPaths env.m_coreCLRDirectoryPath p)
      (scannedPaths_backslash env.m_coreCLRDirectoryPath p)
  refine ⟨added, ?_, hsub, hnd, ?_⟩
  · rw [GetTpaList_eq, hfresh, tpaListAfter_nil]
    exact hj
  · intro e he f hf hstem
    obtain ⟨t2, rest, hne, hrest, hscan⟩ := scannedPaths_scan fs env.m_coreCLRDirectoryPath p
    have h1 := hfirst e he
    rw [hscan] at h1 hf
    have := first_of_two fs _ t2 hne rest hrest (fun g => stemOf g == stemOf e) e f h1 hf
      (by simpa using hstem)
    exact ⟨this.2, this.1⟩

/-- C2 (as stated) fails: with Foo.dll in the engine directory and foo.ni.dll in
the library directory, `GetTpaList` returns `C:\e\foo.dll;`. The entry of the
engine file is in the list although the library file has the same stem and an
extension of higher priority. -/
theorem GetTpaList_not_highest_priority :
    (GetTpaList fsEngineAndLibraries envEngineInE (W "C:\\l")).m_tpaList =
        W "C:\\e\\foo.dll;" ∧
      ¬ HighestPriorityIncluded rgTPAExtensions
        ((scannedPaths envEngineInE.m_coreCLRDirectoryPath (W "C:\\l")).flatMap
          (fun t => scanOrder fsEngineAndLibraries t rgTPAExtensions))
        (GetTpaList fsEngineAndLibraries envEngineInE (W "C:\\l")).m_tpaList := by
  refine ⟨by decide, fun h => ?_⟩
  have h1 := h (W "C:\\e\\", ⟨FILE_ATTRIBUTE_ARCHIVE, W "Foo.dll"⟩) (by decide)
    ⟨[], [], by decide⟩ (W "C:\\l\\", ⟨FILE_ATTRIBUTE_ARCHIVE, W "foo.ni.dll"⟩)
    (by decide) (by decide)
  revert h1
  decide

/-! ## Startup flags -/

theorem toLower_upper_ne (n : Nat) (h1 : 65 ≤ n) (h2 : n ≤ 90) :
    Char.toLower (Char.ofNat n) ≠ '1' ∧ Char.toLower (Char.ofNat n) ≠ '0' := by
  interval_cases n <;> decide

theorem towlower_eq_digit (c d : Char) (hd : d = '1' ∨ d = '0') (h : towlower c = d) :
    c = d := by
  by_cases hr : 65 ≤ c.toNat ∧ c.toNat ≤ 90
  · have hc := toLower_upper_ne c.toNat hr.1 hr.2
    rw [Char.ofNat_toNat] at hc
    rcases hd with rfl | rfl
    · exact absurd h hc.1
    · exact absurd h hc.2
  · unfold towlower Char.toLower at h
    simp only [ge_iff_le] at h
    rw [if_neg hr] at h
    exact h

theorem wcsicmp_eq_digit (r : WString) (d : Char) (hd : d = '1' ∨ d = '0') :
    wcsicmp_eq r [d] = true ↔ r = [d] := by
  have hdd : towlower d = d := by rcases hd with rfl | rfl <;> decide
  unfold wcsicmp_eq
  simp only [List.map_cons, List.map_nil, hdd, beq_iff_eq]
  constructor
  · intro h
    match r, h with
    | [c], h =>
      simp only [List.map_cons, List.map_nil, List.cons.injEq, and_true] at h
      rw [towlower_eq_digit c d hd h]
  · rintro rfl
    simp [hdd]

theorem checkVariable_eq (getenv : WString → Option WString) (x flag : Nat) (var : WString) :
    checkVariable getenv x flag var =
      if getenv var = some (W "1") then x ||| flag
      else if getenv var = some (W "0") then x &&& (0xFFFFFFFF ^^^ flag)
      else x := by
  unfold checkVariable
  cases h : getenv var with
  | none => simp
  | some r =>
    have h1 : wcsicmp_eq r (W "1") = true ↔ r = W "1" := wcsicmp_eq_digit r '1' (Or.inl rfl)
    have h0 : wcsicmp_eq r (W "0") = true ↔ r = W "0" := wcsicmp_eq_digit r '0' (Or.inr rfl)
    by_cases hr1 : r = W "1"
    · subst hr1
      have e1 : wcsicmp_eq (W "1") (W "1") = true := by decide
      have l1 : (W "1").length + 1 ≤ 25 := by decide
      simp only [e1, l1, if_true]
    · by_cases hr0 : r = W "0"
      · subst hr0
        have e1 : wcsicmp_eq (W "0") (W "1") = false := by decide
        have e0 : wcsicmp_eq (W "0") (W "0") = true := by decide
        have l1 : (W "0").length + 1 ≤ 25 := by decide
        simp only [e1, e0, l1, hr1, if_true, if_false, Option.some.injEq, Bool.false_eq_true]
      · simp only [h1, h0, hr1, hr0, if_false, Option.some.injEq, ite_self]

theorem testBit_of_and_eq_zero (a b i : Nat) (h : a &&& b = 0) (ha : a.testBit i = true) :
    b.testBit i = false := by
  have := congrArg (fun n => Nat.testBit n i) h
  simp only [Nat.testBit_and, Nat.zero_testBit, ha, Bool.true_and] at this
  exact this

theorem testBit_clear (x f i : Nat) (hx : x < 2 ^ 32) :
    (x &&& (0xFFFFFFFF ^^^ f)).testBit i = (x.testBit i && !f.testBit i) := by
  rw [Nat.testBit_and, Nat.testBit_xor, show (0xFFFFFFFF : Nat) = 2 ^ 32 - 1 by norm_num,
    Nat.testBit_two_pow_sub_one]
  by_cases hi : i < 32
  · simp [hi]
  · have : x.testBit i = false :=
      Nat.testBit_lt_two_pow (lt_of_lt_of_le hx (Nat.pow_le_pow_right (by norm_num) (by omega)))
    simp [this]

theorem or_lt_two_pow (a b n : Nat) (ha : a < 2 ^ n) (hb : b < 2 ^ n) : a ||| b < 2 ^ n :=
  Nat.or_lt_two_pow ha hb

theorem CreateStartupFlags_formula (K : MsCoree) (hK : K.StartupFlagsDistinct)
    (getenv : WString → Option WString) :
    CreateStartupFlags K getenv =
      K.STARTUP_LOADER_OPTIMIZATION_SINGLE_DOMAIN ||| K.STARTUP_SINGLE_APPDOMAIN |||
        (if getenv concurrentGcVar = some (W "0") then 0 else K.STARTUP_CONCURRENT_GC) |||
        (if getenv serverGcVar = some (W "1") then K.STARTUP_SERVER_GC else 0) := by
  obtain ⟨hC, hD, hS, hA, _, _, hCS, hCDA, hSDA⟩ := hK
  have hI : K.STARTUP_LOADER_OPTIMIZATION_SINGLE_DOMAIN ||| K.STARTUP_SINGLE_APPDOMAIN |||
      K.STARTUP_CONCURRENT_GC < 2 ^ 32 :=
    or_lt_two_pow _ _ _ (or_lt_two_pow _ _ _ hD hA) hC
  have hIS : K.STARTUP_LOADER_OPTIMIZATION_SINGLE_DOMAIN ||| K.STARTUP_SINGLE_APPDOMAIN |||
      K.STARTUP_CONCURRENT_GC ||| K.STARTUP_SERVER_GC < 2 ^ 32 :=
    or_lt_two_pow _ _ _ hI hS
  have hIc : (K.STARTUP_LOADER_OPTIMIZATION_SINGLE_DOMAIN ||| K.STARTUP_SINGLE_APPDOMAIN |||
      K.STARTUP_CONCURRENT_GC) &&& (0xFFFFFFFF ^^^ K.STARTUP_SERVER_GC) < 2 ^ 32 :=
    lt_of_le_of_lt Nat.and_le_left hI
  have bCS := fun i => testBit_of_and_eq_zero _ _ i hCS
  have bCDA := fun i => testBit_of_and_eq_zero _ _ i hCDA
  have bSDA := fun i => testBit_of_and_eq_zero _ _ i hSDA
  have n10 : ¬ ((some (W "1") : Option WString) = some (W "0")) := by decide
  have n01 : ¬ ((some (W "0") : Option WString) = some (W "1")) := by decide
  unfold CreateStartupFlags
  simp only [checkVariable_eq]
  by_cases s1 : getenv serverGcVar = some (W "1") <;>
    by_cases s0 : getenv serverGcVar = some (W "0") <;>
    by_cases c1 : getenv concurrentGcVar = some (W "1") <;>
    by_cases c0 : getenv concurrentGcVar = some (W "0")
  all_goals first
    | (exfalso; rw [s1] at s0; revert s0; decide)
    | (exfalso; rw [c1] at c0; revert c0; decide)
    | skip
  all_goals
    simp only [s1, s0, c1, c0, n10, n01, if_true, if_false] <;>
    (apply Nat.eq_of_testBit_eq
     intro i
     have h1 := bCS i
     have h2 := bCDA i
     have h3 := bSDA i
     simp only [Nat.testBit_or, testBit_clear _ _ _ hI, testBit_clear _ _ _ hIS,
       testBit_clear _ _ _ hIc, Nat.zero_testBit, Bool.or_false] at h1 h2 h3 ⊢ <;>
     (generalize K.STARTUP_CONCURRENT_GC.testBit i = c at h1 h2 h3 ⊢
      generalize K.STARTUP_SERVER_GC.testBit i = s at h1 h2 h3 ⊢
      generalize K.STARTUP_LOADER_OPTIMIZATION_SINGLE_DOMAIN.testBit i = d at h1 h2 h3 ⊢
      generalize K.STARTUP_SINGLE_APPDOMAIN.testBit i = a at h1 h2 h3 ⊢
      revert h1 h2 h3
      revert c s d a
      decide))

theorem or3_and_middle (a b c : Nat) : (a ||| b ||| c) &&& b = b := by
  apply Nat.eq_of_testBit_eq
  intro i
  simp only [Nat.testBit_or, Nat.testBit_and]
  generalize a.testBit i = x
  generalize b.testBit i = y
  generalize c.testBit i = z
  revert x y z
  decide

theorem or3_and_last (a b c : Nat) : (a ||| b ||| c) &&& c = c := by
  apply Nat.eq_of_testBit_eq
  intro i
  simp only [Nat.testBit_or, Nat.testBit_and]
  generalize a.testBit i = x
  generalize b.testBit i = y
  generalize c.testBit i = z
  revert x y z
  decide

theorem or3_and_disjoint (a b c f : Nat) (ha : f &&& a = 0) (hb : f &&& b = 0)
    (hc : f &&& c = 0) : (a ||| b ||| c) &&& f = 0 := by
  apply Nat.eq_of_testBit_eq
  intro i
  have h1 := fun h => testBit_of_and_eq_zero f a i ha h
  have h2 := fun h => testBit_of_and_eq_zero f b i hb h
  have h3 := fun h => testBit_of_and_eq_zero f c i hc h
  simp only [Nat.testBit_or, Nat.testBit_and, Nat.zero_testBit]
  generalize a.testBit i = x at h1 h2 h3 ⊢
  generalize b.testBit i = y at h1 h2 h3 ⊢
  generalize c.testBit i = z at h1 h2 h3 ⊢
  generalize f.testBit i = w at h1 h2 h3 ⊢
  revert h1 h2 h3
  revert x y z w
  decide

/-- C7: `CreateStartupFlags` as a function of the two environment variables,
for enumerator values in which the GC flags are distinct bits: the concurrent
GC flag is cleared when `COMPlus_gcConcurrent` is "0" and set for every other
value or no value; the server GC flag is set when `COMPlus_gcServer` is "1" and
clear for every other value or no value; and the result is the two fixed flags
joined with a part that only the first variable decides and a part that only
the second decides. -/
theorem CreateStartupFlags_each_variable_own_flag (K : MsCoree)
    (hK : K.StartupFlagsDistinct) (getenv : WString → Option WString) :
    (HAS_FLAG (CreateStartupFlags K getenv) K.STARTUP_CONCURRENT_GC = true ↔
      getenv concurrentGcVar ≠ some (W "0")) ∧
    (HAS_FLAG (CreateStartupFlags K getenv) K.STARTUP_SERVER_GC = true ↔
      getenv serverGcVar = some (W "1")) ∧
    CreateStartupFlags K getenv =
      K.STARTUP_LOADER_OPTIMIZATION_SINGLE_DOMAIN ||| K.STARTUP_SINGLE_APPDOMAIN |||
        (if getenv concurrentGcVar = some (W "0") then 0 else K.STARTUP_CONCURRENT_GC) |||
        (if getenv serverGcVar = some (W "1") then K.STARTUP_SERVER_GC else 0) := by
  have hform := CreateStartupFlags_formula K hK getenv
  obtain ⟨_, _, _, _, hC0, hS0, hCS, hCDA, hSDA⟩ := hK
  have hSC : K.STARTUP_SERVER_GC &&& K.STARTUP_CONCURRENT_GC = 0 := by
    rw [Nat.and_comm]; exact hCS
  refine ⟨?_, ?_, hform⟩
  · rw [hform]
    unfold HAS_FLAG
    rw [beq_iff_eq]
    by_cases c0 : getenv concurrentGcVar = some (W "0")
    · simp only [c0, if_true, ne_eq, not_true_eq_false, iff_false]
      rw [or3_and_disjoint _ _ _ _ hCDA (Nat.and_zero _)
        (by split <;> [exact hCS; exact Nat.and_zero _])]
      exact fun h => hC0 h.symm
    · simp only [c0, if_false, ne_eq, not_false_eq_true, iff_true]
      exact or3_and_middle _ _ _
  · rw [hform]
    unfold HAS_FLAG
    rw [beq_iff_eq]
    by_cases s1 : getenv serverGcVar = some (W "1")
    · simp only [s1, if_true, iff_true]
      exact or3_and_last _ _ _
    · simp only [s1, if_false, iff_false]
      rw [or3_and_disjoint _ _ _ _ hSDA
        (by split <;> [exact Nat.and_zero _; exact hSC]) (Nat.and_zero _)]
      exact fun h => hS0 h.symm

/-- Witness of `CreateStartupFlags_each_variable_own_flag`: the enumerator
values of CoreCLR and an environment with `COMPlus_gcConcurrent=0` and
`COMPlus_gcServer=2`. -/
theorem CreateStartupFlags_each_variable_own_flag_witness :
    coreclrHeader.StartupFlagsDistinct ∧
    (HAS_FLAG (CreateStartupFlags coreclrHeader getenvConcurrentOff)
        coreclrHeader.STARTUP_CONCURRENT_GC = true ↔
      getenvConcurrentOff concurrentGcVar ≠ some (W "0")) ∧
    (HAS_FLAG (CreateStartupFlags coreclrHeader getenvConcurrentOff)
        coreclrHeader.STARTUP_SERVER_GC = true ↔
      getenvConcurrentOff serverGcVar = some (W "1")) ∧
    CreateStartupFlags coreclrHeader getenvConcurrentOff =
      coreclrHeader.STARTUP_LOADER_OPTIMIZATION_SINGLE_DOMAIN |||
        coreclrHeader.STARTUP_SINGLE_APPDOMAIN |||
        (if getenvConcurrentOff concurrentGcVar = some (W "0") then 0
          else coreclrHeader.STARTUP_CONCURRENT_GC) |||
        (if getenvConcurrentOff serverGcVar = some (W "1") then
          coreclrHeader.STARTUP_SERVER_GC else 0) :=
  ⟨by unfold MsCoree.StartupFlagsDistinct; decide,
    CreateStartupFlags_each_variable_own_flag coreclrHeader
      (by unfold MsCoree.StartupFlagsDistinct; decide) getenvConcurrentOff⟩

/-! ## The lifecycle: lemmas -/

theorem wcsrchr_some_ne_nil (s : WString) (c : Char) (i : Nat) (h : wcsrchr s c = some i) :
    s ≠ [] := by
  intro hs
  subst hs
  simp [wcsrchr] at h

/-- What `StartHost` has done when it returns: the calls it made on the engine
are appended to the record, and a `CreateAppDomainWithManager` among them was
made with the four property keys and a first property value built as
`trustedListOf` describes. -/
theorem StartHost_calls (os : Win32) (K : MsCoree) (E : Engine) (g : Globals)
    (dllPath : Option WString) (w : Bool) (exitCode : Int)
    (coreRoot coreLibraries : Option WString) (ok : Bool) (code : Int) (g2 : Globals)
    (h : StartHost os K E g dllPath w exitCode coreRoot coreLibraries = some (ok, code, g2)) :
    ∃ new : List EngineCall, g2.calls = g.calls ++ new ∧
      ∀ (name : WString) (dw : Nat) (keys values : List WString),
        EngineCall.CreateAppDomainWithManager name dw keys values ∈ new →
        ∃ (path cl cr : WString) (env0 : HostEnvironment),
          dllPath = some path ∧ coreLibraries = some cl ∧ coreRoot = some cr ∧
          HostEnvironment.ctor os coreRoot = some env0 ∧ keys = property_keys ∧
          values.head? = some (trustedListOf os.fs (GetCLRRuntimeHost os env0).1
            (os.GetFullPathNameW path) cl cr) := by
  unfold StartHost at h
  by_cases hg : GetGlobalHost g ≠ none
  · rw [if_pos hg] at h
    simp only [Option.some.injEq, Prod.mk.injEq] at h
    exact ⟨[], by rw [← h.2.2]; simp, by simp⟩
  · rw [if_neg hg] at h
    have hg2 : GetGlobalHost g = none := by simpa using hg
    cases henv : HostEnvironment.ctor os coreRoot with
    | none => simp only [henv] at h; exact absurd h (by simp)
    | some env0 =>
      cases dllPath with
      | none =>
        simp only [henv, Option.some.injEq, Prod.mk.injEq] at h
        exact ⟨[], by rw [← h.2.2]; simp, by simp⟩
      | some path =>
        cases hi : wcsrchr (os.GetFullPathNameW path) '\\' with
        | none => simp only [henv, hi] at h; exact absurd h (by simp)
        | some i =>
          cases coreLibraries with
          | none => simp only [henv, hi] at h; exact absurd h (by simp)
          | some cl =>
            simp only [henv, hi, hg2, if_true] at h
            cases hhost : (GetCLRRuntimeHost os env0).2 with
            | none =>
              simp only [hhost, Option.some.injEq, Prod.mk.injEq] at h
              exact ⟨[], by rw [← h.2.2]; simp, by simp⟩
            | some host =>
              simp only [hhost] at h
              have hne : (os.GetFullPathNameW path).isEmpty = false := by
                cases hp : os.GetFullPathNameW path with
                | nil => exact absurd hp (wcsrchr_some_ne_nil _ _ _ hi)
                | cons a l => rfl
              split at h
              · simp only [Option.some.injEq, Prod.mk.injEq] at h
                refine ⟨[.SetStartupFlags (CreateStartupFlags K os.getenv)], ?_, by simp⟩
                rw [← h.2.2]; rfl
              · split at h
                · simp only [Option.some.injEq, Prod.mk.injEq] at h
                  refine ⟨[.SetStartupFlags (CreateStartupFlags K os.getenv), .Start], ?_,
                    by simp⟩
                  rw [← h.2.2]
                  simp [Globals.call, SetGlobalHost]
                · cases coreRoot with
                  | none => exact absurd h (by simp)
                  | some cr =>
                    have hcalls : ∀ (c : EngineCall) (b : Bool) (hr : Int) (gg : Globals),
                        (if FAILED (Globals.call E (Globals.call E (Globals.call E
                              (SetGlobalHost g (some host))
                              (.SetStartupFlags (CreateStartupFlags K os.getenv))).2 .Start).2
                              c).1 = true then
                            some (false, (Globals.call E (Globals.call E (Globals.call E
                              (SetGlobalHost g (some host))
                              (.SetStartupFlags (CreateStartupFlags K os.getenv))).2 .Start).2
                              c).1, (Globals.call E (Globals.call E (Globals.call E
                              (SetGlobalHost g (some host))
                              (.SetStartupFlags (CreateStartupFlags K os.getenv))).2 .Start).2
                              c).2)
                          else some (true, NOERROR, SetDomainId (Globals.call E (Globals.call E
                              (Globals.call E (SetGlobalHost g (some host))
                              (.SetStartupFlags (CreateStartupFlags K os.getenv))).2 .Start).2
                              c).2 (E.domainId (Globals.call E (Globals.call E
                              (SetGlobalHost g (some host))
                              (.SetStartupFlags (CreateStartupFlags K os.getenv))).2
                              .Start).2.calls))) = some (b, hr, gg) →
                        gg.calls = g.calls ++
                          [.SetStartupFlags (CreateStartupFlags K os.getenv), .Start, c] := by
                      intro c b hr gg hh
                      split at hh <;>
                        (simp only [Option.some.injEq, Prod.mk.injEq] at hh
                         rw [← hh.2.2]
                         simp [Globals.call, SetGlobalHost, SetDomainId])
                    refine ⟨_, hcalls _ _ _ _ h, ?_⟩
                    intro name dw keys values hmem
                    simp only [List.mem_cons, List.mem_singleton, List.not_mem_nil,
                      or_false] at hmem
                    rcases hmem with h1 | h1 | h1
                    · cases h1
                    · cases h1
                    cases h1
                    refine ⟨path, cl, cr, env0, rfl, rfl, rfl, rfl, rfl, ?_⟩
                    simp only [List.head?, hne, Bool.not_false, if_true, trustedListOf]
                    by_cases hcl : cl.length ≠ 0
                    · simp only [hcl, ne_eq, not_false_eq_true, if_true, List.append_assoc]
                    · simp only [hcl, ne_eq, if_false, List.append_nil, List.append_assoc]

theorem scanInv_AddFiles (fs : FileSystem) (tpa t : WString) (ht : W "\\" <:+ t)
    (h : ∃ seen added, ScanInv rgTPAExtensions tpa seen added) :
    ∃ seen added, ScanInv rgTPAExtensions
      (AddFilesFromDirectoryToTPAList fs tpa t rgTPAExtensions) seen added := by
  obtain ⟨seen, added, hI⟩ := h
  rw [AddFilesFromDirectoryToTPAList_eq]
  obtain ⟨added2, h2⟩ := scanInv_foldl rgTPAExtensions (scanOrder fs t rgTPAExtensions)
    tpa seen added hI (fun f hf => wellFormed_of_mem_scanOrder fs t f ht hf)
  exact ⟨_, added2, h2⟩

/-- The function `GetTpaList` keeps the invariant of the scan loop. -/
theorem scanInv_GetTpaList (fs : FileSystem) (env : HostEnvironment) (p : WString)
    (h : ∃ seen added, ScanInv rgTPAExtensions env.m_tpaList seen added) :
    ∃ seen added, ScanInv rgTPAExtensions (GetTpaList fs env p).m_tpaList seen added := by
  rw [GetTpaList_eq]
  simp only [tpaListAfter]
  have h1 : ∃ seen added, ScanInv rgTPAExtensions
      (if env.m_tpaList.isEmpty then
        AddFilesFromDirectoryToTPAList fs env.m_tpaList
          (env.m_coreCLRDirectoryPath ++ W "\\") rgTPAExtensions
      else env.m_tpaList) seen added := by
    split
    · exact scanInv_AddFiles fs _ _ (List.suffix_append _ _) h
    · exact h
  split
  · exact scanInv_AddFiles fs _ _ (List.suffix_append _ _) h1
  · exact h1

theorem ctor_m_tpaList (os : Win32) (coreRoot : Option WString) (env0 : HostEnvironment)
    (h : HostEnvironment.ctor os coreRoot = some env0) : env0.m_tpaList = [] := by
  unfold HostEnvironment.ctor at h
  simp only at h
  split at h
  · split at h
    · exact absurd h (by simp)
    · simp only [Option.some.injEq] at h
      rw [← h]
  · simp only [Option.some.injEq] at h
    rw [← h]

theorem GetCLRRuntimeHost_m_tpaList (os : Win32) (env : HostEnvironment) :
    (GetCLRRuntimeHost os env).1.m_tpaList = env.m_tpaList := by
  unfold GetCLRRuntimeHost
  split
  · rfl
  · split
    · rfl
    · split
      · rfl
      · split <;> rfl

theorem nodup_of_scanInv (tpa : WString)
    (h : ∃ seen added, ScanInv rgTPAExtensions tpa seen added) :
    ∃ added : List ScannedFile, tpa = joinEntries added ∧ (added.map stemOf).Nodup := by
  obtain ⟨_, added, hj, _, _, _, hnd⟩ := h
  exact ⟨added, hj, hnd⟩

/-! ## The claims about `StartHost` and `UnloadStopHost` -/

/-- C3: whenever a run of `StartHost` creates the execution context, the first
property key is TRUSTED_PLATFORM_ASSEMBLIES and its value begins with the full
path of the target module followed by a semicolon, whatever the directory
scans contribute after it. -/
theorem StartHost_target_module_first (os : Win32) (K : MsCoree) (E : Engine) (g : Globals)
    (dllPath : Option WString) (w : Bool) (exitCode : Int)
    (coreRoot coreLibraries : Option WString) (ok : Bool) (code : Int) (g2 : Globals)
    (name : WString) (dw : Nat) (keys values : List WString)
    (h : StartHost os K E g dllPath w exitCode coreRoot coreLibraries = some (ok, code, g2))
    (hc : EngineCall.CreateAppDomainWithManager name dw keys values ∈
      g2.calls.drop g.calls.length) :
    ∃ path rest : WString, dllPath = some path ∧
      keys.head? = some (W "TRUSTED_PLATFORM_ASSEMBLIES") ∧
      values.head? = some (os.GetFullPathNameW path ++ W ";" ++ rest) := by
  obtain ⟨new, hnew, hcreate⟩ := StartHost_calls os K E g dllPath w exitCode coreRoot
    coreLibraries ok code g2 h
  rw [hnew, List.drop_left] at hc
  obtain ⟨path, cl, cr, env0, hp, _, _, _, hk, hv⟩ := hcreate name dw keys values hc
  refine ⟨path,
    (if cl.length ≠ 0 then (GetTpaList os.fs (GetCLRRuntimeHost os env0).1 cl).m_tpaList
      else []) ++
    (GetTpaList os.fs
      (if cl.length ≠ 0 then GetTpaList os.fs (GetCLRRuntimeHost os env0).1 cl
        else (GetCLRRuntimeHost os env0).1) cr).m_tpaList,
    hp, by rw [hk]; rfl, ?_⟩
  rw [hv, trustedListOf, List.append_assoc (os.GetFullPathNameW path ++ W ";")]

/-- Witness of `StartHost_target_module_first`: the example system, target
`C:\e\app.dll`, every engine call succeeding. -/
theorem StartHost_target_module_first_witness :
    StartHost (osEngineInE [⟨FILE_ATTRIBUTE_ARCHIVE, W "app.dll"⟩]) coreclrHeader
        engineAllSucceed globalsUnstarted (some (W "C:\\e\\app.dll")) false 0
        (some (W "C:\\e")) (some []) = some (true, 0, globalsAfterStart) ∧
    ∃ path rest : WString, some (W "C:\\e\\app.dll") = some path ∧
      property_keys.head? = some (W "TRUSTED_PLATFORM_ASSEMBLIES") ∧
      [W "C:\\e\\app.dll;C:\\e\\app.dll;", W "C:\\e", W "C:\\eNI;C:\\e",
          W "C:\\e;C:\\e\\;C:\\e"].head? =
        some ((osEngineInE [⟨FILE_ATTRIBUTE_ARCHIVE, W "app.dll"⟩]).GetFullPathNameW path ++
          W ";" ++ rest) :=
  ⟨by decide,
    StartHost_target_module_first (osEngineInE [⟨FILE_ATTRIBUTE_ARCHIVE, W "app.dll"⟩])
      coreclrHeader engineAllSucceed globalsUnstarted (some (W "C:\\e\\app.dll")) false 0
      (some (W "C:\\e")) (some []) true 0 globalsAfterStart (W "host.exe") 0x150 property_keys
      [W "C:\\e\\app.dll;C:\\e\\app.dll;", W "C:\\e", W "C:\\eNI;C:\\e", W "C:\\e;C:\\e\\;C:\\e"]
      (by decide) (by decide)⟩

/-- C4 (as stated) fails: with the target `C:\e\app.dll` in the engine directory
and no library directory, `StartHost` passes `C:\e\app.dll;C:\e\app.dll;` to
the engine, two entries with the base name `app`. -/
theorem StartHost_repeats_base_name :
    StartHost (osEngineInE [⟨FILE_ATTRIBUTE_ARCHIVE, W "app.dll"⟩]) coreclrHeader
        engineAllSucceed globalsUnstarted (some (W "C:\\e\\app.dll")) false 0
        (some (W "C:\\e")) (some []) =
      some (true, 0, ⟨some 7, 1, [.SetStartupFlags 0x800003, .Start,
        .CreateAppDomainWithManager (W "host.exe") 0x150 property_keys
          [W "C:\\e\\app.dll;C:\\e\\app.dll;", W "C:\\e", W "C:\\eNI;C:\\e",
            W "C:\\e;C:\\e\\;C:\\e"]]⟩) ∧
    ¬ OneEntryPerBaseName (W "C:\\e\\app.dll;C:\\e\\app.dll;") := by
  unfold OneEntryPerBaseName
  decide

theorem GetCLRRuntimeHost_m_coreCLRDirectoryPath (os : Win32) (env : HostEnvironment) :
    (GetCLRRuntimeHost os env).1.m_coreCLRDirectoryPath = env.m_coreCLRDirectoryPath := by
  unfold GetCLRRuntimeHost
  split
  · rfl
  · split
    · rfl
    · split
      · rfl
      · split <;> rfl

/-- C4 (amended): when `coreLibraries` is the empty string and a run of
`StartHost` creates the execution context, the complete list it passes is the
full path of the target module and a semicolon, followed by the joined form of
a selection of the files scanned in the engine directory and the directory
`coreRoot`, in scan order, in which no normalized base name occurs twice and
each file is the first scanned file of its base name. The target module is
prepended whatever the scan finds, so its base name can occur once more. -/
theorem StartHost_target_then_one_entry_per_base_name (os : Win32) (K : MsCoree)
    (E : Engine) (g : Globals) (dllPath : Option WString) (w : Bool) (exitCode : Int)
    (coreRoot : Option WString) (ok : Bool) (code : Int) (g2 : Globals)
    (name : WString) (dw : Nat) (keys values : List WString)
    (h : StartHost os K E g dllPath w exitCode coreRoot (some []) = some (ok, code, g2))
    (hc : EngineCall.CreateAppDomainWithManager name dw keys values ∈
      g2.calls.drop g.calls.length) :
    ∃ (path cr : WString) (env0 : HostEnvironment) (added : List ScannedFile),
      dllPath = some path ∧ coreRoot = some cr ∧
      HostEnvironment.ctor os coreRoot = some env0 ∧
      values.head? = some (os.GetFullPathNameW path ++ W ";" ++ joinEntries added) ∧
      added.Sublist ((scannedPaths env0.m_coreCLRDirectoryPath cr).flatMap
        (fun t => scanOrder os.fs t rgTPAExtensions)) ∧
      (added.map stemOf).Nodup ∧
      ∀ e ∈ added,
        ((scannedPaths env0.m_coreCLRDirectoryPath cr).flatMap
          (fun t => scanOrder os.fs t rgTPAExtensions)).find?
            (fun f => stemOf f == stemOf e) = some e := by
  obtain ⟨new, hnew, hcreate⟩ := StartHost_calls os K E g dllPath w exitCode coreRoot
    (some []) ok code g2 h
  rw [hnew, List.drop_left] at hc
  obtain ⟨path, cl, cr, env0, hp, hcl, hcr, henv, _, hv⟩ := hcreate name dw keys values hc
  have hcl2 : cl = [] := by
    simp only [Option.some.injEq] at hcl
    exact hcl.symm
  subst hcl2
  have hnil : (GetCLRRuntimeHost os env0).1.m_tpaList = [] := by
    rw [GetCLRRuntimeHost_m_tpaList, ctor_m_tpaList os coreRoot env0 henv]
  obtain ⟨added, hj, hsub, _, hfirst, hnd⟩ :=
    scanInv_dirs os.fs (scannedPaths env0.m_coreCLRDirectoryPath cr)
      (scannedPaths_backslash env0.m_coreCLRDirectoryPath cr)
  refine ⟨path, cr, env0, added, hp, hcr, henv, ?_, hsub, hnd, hfirst⟩
  rw [hv, trustedListOf]
  simp only [List.length_nil, ne_eq, not_true_eq_false, if_false, List.append_nil]
  rw [GetTpaList_eq, hnil, GetCLRRuntimeHost_m_coreCLRDirectoryPath, tpaListAfter_nil, hj]

/-- Witness of `StartHost_target_then_one_entry_per_base_name`: the example
system, target `C:\e\app.dll`, no library directory, every engine call
succeeding; the list passed is `C:\e\app.dll;C:\e\app.dll;`, the target
followed by the one scanned entry. -/
theorem StartHost_target_then_one_entry_per_base_name_witness :
    StartHost (osEngineInE [⟨FILE_ATTRIBUTE_ARCHIVE, W "app.dll"⟩]) coreclrHeader
        engineAllSucceed globalsUnstarted (some (W "C:\\e\\app.dll")) false 0
        (some (W "C:\\e")) (some []) = some (true, 0, globalsAfterStart) ∧
    ∃ (path cr : WString) (env0 : HostEnvironment) (added : List ScannedFile),
      some (W "C:\\e\\app.dll") = some path ∧ some (W "C:\\e") = some cr ∧
      HostEnvironment.ctor (osEngineInE [⟨FILE_ATTRIBUTE_ARCHIVE, W "app.dll"⟩])
        (some (W "C:\\e")) = some env0 ∧
      [W "C:\\e\\app.dll;C:\\e\\app.dll;", W "C:\\e", W "C:\\eNI;C:\\e",
          W "C:\\e;C:\\e\\;C:\\e"].head? =
        some ((osEngineInE [⟨FILE_ATTRIBUTE_ARCHIVE, W "app.dll"⟩]).GetFullPathNameW path ++
          W ";" ++ joinEntries added) ∧
      added.Sublist ((scannedPaths env0.m_coreCLRDirectoryPath cr).flatMap
        (fun t => scanOrder (osEngineInE [⟨FILE_ATTRIBUTE_ARCHIVE, W "app.dll"⟩]).fs t
          rgTPAExtensions)) ∧
      (added.map stemOf).Nodup ∧
      ∀ e ∈ added,
        ((scannedPaths env0.m_coreCLRDirectoryPath cr).flatMap
          (fun t => scanOrder (osEngineInE [⟨FILE_ATTRIBUTE_ARCHIVE, W "app.dll"⟩]).fs t
            rgTPAExtensions)).find?
            (fun f => stemOf f == stemOf e) = some e :=
  ⟨by decide,
    StartHost_target_then_one_entry_per_base_name
      (osEngineInE [⟨FILE_ATTRIBUTE_ARCHIVE, W "app.dll"⟩])
      coreclrHeader engineAllSucceed globalsUnstarted (some (W "C:\\e\\app.dll")) false 0
      (some (W "C:\\e")) true 0 globalsAfterStart (W "host.exe") 0x150 property_keys
      [W "C:\\e\\app.dll;C:\\e\\app.dll;", W "C:\\e", W "C:\\eNI;C:\\e",
        W "C:\\e;C:\\e\\;C:\\e"]
      (by decide) (by decide)⟩

theorem GetTpaList_extends (fs : FileSystem) (env : HostEnvironment) (p : WString) :
    env.m_tpaList <+: (GetTpaList fs env p).m_tpaList := by
  rw [GetTpaList_eq]
  simp only [tpaListAfter]
  have h1 : env.m_tpaList <+:
      (if env.m_tpaList.isEmpty then
        AddFilesFromDirectoryToTPAList fs env.m_tpaList
          (env.m_coreCLRDirectoryPath ++ W "\\") rgTPAExtensions
      else env.m_tpaList) := by
    split
    · exact AddFilesFromDirectoryToTPAList_extends fs _ _ _
    · exact List.prefix_refl _
  split
  · exact h1.trans (AddFilesFromDirectoryToTPAList_extends fs _ _ _)
  · exact h1

/-- With a non-empty `coreLibraries`, the list that `StartHost` passes holds the
string returned by `GetTpaList(coreLibraries)` twice in a row: the string
returned by `GetTpaList(coreRoot)` is the cumulative list, which starts with
it, and lines 809 and 811 append both. -/
theorem StartHost_passes_first_list_twice (os : Win32) (K : MsCoree)
    (E : Engine) (g : Globals) (dllPath : Option WString) (w : Bool) (exitCode : Int)
    (coreRoot : Option WString) (cl : WString) (ok : Bool) (code : Int) (g2 : Globals)
    (name : WString) (dw : Nat) (keys values : List WString) (hcl : cl.length ≠ 0)
    (h : StartHost os K E g dllPath w exitCode coreRoot (some cl) = some (ok, code, g2))
    (hc : EngineCall.CreateAppDomainWithManager name dw keys values ∈
      g2.calls.drop g.calls.length) :
    ∃ (path : WString) (env0 : HostEnvironment) (more : WString),
      dllPath = some path ∧ HostEnvironment.ctor os coreRoot = some env0 ∧
      values.head? = some (os.GetFullPathNameW path ++ W ";" ++
        (GetTpaList os.fs (GetCLRRuntimeHost os env0).1 cl).m_tpaList ++
        (GetTpaList os.fs (GetCLRRuntimeHost os env0).1 cl).m_tpaList ++ more) := by
  obtain ⟨new, hnew, hcreate⟩ := StartHost_calls os K E g dllPath w exitCode coreRoot
    (some cl) ok code g2 h
  rw [hnew, List.drop_left] at hc
  obtain ⟨path, cl2, cr, env0, hp, hcl2, hcr, henv, _, hv⟩ := hcreate name dw keys values hc
  have : cl2 = cl := by
    simp only [Option.some.injEq] at hcl2
    exact hcl2.symm
  subst this
  obtain ⟨more, hmore⟩ := GetTpaList_extends os.fs
    (GetTpaList os.fs (GetCLRRuntimeHost os env0).1 cl2) cr
  refine ⟨path, env0, more, hp, henv, ?_⟩
  rw [hv, trustedListOf]
  simp only [hcl, ne_eq, not_false_eq_true, if_true]
  rw [← hmore]
  simp only [List.append_assoc]

/-- The string that `GetTpaList` returns is the whole list built so far, so with
a non-empty `coreLibraries` lines 809 and 811 append the entries of the engine
directory twice: on the example system with target `C:\a\app.dll`, library
directory `C:\l` and `system.dll` in the engine directory, the list passed is
`C:\a\app.dll;C:\e\system.dll;C:\e\system.dll;`. -/
theorem StartHost_appends_returned_list_twice :
    StartHost (osEngineInE [⟨FILE_ATTRIBUTE_ARCHIVE, W "system.dll"⟩]) coreclrHeader
        engineAllSucceed globalsUnstarted (some (W "C:\\a\\app.dll")) false 0
        (some (W "C:\\e")) (some (W "C:\\l")) =
      some (true, 0, ⟨some 7, 1, [.SetStartupFlags 0x800003, .Start,
        .CreateAppDomainWithManager (W "host.exe") 0x150 property_keys
          [W "C:\\a\\app.dll;C:\\e\\system.dll;C:\\e\\system.dll;", W "C:\\a",
            W "C:\\aNI;C:\\a", W "C:\\a;C:\\a\\;C:\\l;C:\\e"]]⟩) := by
  decide

/-- C8: when the global host handle is not null, `StartHost` returns false
without touching `exitCode` or the globals, and `StartCoreCLR` returns a
failure code; no call is made on the engine, and the host handle and the
context identifier stay as they were. -/
theorem StartCoreCLR_rejected_when_started (os : Win32) (K : MsCoree) (E : Engine)
    (g : Globals) (args : Option BinaryLoaderArgs) (h : g.g_Host ≠ none) :
    (∀ (dllPath : Option WString) (w : Bool) (exitCode : Int)
        (coreRoot coreLibraries : Option WString),
      StartHost os K E g dllPath w exitCode coreRoot coreLibraries =
        some (false, exitCode, g)) ∧
    ∃ hr : Int, StartCoreCLR os K E g args = some (hr, g) ∧ FAILED hr = true := by
  have hs : ∀ (dllPath : Option WString) (w : Bool) (exitCode : Int)
      (coreRoot coreLibraries : Option WString),
      StartHost os K E g dllPath w exitCode coreRoot coreLibraries =
        some (false, exitCode, g) := by
    intro dllPath w exitCode coreRoot coreLibraries
    unfold StartHost
    rw [if_pos (by simpa [GetGlobalHost] using h)]
  refine ⟨hs, ?_⟩
  unfold StartCoreCLR
  by_cases hv : SUCCEEDED (ValidateBinaryLoaderArgs args) = true
  · rw [if_pos hv]
    cases args with
    | none => exact absurd hv (by decide)
    | some a =>
      refine ⟨-1, ?_, by decide⟩
      simp only [StartCoreCLRInternal, hs]
  · rw [if_neg hv]
    exact ⟨E_INVALIDARG, rfl, by decide⟩

/-- Witness of `StartCoreCLR_rejected_when_started`: a second start on the
example system while host 7 is active. -/
theorem StartCoreCLR_rejected_when_started_witness :
    globalsActive.g_Host ≠ none ∧
    (∀ (dllPath : Option WString) (w : Bool) (exitCode : Int)
        (coreRoot coreLibraries : Option WString),
      StartHost (osEngineInE []) coreclrHeader engineAllSucceed globalsActive dllPath w
        exitCode coreRoot coreLibraries = some (false, exitCode, globalsActive)) ∧
    ∃ hr : Int, StartCoreCLR (osEngineInE []) coreclrHeader engineAllSucceed globalsActive
      (some argsApp) = some (hr, globalsActive) ∧ FAILED hr = true :=
  ⟨by decide, StartCoreCLR_rejected_when_started (osEngineInE []) coreclrHeader
    engineAllSucceed globalsActive (some argsApp) (by decide)⟩

/-- C9 fails on the code: when the engine fails `SetStartupFlags` or `Start`,
`StartHost` returns false with the failure code of the engine, but the global
host handle, stored before these calls, is left set to the host; a later
`StartHost` is then rejected at the already-started guard and makes no call on
the engine. -/
theorem StartHost_failed_start_keeps_handle :
    StartHost (osEngineInE []) coreclrHeader engineRejectsFlags globalsUnstarted
        (some (W "C:\\e\\app.dll")) false (-1) (some (W "C:\\e")) (some []) =
      some (false, E_FAIL, ⟨some 7, 0, [.SetStartupFlags 0x800003]⟩) ∧
    StartHost (osEngineInE []) coreclrHeader engineAllSucceed
        ⟨some 7, 0, [.SetStartupFlags 0x800003]⟩
        (some (W "C:\\e\\app.dll")) false (-1) (some (W "C:\\e")) (some []) =
      some (false, -1, ⟨some 7, 0, [.SetStartupFlags 0x800003]⟩) ∧
    StartHost (osEngineInE []) coreclrHeader engineRejectsStart globalsUnstarted
        (some (W "C:\\e\\app.dll")) false (-1) (some (W "C:\\e")) (some []) =
      some (false, E_FAIL, ⟨some 7, 0, [.SetStartupFlags 0x800003, .Start]⟩) ∧
    StartHost (osEngineInE []) coreclrHeader engineAllSucceed
        ⟨some 7, 0, [.SetStartupFlags 0x800003, .Start]⟩
        (some (W "C:\\e\\app.dll")) false (-1) (some (W "C:\\e")) (some []) =
      some (false, -1, ⟨some 7, 0, [.SetStartupFlags 0x800003, .Start]⟩) := by
  decide

/-- C10: with a non-null host, `UnloadStopHost` first asks the engine to unload
the context; if that fails it returns that code, having made no other call and
changed no global; if it succeeds and `Stop` fails it returns the code of
`Stop`, having made exactly these two calls in this order (no `Release`) and
changed no global; if both succeed the calls are unload, stop, release, in
this order. -/
theorem UnloadStopHost_stops_at_first_failure (E : Engine) (g : Globals)
    (h : g.g_Host ≠ none) :
    (FAILED (E.hresult g.calls (.UnloadAppDomain2 g.g_domainId true)) = true →
      UnloadStopHost E g =
        (E.hresult g.calls (.UnloadAppDomain2 g.g_domainId true),
          { g with calls := g.calls ++ [.UnloadAppDomain2 g.g_domainId true] })) ∧
    (FAILED (E.hresult g.calls (.UnloadAppDomain2 g.g_domainId true)) = false →
      FAILED (E.hresult (g.calls ++ [.UnloadAppDomain2 g.g_domainId true]) .Stop) = true →
      UnloadStopHost E g =
        (E.hresult (g.calls ++ [.UnloadAppDomain2 g.g_domainId true]) .Stop,
          { g with calls := g.calls ++ [.UnloadAppDomain2 g.g_domainId true, .Stop] })) ∧
    (FAILED (E.hresult g.calls (.UnloadAppDomain2 g.g_domainId true)) = false →
      FAILED (E.hresult (g.calls ++ [.UnloadAppDomain2 g.g_domainId true]) .Stop) = false →
      (UnloadStopHost E g).2.calls =
        g.calls ++ [.UnloadAppDomain2 g.g_domainId true, .Stop, .Release]) := by
  obtain ⟨host, hhost⟩ := Option.ne_none_iff_exists'.1 h
  refine ⟨?_, ?_, ?_⟩
  · intro h1
    simp only [UnloadStopHost, GetGlobalHost, hhost, Globals.call, GetDomainId, h1, if_true]
  · intro h1 h2
    simp only [UnloadStopHost, GetGlobalHost, hhost, Globals.call, GetDomainId, h1, h2,
      if_true, Bool.false_eq_true, if_false, List.append_assoc, List.singleton_append]
  · intro h1 h2
    simp only [UnloadStopHost, GetGlobalHost, hhost, Globals.call, GetDomainId, h1, h2,
      Bool.false_eq_true, if_false, SetDomainId, SetGlobalHost, List.append_assoc,
      List.singleton_append, List.cons_append, List.nil_append]

/-- Witness of `UnloadStopHost_stops_at_first_failure`: the active host with an
engine on which the unload fails, with an engine on which `Stop` fails, and
with an engine on which every call succeeds. -/
theorem UnloadStopHost_stops_at_first_failure_witness :
    globalsActive.g_Host ≠ none ∧
    UnloadStopHost engineUnloadFails globalsActive =
      (E_FAIL, { globalsActive with
        calls := globalsActive.calls ++ [.UnloadAppDomain2 1 true] }) ∧
    UnloadStopHost engineStopFails globalsActive =
      (E_FAIL, { globalsActive with
        calls := globalsActive.calls ++ [.UnloadAppDomain2 1 true, .Stop] }) ∧
    (UnloadStopHost engineAllSucceed globalsActive).2.calls =
      globalsActive.calls ++ [.UnloadAppDomain2 1 true, .Stop, .Release] :=
  ⟨by decide,
    (UnloadStopHost_stops_at_first_failure engineUnloadFails globalsActive (by decide)).1
      (by decide),
    (UnloadStopHost_stops_at_first_failure engineStopFails globalsActive (by decide)).2.1
      (by decide) (by decide),
    (UnloadStopHost_stops_at_first_failure engineAllSucceed globalsActive (by decide)).2.2
      (by decide) (by decide)⟩

/-! ## Sequences of `GetTpaList` calls -/

theorem GetTpaList_scans (fs : FileSystem) (env : HostEnvironment) (p : WString) :
    (GetTpaList fs env p).m_tpaList =
      (scansOfCall env p).foldl
        (fun tpa t => AddFilesFromDirectoryToTPAList fs tpa t rgTPAExtensions) env.m_tpaList := by
  unfold GetTpaList scansOfCall
  by_cases h1 : env.m_tpaList.isEmpty = true <;> by_cases h2 : p = env.m_coreCLRDirectoryPath <;>
    simp [h1, h2]

theorem GetTpaList_m_coreCLRDirectoryPath (fs : FileSystem) (env : HostEnvironment)
    (p : WString) :
    (GetTpaList fs env p).m_coreCLRDirectoryPath = env.m_coreCLRDirectoryPath := by
  rw [GetTpaList_eq]

theorem foldl_GetTpaList_scans (fs : FileSystem) (paths : List WString) :
    ∀ env : HostEnvironment,
      (paths.foldl (GetTpaList fs) env).m_tpaList =
        (scansOfCalls fs env paths).foldl
          (fun tpa t => AddFilesFromDirectoryToTPAList fs tpa t rgTPAExtensions)
          env.m_tpaList := by
  induction paths with
  | nil => intro env; rfl
  | cons p ps ih =>
    intro env
    rw [List.foldl_cons, ih, scansOfCalls, List.foldl_append, GetTpaList_scans]

theorem scansOfCalls_backslash (fs : FileSystem) (paths : List WString) :
    ∀ (env : HostEnvironment), ∀ t ∈ scansOfCalls fs env paths, W "\\" <:+ t := by
  induction paths with
  | nil => intro env t ht; simp [scansOfCalls] at ht
  | cons p ps ih =>
    intro env t ht
    rw [scansOfCalls, List.mem_append] at ht
    rcases ht with ht | ht
    · unfold scansOfCall at ht
      rw [List.mem_append] at ht
      rcases ht with ht | ht
      · split at ht
        · rw [List.mem_singleton.1 ht]; exact List.suffix_append _ _
        · simp at ht
      · split at ht
        · rw [List.mem_singleton.1 ht]; exact List.suffix_append _ _
        · simp at ht
    · exact ih _ t ht

/-- In a scan of several directories the first file that satisfies a predicate
has the smallest rank among the scanned files of its own directory that
satisfy it. -/
theorem rank_le_of_first_dirs (fs : FileSystem) (P : ScannedFile → Bool) (exts : List WString) :
    ∀ (dirs : List WString) (e f : ScannedFile),
      (dirs.flatMap (fun t => scanOrder fs t exts)).find? P = some e →
      f ∈ dirs.flatMap (fun t => scanOrder fs t exts) → P f = true → f.1 = e.1 →
        extensionRank exts e.2.cFileName ≤ extensionRank exts f.2.cFileName := by
  intro dirs
  induction dirs with
  | nil => intro e f _ hf; simp at hf
  | cons d ds ih =>
    intro e f he hf hP hdir
    rw [List.flatMap_cons] at he hf
    rw [List.find?_append] at he
    cases h1 : (scanOrder fs d exts).find? P with
    | some e2 =>
      rw [h1] at he
      have : e2 = e := by simpa using he
      subst this
      have he1 : e2.1 = d := mem_scanOrder_fst fs d _ e2 (List.mem_of_find?_eq_some h1)
      have hf1 : f ∈ scanOrder fs d exts := by
        rcases List.mem_append.1 hf with hf1 | hf2
        · exact hf1
        · obtain ⟨t, _, hft⟩ := List.mem_flatMap.1 hf2
          have ht : f.1 = t := mem_scanOrder_fst fs t _ f hft
          have : t = d := ht.symm.trans (hdir.trans he1)
          rw [this] at hft
          exact hft
      exact rank_le_of_first fs d P exts e2 f h1 hf1 hP
    | none =>
      rw [h1] at he
      have he2 : (ds.flatMap (fun t => scanOrder fs t exts)).find? P = some e := by
        simpa using he
      have hf2 : f ∈ ds.flatMap (fun t => scanOrder fs t exts) := by
        rcases List.mem_append.1 hf with hf1 | hf2
        · rw [List.find?_eq_none] at h1
          exact absurd hP (h1 f hf1)
        · exact hf2
      exact ih e f he2 hf2 hP hdir

/-- C2 (amended): the list that `GetTpaList` has built after any sequence of
calls on an environment, starting from the empty list that the constructor
leaves, is the joined form of a selection of the scanned files with no
normalized stem twice, so of the scanned files that share a stem at most one
is included; and the one included has the highest-priority extension among the
scanned files of that stem in its own directory. -/
theorem GetTpaList_highest_priority_within_directory (fs : FileSystem)
    (env : HostEnvironment) (paths : List WString) (hstart : env.m_tpaList = []) :
    ∃ added : List ScannedFile,
      (paths.foldl (GetTpaList fs) env).m_tpaList = joinEntries added ∧
      added.Sublist ((scansOfCalls fs env paths).flatMap
        (fun t => scanOrder fs t rgTPAExtensions)) ∧
      (added.map stemOf).Nodup ∧
      ∀ e ∈ added, ∀ f ∈ (scansOfCalls fs env paths).flatMap
          (fun t => scanOrder fs t rgTPAExtensions),
        stemOf f = stemOf e → f.1 = e.1 →
          extensionRank rgTPAExtensions e.2.cFileName ≤
            extensionRank rgTPAExtensions f.2.cFileName := by
  obtain ⟨added, hj, hsub, _, hfirst, hnd⟩ :=
    scanInv_dirs fs (scansOfCalls fs env paths) (scansOfCalls_backslash fs paths env)
  refine ⟨added, ?_, hsub, hnd, ?_⟩
  · rw [foldl_GetTpaList_scans, hstart]
    exact hj
  · intro e he f hf hstem hdir
    exact rank_le_of_first_dirs fs (fun g => stemOf g == stemOf e) rgTPAExtensions _ e f
      (hfirst e he) hf (by simpa using hstem) hdir

/-- Witness of `GetTpaList_highest_priority_within_directory`: the two calls
that `StartHost` makes, `GetTpaList` of the library directory `C:\l` and then
of the engine directory `C:\e`, on the example environment; the engine
directory and the library directory are scanned once each and the list is
`C:\e\foo.dll;`. -/
theorem GetTpaList_highest_priority_within_directory_witness :
    envEngineInE.m_tpaList = [] ∧
    scansOfCalls fsEngineAndLibraries envEngineInE [W "C:\\l", W "C:\\e"] =
      [W "C:\\e\\", W "C:\\l\\"] ∧
    ([W "C:\\l", W "C:\\e"].foldl (GetTpaList fsEngineAndLibraries) envEngineInE).m_tpaList =
      W "C:\\e\\foo.dll;" ∧
    ∃ added : List ScannedFile,
      ([W "C:\\l", W "C:\\e"].foldl (GetTpaList fsEngineAndLibraries) envEngineInE).m_tpaList =
        joinEntries added ∧
      added.Sublist ((scansOfCalls fsEngineAndLibraries envEngineInE
          [W "C:\\l", W "C:\\e"]).flatMap
        (fun t => scanOrder fsEngineAndLibraries t rgTPAExtensions)) ∧
      (added.map stemOf).Nodup ∧
      ∀ e ∈ added, ∀ f ∈ (scansOfCalls fsEngineAndLibraries envEngineInE
            [W "C:\\l", W "C:\\e"]).flatMap
          (fun t => scanOrder fsEngineAndLibraries t rgTPAExtensions),
        stemOf f = stemOf e → f.1 = e.1 →
          extensionRank rgTPAExtensions e.2.cFileName ≤
            extensionRank rgTPAExtensions f.2.cFileName :=
  ⟨rfl, by decide, by decide,
    GetTpaList_highest_priority_within_directory fsEngineAndLibraries envEngineInE
      [W "C:\\l", W "C:\\e"] rfl⟩

/-! ## The claims about `UnloadStopHost` after a successful or absent context -/

/-- C11: with a non-null host, when the unload of the context and `Stop` both
succeed, `UnloadStopHost` makes exactly the calls unload, stop, release (one
`Release`), sets the global host handle to null and the context identifier to
`(DWORD)-1`, and returns the success code of `Stop`; in the state it leaves the
condition of the already-started guard of `StartHost` is false. -/
theorem UnloadStopHost_success_clears_globals (E : Engine) (g : Globals)
    (h : g.g_Host ≠ none)
    (h1 : FAILED (E.hresult g.calls (.UnloadAppDomain2 g.g_domainId true)) = false)
    (h2 : FAILED (E.hresult (g.calls ++ [.UnloadAppDomain2 g.g_domainId true]) .Stop) = false) :
    UnloadStopHost E g =
      (E.hresult (g.calls ++ [.UnloadAppDomain2 g.g_domainId true]) .Stop,
        ⟨none, 0xFFFFFFFF,
          g.calls ++ [.UnloadAppDomain2 g.g_domainId true, .Stop, .Release]⟩) ∧
    SUCCEEDED (UnloadStopHost E g).1 = true ∧
    ((UnloadStopHost E g).2.calls.drop g.calls.length).count .Release = 1 ∧
    ¬ (GetGlobalHost (UnloadStopHost E g).2 ≠ none) := by
  obtain ⟨host, hhost⟩ := Option.ne_none_iff_exists'.1 h
  have heq : UnloadStopHost E g =
      (E.hresult (g.calls ++ [.UnloadAppDomain2 g.g_domainId true]) .Stop,
        ⟨none, 0xFFFFFFFF,
          g.calls ++ [.UnloadAppDomain2 g.g_domainId true, .Stop, .Release]⟩) := by
    simp only [UnloadStopHost, GetGlobalHost, hhost, Globals.call, GetDomainId, h1, h2,
      Bool.false_eq_true, if_false, SetDomainId, SetGlobalHost, List.append_assoc,
      List.singleton_append, List.cons_append, List.nil_append]
  refine ⟨heq, ?_, ?_, ?_⟩
  · rw [heq]
    simp only [FAILED, decide_eq_false_iff_not, not_lt] at h2
    simpa [SUCCEEDED] using h2
  · rw [heq]
    simp only [List.drop_left]
    simp [List.count_cons]
  · rw [heq]
    simp [GetGlobalHost]

/-- Witness of `UnloadStopHost_success_clears_globals`: the active host of the
example system on an engine on which every call succeeds. -/
theorem UnloadStopHost_success_clears_globals_witness :
    globalsActive.g_Host ≠ none ∧
    UnloadStopHost engineAllSucceed globalsActive =
      (0, ⟨none, 0xFFFFFFFF, globalsActive.calls ++ [.UnloadAppDomain2 1 true, .Stop, .Release]⟩) ∧
    SUCCEEDED (UnloadStopHost engineAllSucceed globalsActive).1 = true ∧
    ((UnloadStopHost engineAllSucceed globalsActive).2.calls.drop
      globalsActive.calls.length).count .Release = 1 ∧
    ¬ (GetGlobalHost (UnloadStopHost engineAllSucceed globalsActive).2 ≠ none) :=
  ⟨by decide,
    UnloadStopHost_success_clears_globals engineAllSucceed globalsActive (by decide)
      (by decide) (by decide)⟩

/-- After a start and an unload that both succeed on the example system, a
second `StartHost` runs to the creation of a context and returns true. -/
theorem StartHost_after_unload_example :
    StartHost (osEngineInE []) coreclrHeader engineAllSucceed
        (UnloadStopHost engineAllSucceed globalsActive).2
        (some (W "C:\\e\\app.dll")) false 0 (some (W "C:\\e")) (some []) =
      some (true, 0, ⟨some 7, 1, globalsActive.calls ++
        [.UnloadAppDomain2 1 true, .Stop, .Release, .SetStartupFlags 0x800003, .Start,
          .CreateAppDomainWithManager (W "host.exe") 0x150 property_keys
            [W "C:\\e\\app.dll;", W "C:\\e", W "C:\\eNI;C:\\e", W "C:\\e;C:\\e\\;C:\\e"]]⟩) := by
  decide

/-- C12 (as stated) fails: on the example system with an engine that fails the
creation of the context and fails the unload of a context that was never
created, `StartHost` leaves a started host without a context; `UnloadStopHost`
then returns the failure of the unload, makes no `Stop` call and leaves the
global host handle set, and a later `StartHost` is rejected at the guard. -/
theorem UnloadStopHost_without_context_keeps_handle :
    StartHost (osEngineInE []) coreclrHeader engineNoContext globalsUnstarted
        (some (W "C:\\e\\app.dll")) false (-1) (some (W "C:\\e")) (some []) =
      some (false, E_FAIL, globalsNoContext) ∧
    UnloadStopHost engineNoContext globalsNoContext =
      (E_FAIL, { globalsNoContext with
        calls := globalsNoContext.calls ++ [.UnloadAppDomain2 0 true] }) ∧
    EngineCall.Stop ∉ (UnloadStopHost engineNoContext globalsNoContext).2.calls ∧
    (UnloadStopHost engineNoContext globalsNoContext).2.g_Host = some 7 ∧
    StartHost (osEngineInE []) coreclrHeader engineNoContext
        (UnloadStopHost engineNoContext globalsNoContext).2
        (some (W "C:\\e\\app.dll")) false (-1) (some (W "C:\\e")) (some []) =
      some (false, -1, (UnloadStopHost engineNoContext globalsNoContext).2) := by
  decide

/-- C12 (amended): for a non-null host, in particular one that was started and
has no active context, `UnloadStopHost` first asks the engine to unload the
stored context identifier; it calls `Stop` exactly when the engine reports
success for that unload, and it clears the global host handle (so that the
guard of a later `StartHost` does not fire) exactly when `Stop` succeeds as
well. -/
theorem UnloadStopHost_stop_only_after_unload (E : Engine) (g : Globals)
    (h : g.g_Host ≠ none) :
    ((UnloadStopHost E g).2.calls.drop g.calls.length).head? =
      some (.UnloadAppDomain2 g.g_domainId true) ∧
    (EngineCall.Stop ∈ (UnloadStopHost E g).2.calls.drop g.calls.length ↔
      FAILED (E.hresult g.calls (.UnloadAppDomain2 g.g_domainId true)) = false) ∧
    (GetGlobalHost (UnloadStopHost E g).2 = none ↔
      (FAILED (E.hresult g.calls (.UnloadAppDomain2 g.g_domainId true)) = false ∧
        FAILED (E.hresult (g.calls ++ [.UnloadAppDomain2 g.g_domainId true]) .Stop) =
          false)) := by
  obtain ⟨host, hhost⟩ := Option.ne_none_iff_exists'.1 h
  cases h1 : FAILED (E.hresult g.calls (.UnloadAppDomain2 g.g_domainId true))
  · cases h2 : FAILED (E.hresult (g.calls ++ [.UnloadAppDomain2 g.g_domainId true]) .Stop)
    · simp [UnloadStopHost, GetGlobalHost, hhost, Globals.call, GetDomainId, h1, h2,
        SetDomainId, SetGlobalHost]
    · simp [UnloadStopHost, GetGlobalHost, hhost, Globals.call, GetDomainId, h1, h2]
  · simp [UnloadStopHost, GetGlobalHost, hhost, Globals.call, GetDomainId, h1]

/-- Witness of `UnloadStopHost_stop_only_after_unload`: the started host without
a context of the example system. -/
theorem UnloadStopHost_stop_only_after_unload_witness :
    globalsNoContext.g_Host ≠ none ∧
    ((UnloadStopHost engineNoContext globalsNoContext).2.calls.drop
        globalsNoContext.calls.length).head? =
      some (.UnloadAppDomain2 globalsNoContext.g_domainId true) ∧
    (EngineCall.Stop ∈ (UnloadStopHost engineNoContext globalsNoContext).2.calls.drop
        globalsNoContext.calls.length ↔
      FAILED (engineNoContext.hresult globalsNoContext.calls
        (.UnloadAppDomain2 globalsNoContext.g_domainId true)) = false) ∧
    (GetGlobalHost (UnloadStopHost engineNoContext globalsNoContext).2 = none ↔
      (FAILED (engineNoContext.hresult globalsNoContext.calls
          (.UnloadAppDomain2 globalsNoContext.g_domainId true)) = false ∧
        FAILED (engineNoContext.hresult
          (globalsNoContext.calls ++ [.UnloadAppDomain2 globalsNoContext.g_domainId true])
          .Stop) = false)) :=
  ⟨by decide,
    UnloadStopHost_stop_only_after_unload engineNoContext globalsNoContext (by decide)⟩

/-! ## The claims about argument validation -/

theorem ValidateArgument_eq_S_OK (argument : Option WString) (maxSize : Nat) :
    ValidateArgument argument maxSize = S_OK ↔ ∃ s, argument = some s ∧ s.length < maxSize := by
  unfold ValidateArgument
  cases argument with
  | none => simp; decide
  | some s =>
    by_cases hl : s.length ≥ maxSize
    · simp only [hl, if_true, Option.some.injEq, exists_eq_left']
      constructor
      · intro h; exact absurd h (by decide)
      · intro h; omega
    · simp only [hl, if_false, Option.some.injEq, exists_eq_left', true_iff]
      omega

theorem ValidateArgument_invalid (argument : Option WString) (maxSize : Nat)
    (h : InvalidString argument maxSize) :
    SUCCEEDED (ValidateArgument argument maxSize) = false := by
  have hE : SUCCEEDED E_INVALIDARG = false := by decide
  unfold ValidateArgument
  rcases h with rfl | ⟨s, rfl, hs⟩
  · exact hE
  · simp only [hs, if_true]; exact hE

theorem ValidateBinaryLoaderArgs_invalid (args : Option BinaryLoaderArgs)
    (h : InvalidBinaryLoaderArgs args) : SUCCEEDED (ValidateBinaryLoaderArgs args) = false := by
  have hE : SUCCEEDED E_INVALIDARG = false := by decide
  unfold ValidateBinaryLoaderArgs
  rcases h with rfl | ⟨a, rfl, h1 | h1 | h1⟩
  · exact hE
  all_goals
    simp only [ValidateArgument_invalid _ _ h1, Bool.false_and, Bool.and_false,
      Bool.false_eq_true, if_false]
    exact hE

theorem ValidateAssemblyFunctionCallArgs_invalid (n : Nat) (args : Option AssemblyFunctionCall)
    (h : InvalidAssemblyFunctionCall n args) :
    SUCCEEDED (ValidateAssemblyFunctionCallArgs n args) = false := by
  have hE : SUCCEEDED E_INVALIDARG = false := by decide
  unfold ValidateAssemblyFunctionCallArgs
  rcases h with rfl | ⟨a, rfl, h1 | h1 | h1⟩
  · exact hE
  all_goals
    simp only [ValidateArgument_invalid _ _ h1, Bool.false_and, Bool.and_false,
      Bool.false_eq_true, if_false]
    exact hE

/-- C13: `ValidateArgument` returns `S_OK` exactly when the string is non-null
and shorter than the bound, and `E_INVALIDARG` otherwise; `StartCoreCLR` and
`ExecuteAssemblyFunction` return `E_INVALIDARG` with the globals and the record
of engine calls unchanged whenever the struct is null or one of its strings is
null or reaches its bound (`MAX_PATH` for the paths, `FunctionNameSize` for the
names). -/
theorem invalid_arguments_rejected (os : Win32) (K : MsCoree) (E : Engine) (g : Globals)
    (FunctionNameSize : Nat) (entryInfoAddress : Int)
    (loaderArgs : Option BinaryLoaderArgs) (callArgs : Option AssemblyFunctionCall) :
    (∀ (argument : Option WString) (maxSize : Nat),
      (ValidateArgument argument maxSize = S_OK ↔
        ∃ s, argument = some s ∧ s.length < maxSize) ∧
      (ValidateArgument argument maxSize = S_OK ∨
        ValidateArgument argument maxSize = E_INVALIDARG)) ∧
    (InvalidBinaryLoaderArgs loaderArgs →
      StartCoreCLR os K E g loaderArgs = some (E_INVALIDARG, g)) ∧
    (InvalidAssemblyFunctionCall FunctionNameSize callArgs →
      ExecuteAssemblyFunction FunctionNameSize E g entryInfoAddress callArgs =
        some (E_INVALIDARG, g)) := by
  refine ⟨fun argument maxSize => ⟨ValidateArgument_eq_S_OK argument maxSize, ?_⟩, ?_, ?_⟩
  · unfold ValidateArgument
    cases argument with
    | none => right; rfl
    | some s => by_cases hl : s.length ≥ maxSize <;> simp [hl]
  · intro h
    unfold StartCoreCLR
    rw [ValidateBinaryLoaderArgs_invalid loaderArgs h]
    rfl
  · intro h
    unfold ExecuteAssemblyFunction
    rw [ValidateAssemblyFunctionCallArgs_invalid FunctionNameSize callArgs h]
    rfl

/-- Witness of `invalid_arguments_rejected`: a null target path and a null
assembly name on the example system with an active host. -/
theorem invalid_arguments_rejected_witness :
    InvalidBinaryLoaderArgs (some argsNullBinary) ∧
    InvalidAssemblyFunctionCall 256 (some callNullAssembly) ∧
    StartCoreCLR (osEngineInE []) coreclrHeader engineAllSucceed globalsActive
      (some argsNullBinary) = some (E_INVALIDARG, globalsActive) ∧
    ExecuteAssemblyFunction 256 engineAllSucceed globalsActive 0 (some callNullAssembly) =
      some (E_INVALIDARG, globalsActive) :=
  ⟨Or.inr ⟨argsNullBinary, rfl, Or.inl (Or.inl rfl)⟩,
    Or.inr ⟨callNullAssembly, rfl, Or.inl (Or.inl rfl)⟩,
    (invalid_arguments_rejected (osEngineInE []) coreclrHeader engineAllSucceed globalsActive
      256 0 (some argsNullBinary) (some callNullAssembly)).2.1
      (Or.inr ⟨argsNullBinary, rfl, Or.inl (Or.inl rfl)⟩),
    (invalid_arguments_rejected (osEngineInE []) coreclrHeader engineAllSucceed globalsActive
      256 0 (some argsNullBinary) (some callNullAssembly)).2.2
      (Or.inr ⟨callNullAssembly, rfl, Or.inl (Or.inl rfl)⟩)⟩

/-! ## The hexadecimal string -/

theorem hexDigits_getD (k : Nat) (hk : k < 16) :
    hexDigits.getD k '0' ∈ hexDigits ∧ hexDigitValue (hexDigits.getD k '0') = some k := by
  interval_cases k <;> decide

theorem emod_mul_sixteen (x a : Int) (ha : 0 < a) :
    x % (a * 16) = a * (x / a % 16) + x % a := by
  have h1 : 0 ≤ x / a % 16 := Int.emod_nonneg _ (by norm_num)
  have h2 : x / a % 16 < 16 := Int.emod_lt_of_pos _ (by norm_num)
  have h3 : 0 ≤ x % a := Int.emod_nonneg _ (ne_of_gt ha)
  have h4 : x % a < a := Int.emod_lt_of_pos _ ha
  have hx : x = a * (x / a % 16) + x % a + a * 16 * (x / a / 16) := by
    have e1 := Int.ediv_add_emod x a
    have e2 := Int.ediv_add_emod (x / a) 16
    calc x = a * (x / a) + x % a := e1.symm
      _ = a * (16 * (x / a / 16) + x / a % 16) + x % a := by rw [e2]
      _ = a * (x / a % 16) + x % a + a * 16 * (x / a / 16) := by ring
  conv_lhs => rw [hx]
  rw [Int.add_mul_emod_self_left]
  apply Int.emod_eq_of_lt
  · have := Int.mul_nonneg (le_of_lt ha) h1
    omega
  · have : a * (x / a % 16) ≤ a * 15 := Int.mul_le_mul_of_nonneg_left (by omega) (le_of_lt ha)
    omega

theorem toNat_emod_step (x : Int) (n : Nat) :
    (x % 2 ^ (4 * (n + 1))).toNat =
      ((x >>> (n * 4)) % 16).toNat * 16 ^ n + (x % 2 ^ (4 * n)).toNat := by
  have ha : (0 : Int) < 2 ^ (4 * n) := by positivity
  have e : (2 : Int) ^ (4 * (n + 1)) = 2 ^ (4 * n) * 16 := by
    rw [show 4 * (n + 1) = 4 * n + 4 by ring, pow_add]; norm_num
  have e16 : (16 : Int) ^ n = 2 ^ (4 * n) := by
    rw [pow_mul]; norm_num
  have hs : x >>> (n * 4) = x / 2 ^ (4 * n) := by
    rw [Int.shiftRight_eq_div_pow, Nat.mul_comm]; norm_cast
  have h1 : ((x % 2 ^ (4 * (n + 1))).toNat : Int) = x % 2 ^ (4 * (n + 1)) :=
    Int.toNat_of_nonneg (Int.emod_nonneg _ (by positivity))
  have h2 : (((x >>> (n * 4)) % 16).toNat : Int) = (x >>> (n * 4)) % 16 :=
    Int.toNat_of_nonneg (Int.emod_nonneg _ (by norm_num))
  have h3 : ((x % 2 ^ (4 * n)).toNat : Int) = x % 2 ^ (4 * n) :=
    Int.toNat_of_nonneg (Int.emod_nonneg _ (ne_of_gt ha))
  apply Int.ofNat_inj.1
  push_cast
  rw [h1, h2, h3, e, e16, hs, emod_mul_sixteen x _ ha]
  ring

theorem ConvertToHexString_loop_spec (x : Int) :
    ∀ n : Nat, n ≤ 16 →
      ∃ s, ConvertToHexString_loop x n ((n - 1) * 4) = some s ∧ s.length = n ∧
        (∀ c ∈ s, c ∈ hexDigits) ∧ hexValue s = some (x % 2 ^ (4 * n)).toNat := by
  intro n
  induction n with
  | zero =>
    intro _
    exact ⟨[], rfl, rfl, by simp, by simp [hexValue]⟩
  | succ n ih =>
    intro hn
    obtain ⟨rest, hr, hlen, hmem, hval⟩ := ih (by omega)
    have hj : ¬ 64 ≤ (n + 1 - 1) * 4 := by omega
    have hd : ((x >>> (n * 4)) % 16).toNat < 16 := by
      have := Int.emod_lt_of_pos (x >>> (n * 4)) (show (0 : Int) < 16 by norm_num)
      have := Int.emod_nonneg (x >>> (n * 4)) (show (16 : Int) ≠ 0 by norm_num)
      omega
    obtain ⟨hin, hdv⟩ := hexDigits_getD _ hd
    refine ⟨hexDigits.getD ((x >>> (n * 4)) % 16).toNat '0' :: rest, ?_, ?_, ?_, ?_⟩
    · rw [ConvertToHexString_loop, if_neg hj]
      rw [show (n + 1 - 1) * 4 - 4 = (n - 1) * 4 by omega, hr]
      simp
    · simp [hlen]
    · intro c hc
      rcases List.mem_cons.1 hc with rfl | hc
      · exact hin
      · exact hmem c hc
    · rw [hexValue, hdv, hval, hlen, toNat_emod_step]

theorem toSigned64_emod (x : Int) (h1 : -2 ^ 63 ≤ x) (h2 : x < 2 ^ 63) :
    toSigned64 (x % 2 ^ 64).toNat = x := by
  unfold toSigned64
  norm_num at h1 h2 ⊢
  split <;> omega

/-- C14 (amended): for a 64-bit integer `x` and a length `hex_len` of at most
16, `ConvertToHexString(x, hex_len)` returns a string of exactly `hex_len`
characters, each from 0-9A-F, whose value read as a base-16 numeral, most
significant digit first, is `x` modulo `2^(4*hex_len)`; for `hex_len = 16` that
is `x` modulo `2^64`, and the signed reading of it is `x` itself, so decoding
recovers the address. -/
theorem ConvertToHexString_encodes_low_bits (x : Int) (hex_len : Nat) (h : hex_len ≤ 16) :
    ∃ s, ConvertToHexString x hex_len = some s ∧ s.length = hex_len ∧
      (∀ c ∈ s, c ∈ hexDigits) ∧
      hexValue s = some (x % 2 ^ (4 * hex_len)).toNat ∧
      (hex_len = 16 → -2 ^ 63 ≤ x → x < 2 ^ 63 →
        (hexValue s).map toSigned64 = some x) := by
  obtain ⟨s, hs, hlen, hmem, hval⟩ := ConvertToHexString_loop_spec x hex_len h
  refine ⟨s, hs, hlen, hmem, hval, ?_⟩
  intro h16 h1 h2
  subst h16
  rw [hval]
  simp only [Option.map_some', Option.some.injEq]
  exact toSigned64_emod x h1 h2

/-- Witness of `ConvertToHexString_encodes_low_bits`: the address
0x7FFE12345678 written with 16 digits. -/
theorem ConvertToHexString_encodes_low_bits_witness :
    (16 : Nat) ≤ 16 ∧ ConvertToHexString 0x7FFE12345678 16 = some (W "00007FFE12345678") ∧
    ∃ s, ConvertToHexString 0x7FFE12345678 16 = some s ∧ s.length = 16 ∧
      (∀ c ∈ s, c ∈ hexDigits) ∧
      hexValue s = some ((0x7FFE12345678 : Int) % 2 ^ (4 * 16)).toNat ∧
      ((16 : Nat) = 16 → -2 ^ 63 ≤ (0x7FFE12345678 : Int) → (0x7FFE12345678 : Int) < 2 ^ 63 →
        (hexValue s).map toSigned64 = some 0x7FFE12345678) :=
  ⟨le_refl 16, by decide, ConvertToHexString_encodes_low_bits 0x7FFE12345678 16 (le_refl 16)⟩

/-- C14 (as stated) fails for a length above 16: with `hex_len = 17` the first
shift count is 64, which is undefined for a 64-bit operand, so the call has no
defined result. -/
theorem ConvertToHexString_seventeen_undefined :
    ConvertToHexString 1 17 = none := by
  decide

/-! ## The candidate directories of the constructor -/

theorem TryLoadCoreCLR_path (os : Win32) (d : WString) :
    (TryLoadCoreCLR os d).2 = d ++ coreCLRDll := by
  unfold TryLoadCoreCLR
  simp only []
  split
  · rfl
  · split <;> rfl

/-- The loader in the words of the spec tries a leading part of the list, in
order; it ends without a module only after every directory failed, and with a
module only at the first directory that loads. -/
theorem loadFirst_spec (os : Win32) :
    ∀ ds : List WString, ∃ n, n ≤ ds.length ∧
      (loadFirst os ds).1 = (ds.take n).map (fun d => d ++ coreCLRDll) ∧
      ((loadFirst os ds).2 = none →
        n = ds.length ∧ ∀ d ∈ ds, (TryLoadCoreCLR os d).1 = none) ∧
      (∀ m, (loadFirst os ds).2 = some m →
        ∃ pre d, ds.take n = pre ++ [d] ∧ (TryLoadCoreCLR os d).1 = some m ∧
          ∀ p ∈ pre, (TryLoadCoreCLR os p).1 = none) := by
  intro ds
  induction ds with
  | nil => exact ⟨0, le_refl _, rfl, fun _ => ⟨rfl, by simp⟩, fun m h => by simp [loadFirst] at h⟩
  | cons d ds ih =>
    obtain ⟨n, hn, hatt, hnone, hsome⟩ := ih
    cases hd : (TryLoadCoreCLR os d).1 with
    | some m =>
      refine ⟨1, by simp, ?_, ?_, ?_⟩
      · simp [loadFirst, hd, TryLoadCoreCLR_path]
      · intro h
        simp [loadFirst, hd] at h
      · intro m' h
        simp [loadFirst, hd] at h
        exact ⟨[], d, by simp, by rw [hd, h], by simp⟩
    | none =>
      refine ⟨n + 1, by simp [hn], ?_, ?_, ?_⟩
      · simp [loadFirst, hd, TryLoadCoreCLR_path, hatt]
      · intro h
        simp [loadFirst, hd] at h
        obtain ⟨h1, h2⟩ := hnone h
        refine ⟨by simp [h1], ?_⟩
        intro x hx
        rcases List.mem_cons.1 hx with rfl | hx
        · exact hd
        · exact h2 x hx
      · intro m h
        simp [loadFirst, hd] at h
        obtain ⟨pre, x, h1, h2, h3⟩ := hsome m h
        refine ⟨d :: pre, x, by simp [h1], h2, ?_⟩
        intro p hp
        rcases List.mem_cons.1 hp with rfl | hp
        · exact hd
        · exact h3 p hp

/-- The constructor and the loader in the words of the spec try the same
paths and keep the same module. -/
theorem HostEnvironment_ctor_eq_loadFirst (os : Win32) (coreRootPath : Option WString)
    (env : HostEnvironment) (h : HostEnvironment.ctor os coreRootPath = some env) :
    (env.attempted, env.m_coreCLRModule) =
      loadFirst os (candidateDirectories os coreRootPath env.m_hostDirectoryPath) := by
  unfold HostEnvironment.ctor at h
  simp only [] at h
  generalize GetModuleFileNameWrapper os none [] = hostPath at h
  generalize List.take (match wcsrchr hostPath '\\' with
    | some k => k + 1
    | none => 0) hostPath = hostDir at h
  generalize hI : os.ExpandEnvironmentStringsW coreCLRInstallDirectory = install at h
  rcases coreRootPath with _ | root
  · cases h1 : (TryLoadCoreCLR os hostDir).1 <;>
      cases h2 : (TryLoadCoreCLR os install).1 <;>
      simp only [h1, h2, if_true, if_false, reduceCtorEq] at h
    all_goals first
      | (simp only [Option.some.injEq] at h
         subst h
         simp [loadFirst, candidateDirectories, hI, h1, h2])
      | (split at h
         · exact absurd h (by simp)
         · simp only [Option.some.injEq] at h
           subst h
           simp [loadFirst, candidateDirectories, hI, h1, h2])
  · cases h0 : (TryLoadCoreCLR os (root ++ W "\\")).1 <;>
      cases h1 : (TryLoadCoreCLR os hostDir).1 <;>
      cases h2 : (TryLoadCoreCLR os install).1 <;>
      simp only [h0, h1, h2, if_true, if_false, reduceCtorEq] at h
    all_goals first
      | (simp only [Option.some.injEq] at h
         subst h
         simp [loadFirst, candidateDirectories, hI, h0, h1, h2])
      | (split at h
         · exact absurd h (by simp)
         · simp only [Option.some.injEq] at h
           subst h
           simp [loadFirst, candidateDirectories, hI, h0, h1, h2])

/-- The constructor completes whenever the system reports the path of a loaded
module with a backslash in it, as it does for a full path. -/
theorem HostEnvironment_ctor_returns (os : Win32) (coreRootPath : Option WString)
    (hpath : ∀ m, wcsrchr (GetModuleFileNameWrapper os (some m) []) '\\' ≠ none) :
    ∃ env, HostEnvironment.ctor os coreRootPath = some env := by
  unfold HostEnvironment.ctor
  simp only []
  split
  · rename_i m _
    split
    · rename_i hnone
      exact absurd hnone (hpath m)
    · exact ⟨_, rfl⟩
  · exact ⟨_, rfl⟩

/-- C15: the constructor tries a leading part of the candidate directories
(the override directory only when one is given, then the directory of the host,
then the system default directory), in that order; it ends without a module
exactly when every candidate it tried failed, and then it tried them all; when
it ends with a module, that module is the one `TryLoadCoreCLR` returned for the
last directory tried, every directory tried before failed, and no later
directory is tried. This is the loader of the spec, `loadFirst`. -/
theorem HostEnvironment_ctor_first_successful_candidate (os : Win32)
    (coreRootPath : Option WString) (env : HostEnvironment)
    (h : HostEnvironment.ctor os coreRootPath = some env) :
    ∃ n, n ≤ (candidateDirectories os coreRootPath env.m_hostDirectoryPath).length ∧
      env.attempted =
        ((candidateDirectories os coreRootPath env.m_hostDirectoryPath).take n).map
          (fun d => d ++ coreCLRDll) ∧
      (env.m_coreCLRModule = none ↔
        ∀ d ∈ (candidateDirectories os coreRootPath env.m_hostDirectoryPath).take n,
          (TryLoadCoreCLR os d).1 = none) ∧
      (env.m_coreCLRModule = none →
        n = (candidateDirectories os coreRootPath env.m_hostDirectoryPath).length) ∧
      (∀ m, env.m_coreCLRModule = some m →
        ∃ pre d, (candidateDirectories os coreRootPath env.m_hostDirectoryPath).take n =
            pre ++ [d] ∧
          (TryLoadCoreCLR os d).1 = some m ∧ ∀ p ∈ pre, (TryLoadCoreCLR os p).1 = none) ∧
      (env.attempted, env.m_coreCLRModule) =
        loadFirst os (candidateDirectories os coreRootPath env.m_hostDirectoryPath) := by
  have heq := HostEnvironment_ctor_eq_loadFirst os coreRootPath env h
  obtain ⟨n, hn, hatt, hnone, hsome⟩ :=
    loadFirst_spec os (candidateDirectories os coreRootPath env.m_hostDirectoryPath)
  rw [← heq] at hatt hnone hsome
  simp only [] at hatt hnone hsome
  refine ⟨n, hn, hatt, ⟨?_, ?_⟩, fun h0 => (hnone h0).1, hsome, heq⟩
  · intro h0 d hd
    exact (hnone h0).2 d (List.mem_of_mem_take hd)
  · intro hall
    cases hm : env.m_coreCLRModule with
    | none => rfl
    | some m =>
      obtain ⟨pre, d, h1, h2, _⟩ := hsome m hm
      have := hall d (by rw [h1]; simp)
      rw [h2] at this
      exact absurd this (by simp)

/-- Witness of `HostEnvironment_ctor_first_successful_candidate`: with the
override directory `C:\x` on a system whose engine lies beside the host, the
override is tried first and fails, the directory of the host is tried second
and its module is kept, and the system default directory is not tried. -/
theorem HostEnvironment_ctor_first_successful_candidate_witness :
    HostEnvironment.ctor osEngineBesideHost (some (W "C:\\x")) = some envEngineBesideHost ∧
    candidateDirectories osEngineBesideHost (some (W "C:\\x"))
        envEngineBesideHost.m_hostDirectoryPath =
      [W "C:\\x\\", W "C:\\h\\", W "C:\\Windows\\system32\\"] ∧
    envEngineBesideHost.attempted = [W "C:\\x\\CoreCLR.dll", W "C:\\h\\CoreCLR.dll"] ∧
    ∃ n, n ≤ (candidateDirectories osEngineBesideHost (some (W "C:\\x"))
          envEngineBesideHost.m_hostDirectoryPath).length ∧
      envEngineBesideHost.attempted =
        ((candidateDirectories osEngineBesideHost (some (W "C:\\x"))
          envEngineBesideHost.m_hostDirectoryPath).take n).map (fun d => d ++ coreCLRDll) ∧
      (envEngineBesideHost.m_coreCLRModule = none ↔
        ∀ d ∈ (candidateDirectories osEngineBesideHost (some (W "C:\\x"))
            envEngineBesideHost.m_hostDirectoryPath).take n,
          (TryLoadCoreCLR osEngineBesideHost d).1 = none) ∧
      (envEngineBesideHost.m_coreCLRModule = none →
        n = (candidateDirectories osEngineBesideHost (some (W "C:\\x"))
          envEngineBesideHost.m_hostDirectoryPath).length) ∧
      (∀ m, envEngineBesideHost.m_coreCLRModule = some m →
        ∃ pre d, (candidateDirectories osEngineBesideHost (some (W "C:\\x"))
            envEngineBesideHost.m_hostDirectoryPath).take n = pre ++ [d] ∧
          (TryLoadCoreCLR osEngineBesideHost d).1 = some m ∧
          ∀ p ∈ pre, (TryLoadCoreCLR osEngineBesideHost p).1 = none) ∧
      (envEngineBesideHost.attempted, envEngineBesideHost.m_coreCLRModule) =
        loadFirst osEngineBesideHost (candidateDirectories osEngineBesideHost (some (W "C:\\x"))
          envEngineBesideHost.m_hostDirectoryPath) :=
  ⟨by decide, by decide, rfl,
    HostEnvironment_ctor_first_successful_candidate osEngineBesideHost (some (W "C:\\x"))
      envEngineBesideHost (by decide)⟩

/-! ## The coreload library: the path of the host -/

namespace coreload

theorem get_host_path_fallback (pal : Pal) (S : StatusCode) :
    get_host_path pal S 0 [] [] =
      some (if !pal.get_own_executable_path.1 then
          ⟨S.LibHostCurExeFindFailure, pal.get_own_executable_path.2, [], true⟩
        else if !(pal.realpath pal.get_own_executable_path.2).1 then
          ⟨S.LibHostCurExeFindFailure, (pal.realpath pal.get_own_executable_path.2).2,
            [pal.get_own_executable_path.2], true⟩
        else
          ⟨0, (pal.realpath pal.get_own_executable_path.2).2,
            [pal.get_own_executable_path.2], true⟩) := by
  simp only [get_host_path]
  cases pal.get_own_executable_path.1 <;> cases (pal.realpath pal.get_own_executable_path.2).1 <;>
    simp

theorem get_host_path_from_argv0 (pal : Pal) (S : StatusCode) (argc : Int)
    (argv : List WString) (host_path argv0 : WString) (hargc : argc ≥ 1)
    (hhead : argv.head? = some argv0) (hne : argv0 ≠ [])
    (hsep : pal.DIR_SEPARATOR ∈ argv0) (hr : (pal.realpath argv0).1 = true)
    (hreal : (pal.realpath argv0).2 ≠ []) :
    get_host_path pal S argc argv host_path =
      some ⟨0, (pal.realpath argv0).2, [argv0], false⟩ := by
  simp [get_host_path, get_path_from_argv, hargc, hhead, hne, hsep, hr, hreal]

theorem get_host_path_without_separator (pal : Pal) (S : StatusCode) (argc : Int)
    (argv : List WString) (host_path argv0 : WString) (hargc : argc ≥ 1)
    (hhead : argv.head? = some argv0) (hsep : pal.DIR_SEPARATOR ∉ argv0) :
    get_host_path pal S argc argv host_path = get_host_path pal S 0 [] [] := by
  by_cases hne : argv0 = []
  · simp [get_host_path, get_path_from_argv, hargc, hhead, hne]
  · simp [get_host_path, get_path_from_argv, hargc, hhead, hne, hsep]

theorem get_host_path_not_canonical (pal : Pal) (S : StatusCode) (argc : Int)
    (argv : List WString) (host_path argv0 : WString) (hargc : argc ≥ 1)
    (hhead : argv.head? = some argv0) (hne : argv0 ≠ [])
    (hsep : pal.DIR_SEPARATOR ∈ argv0) (hr : (pal.realpath argv0).1 = false) :
    get_host_path pal S argc argv host_path =
      (get_host_path pal S 0 [] []).map
        (fun r => { r with canonicalized := argv0 :: r.canonicalized }) := by
  simp only [get_host_path_fallback]
  simp only [get_host_path]
  cases pal.get_own_executable_path.1 <;> cases (pal.realpath pal.get_own_executable_path.2).1 <;>
    simp [get_path_from_argv, hargc, hhead, hne, hsep, hr]

theorem get_host_path_no_arguments (pal : Pal) (S : StatusCode) (argc : Int)
    (argv : List WString) (hargc : ¬ argc ≥ 1) :
    get_host_path pal S argc argv [] = get_host_path pal S 0 [] [] := by
  simp [get_host_path, hargc]

/-- The fallback of `get_host_path`: what a call without arguments and with an
empty string leaves behind. -/
theorem get_host_path_fallback_spec (pal : Pal) (S : StatusCode)
    (hS : S.LibHostCurExeFindFailure ≠ 0) :
    ∃ r0, get_host_path pal S 0 [] [] = some r0 ∧ r0.askedExecutable = true ∧
      (r0.status = 0 → r0.host_path = (pal.realpath pal.get_own_executable_path.2).2 ∧
        r0.canonicalized = [pal.get_own_executable_path.2]) ∧
      (r0.status = S.LibHostCurExeFindFailure ↔
        (pal.get_own_executable_path.1 = false ∨
          (pal.realpath pal.get_own_executable_path.2).1 = false)) ∧
      (r0.status = 0 ∨ r0.status = S.LibHostCurExeFindFailure) := by
  rw [get_host_path_fallback]
  have hS2 : (0 : Int) ≠ S.LibHostCurExeFindFailure := fun h => hS h.symm
  cases pal.get_own_executable_path.1 <;> cases (pal.realpath pal.get_own_executable_path.2).1 <;>
    simp [hS, hS2]

theorem not_usesArgv0_of_head (pal : Pal) (argc : Int) (argv : List WString) (argv0 : WString)
    (hhead : argv.head? = some argv0)
    (h : argv0 = [] ∨ pal.DIR_SEPARATOR ∉ argv0 ∨ (pal.realpath argv0).1 = false) :
    ¬ usesArgv0 pal argc argv := by
  rintro ⟨_, a, ha, hne, hsep, hr⟩
  rw [hhead] at ha
  cases ha
  rcases h with h | h | h
  · exact hne h
  · exact h hsep
  · rw [hr] at h
    exact absurd h (by simp)

/-- The cases of `get_host_path` when `host_path` is empty on entry or there is
a first argument: `argv[0]` is used exactly under the condition `usesArgv0`, an
`argv[0]` without a separator changes nothing, and otherwise the running
executable is asked for. -/
theorem get_host_path_entry_cases (pal : Pal) (S : StatusCode) (argc : Int)
    (argv : List WString) (host_path : WString)
    (hargv : argc ≥ 1 → argv ≠ [])
    (hentry : argc ≥ 1 ∨ host_path = [])
    (hreal : ∀ p, (pal.realpath p).1 = true → (pal.realpath p).2 ≠ [])
    (hS : S.LibHostCurExeFindFailure ≠ 0) :
    ∃ r, get_host_path pal S argc argv host_path = some r ∧
      ((r.status = 0 ∧ r.askedExecutable = false ∧
          ∃ argv0, argv.head? = some argv0 ∧ r.host_path = (pal.realpath argv0).2 ∧
            r.canonicalized = [argv0]) ↔ usesArgv0 pal argc argv) ∧
      (∀ argv0, argv.head? = some argv0 → pal.DIR_SEPARATOR ∉ argv0 →
        get_host_path pal S argc argv host_path = get_host_path pal S 0 [] []) ∧
      (¬ usesArgv0 pal argc argv → r.askedExecutable = true ∧
        (r.status = 0 →
          r.host_path = (pal.realpath pal.get_own_executable_path.2).2 ∧
          r.canonicalized.getLast? = some pal.get_own_executable_path.2)) ∧
      (r.status = S.LibHostCurExeFindFailure ↔
        ¬ usesArgv0 pal argc argv ∧
          (pal.get_own_executable_path.1 = false ∨
            (pal.realpath pal.get_own_executable_path.2).1 = false)) ∧
      (r.status = 0 ∨ r.status = S.LibHostCurExeFindFailure) := by
  obtain ⟨r0, hr0, hasked, hzero, hfail, hstatus⟩ := get_host_path_fallback_spec pal S hS
  by_cases hargc : argc ≥ 1
  · obtain ⟨argv0, rest, rfl⟩ := List.exists_cons_of_ne_nil (hargv hargc)
    have hhead : (argv0 :: rest).head? = some argv0 := rfl
    by_cases hsep : pal.DIR_SEPARATOR ∈ argv0
    · have hne : argv0 ≠ [] := by
        rintro rfl
        simp at hsep
      cases hr : (pal.realpath argv0).1 with
      | true =>
        have huses : usesArgv0 pal argc (argv0 :: rest) :=
          ⟨hargc, argv0, hhead, hne, hsep, hr⟩
        refine ⟨_, get_host_path_from_argv0 pal S argc _ host_path argv0 hargc hhead hne hsep hr
          (hreal argv0 hr), ?_, ?_, ?_, ?_, ?_⟩
        · exact ⟨fun _ => huses, fun _ => ⟨rfl, rfl, argv0, hhead, rfl, rfl⟩⟩
        · intro a ha hns
          cases ha
          exact absurd hsep hns
        · intro hn
          exact absurd huses hn
        · simp [huses, hS.symm]
        · exact Or.inl rfl
      | false =>
        have hnot := not_usesArgv0_of_head pal argc (argv0 :: rest) argv0 hhead
          (Or.inr (Or.inr hr))
        refine ⟨{ r0 with canonicalized := argv0 :: r0.canonicalized }, ?_, ?_, ?_, ?_, ?_, ?_⟩
        · rw [get_host_path_not_canonical pal S argc _ host_path argv0 hargc hhead hne hsep hr,
            hr0]
          rfl
        · simp [hnot, hasked]
        · intro a ha hns
          cases ha
          exact absurd hsep hns
        · intro _
          refine ⟨hasked, fun h0 => ⟨(hzero h0).1, ?_⟩⟩
          simp [(hzero h0).2]
        · simpa [hnot] using hfail
        · exact hstatus
    · have hnot := not_usesArgv0_of_head pal argc (argv0 :: rest) argv0 hhead
        (Or.inr (Or.inl hsep))
      refine ⟨r0, ?_, ?_, ?_, ?_, ?_, ?_⟩
      · rw [get_host_path_without_separator pal S argc _ host_path argv0 hargc hhead hsep, hr0]
      · simp [hnot, hasked]
      · intro a ha hns
        exact get_host_path_without_separator pal S argc _ host_path a hargc ha hns
      · intro _
        refine ⟨hasked, fun h0 => ⟨(hzero h0).1, ?_⟩⟩
        simp [(hzero h0).2]
      · simpa [hnot] using hfail
      · exact hstatus
  · have hempty : host_path = [] := hentry.resolve_left hargc
    subst hempty
    have hnot : ¬ usesArgv0 pal argc argv := fun h => hargc h.1
    have heq := get_host_path_no_arguments pal S argc argv hargc
    refine ⟨r0, ?_, ?_, ?_, ?_, ?_, ?_⟩
    · rw [heq, hr0]
    · simp [hnot, hasked]
    · intro _ _ _
      exact heq
    · intro _
      refine ⟨hasked, fun h0 => ⟨(hzero h0).1, ?_⟩⟩
      simp [(hzero h0).2]
    · simpa [hnot] using hfail
    · exact hstatus

/-- Without a first argument a string that is not empty on entry is kept: the
function returns 0, canonicalizes nothing and does not ask for the running
executable. -/
theorem get_host_path_keeps_host_path (pal : Pal) (S : StatusCode) (argc : Int)
    (argv : List WString) (host_path : WString) (hargc : ¬ argc ≥ 1) (hne : host_path ≠ []) :
    get_host_path pal S argc argv host_path = some ⟨0, host_path, [], false⟩ := by
  simp [get_host_path, hargc, hne]

/-- C16 (amended), on a platform where a successful `pal::realpath` leaves a
path that is not empty: if `argc < 1` and `host_path` is not empty on entry,
`get_host_path` keeps the string as it is and returns 0, without
canonicalizing anything or asking for the running executable; if `host_path`
is empty on entry or
`argc >= 1`, it returns 0 with `host_path` the canonicalized `argv[0]`, without
asking for the running executable, exactly when `argc >= 1` and `argv[0]` is
not empty, contains a directory separator and canonicalizes successfully; with
an `argv[0]` that has no separator the call does what a call without arguments
does, so that `argv[0]` is neither canonicalized nor used; in every other case
the running executable is asked for, a status 0 comes with `host_path` its
canonicalized path, and `LibHostCurExeFindFailure` is returned exactly when the
fallback is needed and obtaining or canonicalizing that path fails. -/
theorem get_host_path_prefers_argv0 (pal : Pal) (S : StatusCode) (argc : Int)
    (argv : List WString) (host_path : WString)
    (hargv : argc ≥ 1 → argv ≠ [])
    (hreal : ∀ p, (pal.realpath p).1 = true → (pal.realpath p).2 ≠ [])
    (hS : S.LibHostCurExeFindFailure ≠ 0) :
    (¬ argc ≥ 1 → host_path ≠ [] →
      get_host_path pal S argc argv host_path = some ⟨0, host_path, [], false⟩) ∧
    ((argc ≥ 1 ∨ host_path = []) →
      ∃ r, get_host_path pal S argc argv host_path = some r ∧
        ((r.status = 0 ∧ r.askedExecutable = false ∧
            ∃ argv0, argv.head? = some argv0 ∧ r.host_path = (pal.realpath argv0).2 ∧
              r.canonicalized = [argv0]) ↔ usesArgv0 pal argc argv) ∧
        (∀ argv0, argv.head? = some argv0 → pal.DIR_SEPARATOR ∉ argv0 →
          get_host_path pal S argc argv host_path = get_host_path pal S 0 [] []) ∧
        (¬ usesArgv0 pal argc argv → r.askedExecutable = true ∧
          (r.status = 0 →
            r.host_path = (pal.realpath pal.get_own_executable_path.2).2 ∧
            r.canonicalized.getLast? = some pal.get_own_executable_path.2)) ∧
        (r.status = S.LibHostCurExeFindFailure ↔
          ¬ usesArgv0 pal argc argv ∧
            (pal.get_own_executable_path.1 = false ∨
              (pal.realpath pal.get_own_executable_path.2).1 = false)) ∧
        (r.status = 0 ∨ r.status = S.LibHostCurExeFindFailure)) :=
  ⟨fun hargc hne => get_host_path_keeps_host_path pal S argc argv host_path hargc hne,
    fun hentry => get_host_path_entry_cases pal S argc argv host_path hargv hentry hreal hS⟩

end coreload

/-! ## The coreload library: `parse` -/

namespace coreload

theorem pop_back_while_of_getLast (sep : Char) (s : WString) (h : s.getLast? ≠ some sep) :
    pop_back_while sep s = s := by
  unfold pop_back_while
  rw [← List.head?_reverse] at h
  cases hrev : s.reverse with
  | nil =>
    simp only [List.reverse_eq_nil_iff] at hrev
    simp [hrev]
  | cons x xs =>
    rw [hrev] at h
    have hx : ¬ x = sep := fun e => h (by simp [e])
    rw [List.dropWhile_cons_of_neg (by simpa using hx), ← hrev, List.reverse_reverse]

theorem pop_back_while_append_sep (sep : Char) (s : WString) :
    pop_back_while sep (s ++ [sep]) = pop_back_while sep s := by
  simp [pop_back_while, List.dropWhile]

theorem getLast?_ne_of_not_mem (s : WString) (c : Char) (h : c ∉ s) : s.getLast? ≠ some c :=
  fun e => h (List.mem_of_getLast?_eq_some e)

theorem getLast?_append_cons_ne (D T : WString) (sep : Char) (hT : sep ∉ T) (hTne : T ≠ []) :
    (D ++ sep :: T).getLast? ≠ some sep := by
  obtain ⟨t, ts, rfl⟩ := List.exists_cons_of_ne_nil hTne
  intro e
  have : (t :: ts).getLast? = some sep := by
    rw [← e, show D ++ sep :: t :: ts = (D ++ [sep]) ++ t :: ts by simp,
      List.getLast?_append_cons]
  exact getLast?_ne_of_not_mem _ _ hT this

theorem get_directory_of_file (pal : Pal) (D T : WString)
    (hDlast : D.getLast? ≠ some pal.DIR_SEPARATOR) (hT : pal.DIR_SEPARATOR ∉ T)
    (hTne : T ≠ []) :
    get_directory pal (D ++ pal.DIR_SEPARATOR :: T) = D ++ [pal.DIR_SEPARATOR] := by
  unfold get_directory
  simp only []
  rw [pop_back_while_of_getLast _ _ (getLast?_append_cons_ne D T _ hT hTne),
    wcsrchr_append D T _ hT]
  simp only []
  rw [show D ++ pal.DIR_SEPARATOR :: T = (D ++ [pal.DIR_SEPARATOR]) ++ T by simp,
    show D.length + 1 = (D ++ [pal.DIR_SEPARATOR]).length by simp, List.take_left,
    pop_back_while_append_sep, pop_back_while_of_getLast _ _ hDlast]

theorem strip_executable_ext_suffix (pal : Pal) (P : WString)
    (hcmp : pal.strcasecmp pal.exe_suffix pal.exe_suffix = 0) :
    strip_executable_ext pal (P ++ pal.exe_suffix) = P := by
  unfold strip_executable_ext
  simp only []
  by_cases hemp : pal.exe_suffix = []
  · simp [hemp]
  · have hdrop : List.drop ((P ++ pal.exe_suffix).length - pal.exe_suffix.length)
        (P ++ pal.exe_suffix) = pal.exe_suffix := by
      rw [List.length_append, Nat.add_sub_cancel, List.drop_left]
    have htake : List.take ((P ++ pal.exe_suffix).length - pal.exe_suffix.length)
        (P ++ pal.exe_suffix) = P := by
      rw [List.length_append, Nat.add_sub_cancel, List.take_left]
    have hends : ends_with pal (P ++ pal.exe_suffix) pal.exe_suffix false = true := by
      unfold ends_with
      simp only [hdrop]
      simp [hcmp]
    simp [hemp, hends, htake]

theorem get_filename_of_file (pal : Pal) (D N : WString) (hN : pal.DIR_SEPARATOR ∉ N) :
    get_filename pal (D ++ pal.DIR_SEPARATOR :: N) = N := by
  unfold get_filename
  rw [wcsrchr_append D N _ hN]
  simp

theorem append_path_directory (pal : Pal) (D N : WString)
    (hrooted : pal.is_path_rooted N = false) :
    append_path pal (D ++ [pal.DIR_SEPARATOR]) N = D ++ [pal.DIR_SEPARATOR] ++ N := by
  unfold append_path
  simp [hrooted]

/-- C18: when the resolved host path is `D + separator + N + exe_suffix`, where
`D` does not end in a separator and `N` is not empty and contains no separator,
on a platform whose executable suffix contains no separator and compares equal
to itself and on which `N` alone is not a rooted path, `parse` returns, sets
`dotnet_root` to `D + separator` and `app_path` to `D + separator + N + ".dll"`,
and `is_valid()` holds afterwards. -/
theorem parse_splits_host_path (pal : Pal) (S : StatusCode) (info : host_startup_info_t)
    (argc : Int) (argv : List WString) (r : HostPathResult) (D N : WString)
    (hres : get_host_path pal S argc argv info.host_path = some r)
    (hform : r.host_path = D ++ [pal.DIR_SEPARATOR] ++ N ++ pal.exe_suffix)
    (hDlast : D.getLast? ≠ some pal.DIR_SEPARATOR)
    (hN : N ≠ []) (hNsep : pal.DIR_SEPARATOR ∉ N)
    (hsuffix : pal.DIR_SEPARATOR ∉ pal.exe_suffix)
    (hcmp : pal.strcasecmp pal.exe_suffix pal.exe_suffix = 0)
    (hrooted : pal.is_path_rooted N = false) :
    host_startup_info_t.parse pal S info argc argv =
        some (0, { host_path := D ++ [pal.DIR_SEPARATOR] ++ N ++ pal.exe_suffix,
                   dotnet_root := D ++ [pal.DIR_SEPARATOR],
                   app_path := D ++ [pal.DIR_SEPARATOR] ++ N ++ W ".dll" }) ∧
      host_startup_info_t.is_valid
        { host_path := D ++ [pal.DIR_SEPARATOR] ++ N ++ pal.exe_suffix,
          dotnet_root := D ++ [pal.DIR_SEPARATOR],
          app_path := D ++ [pal.DIR_SEPARATOR] ++ N ++ W ".dll" } = true := by
  have hT : pal.DIR_SEPARATOR ∉ N ++ pal.exe_suffix := by
    simp [hNsep, hsuffix]
  have hTne : N ++ pal.exe_suffix ≠ [] := by
    simp [hN]
  have h1 : r.host_path = D ++ pal.DIR_SEPARATOR :: (N ++ pal.exe_suffix) := by
    rw [hform]; simp
  have h2 : r.host_path = (D ++ pal.DIR_SEPARATOR :: N) ++ pal.exe_suffix := by
    rw [hform]; simp
  have hdir := get_directory_of_file pal D (N ++ pal.exe_suffix) hDlast hT hTne
  have hstrip := strip_executable_ext_suffix pal (D ++ pal.DIR_SEPARATOR :: N) hcmp
  have hname := get_filename_of_file pal D N hNsep
  have happ := append_path_directory pal D N hrooted
  constructor
  · simp only [host_startup_info_t.parse, hres]
    rw [h1, hdir, ← h1, h2, hstrip, hname, happ, ← h2, hform]
  · simp [host_startup_info_t.is_valid, W]

end coreload

namespace coreload

theorem palWindows_realpath_ne_nil :
    ∀ p, (palWindows.realpath p).1 = true → (palWindows.realpath p).2 ≠ [] := by
  intro p hp
  simp only [palWindows, decide_eq_true_eq] at hp
  rcases hp with rfl | rfl <;> simp [palWindows, W]

/-- Witness of `get_host_path_prefers_argv0`: on `palWindows`, without
arguments the incoming string `stale` is kept; with the first argument
`C:\tools\apphost.exe`, which has a separator and canonicalizes, and an empty
string on entry, the argument is used and the running executable is not asked
for. -/
theorem get_host_path_prefers_argv0_witness :
    get_host_path palWindows statusCodes 0 [] (W "stale") =
      some ⟨0, W "stale", [], false⟩ ∧
    get_host_path palWindows statusCodes 1 [W "C:\\tools\\apphost.exe"] [] =
      some ⟨0, W "C:\\tools\\apphost.exe", [W "C:\\tools\\apphost.exe"], false⟩ ∧
    ∃ r, get_host_path palWindows statusCodes 1 [W "C:\\tools\\apphost.exe"] [] = some r ∧
      ((r.status = 0 ∧ r.askedExecutable = false ∧
          ∃ argv0, [W "C:\\tools\\apphost.exe"].head? = some argv0 ∧
            r.host_path = (palWindows.realpath argv0).2 ∧ r.canonicalized = [argv0]) ↔
        usesArgv0 palWindows 1 [W "C:\\tools\\apphost.exe"]) ∧
      (∀ argv0, [W "C:\\tools\\apphost.exe"].head? = some argv0 →
        palWindows.DIR_SEPARATOR ∉ argv0 →
        get_host_path palWindows statusCodes 1 [W "C:\\tools\\apphost.exe"] [] =
          get_host_path palWindows statusCodes 0 [] []) ∧
      (¬ usesArgv0 palWindows 1 [W "C:\\tools\\apphost.exe"] → r.askedExecutable = true ∧
        (r.status = 0 →
          r.host_path = (palWindows.realpath palWindows.get_own_executable_path.2).2 ∧
          r.canonicalized.getLast? = some palWindows.get_own_executable_path.2)) ∧
      (r.status = statusCodes.LibHostCurExeFindFailure ↔
        ¬ usesArgv0 palWindows 1 [W "C:\\tools\\apphost.exe"] ∧
          (palWindows.get_own_executable_path.1 = false ∨
            (palWindows.realpath palWindows.get_own_executable_path.2).1 = false)) ∧
      (r.status = 0 ∨ r.status = statusCodes.LibHostCurExeFindFailure) :=
  ⟨(get_host_path_prefers_argv0 palWindows statusCodes 0 [] (W "stale")
      (fun h => absurd h (by decide)) palWindows_realpath_ne_nil (by decide)).1
      (by decide) (by decide),
    by decide,
    (get_host_path_prefers_argv0 palWindows statusCodes 1 [W "C:\\tools\\apphost.exe"] []
      (fun _ => by simp) palWindows_realpath_ne_nil (by decide)).2 (Or.inl (by decide))⟩

/-- C16 (as stated) fails when there is no argument and `host_path` is not
empty on entry: the string is kept and 0 is returned, although the condition
for using `argv[0]` does not hold; the running executable is not asked for and
nothing is canonicalized. -/
theorem get_host_path_keeps_incoming_path :
    ¬ usesArgv0 palWindows 0 [] ∧
    get_host_path palWindows statusCodes 0 [] (W "stale") =
      some ⟨0, W "stale", [], false⟩ ∧
    palWindows.get_own_executable_path = (true, W "C:\\run\\corehost.exe") :=
  ⟨fun h => absurd h.1 (by decide), by decide, rfl⟩

/-- The status that `parse` returns is 0 whatever `get_host_path` returned, and
`dotnet_root` and `app_path` are computed from whatever `get_host_path` left in
`host_path`. -/
theorem parse_discards_status (pal : Pal) (S : StatusCode) (info : host_startup_info_t)
    (argc : Int) (argv : List WString) (r : HostPathResult)
    (h : get_host_path pal S argc argv info.host_path = some r) :
    host_startup_info_t.parse pal S info argc argv =
      some (0, { host_path := r.host_path,
                 dotnet_root := get_directory pal r.host_path,
                 app_path := append_path pal (get_directory pal r.host_path)
                   (get_filename pal (strip_executable_ext pal r.host_path)) ++ W ".dll" }) := by
  simp only [host_startup_info_t.parse, h]

/-- C17 fails: with the first argument `host`, which has no separator, on a
platform where the path of the running executable cannot be obtained,
`get_host_path` returns `LibHostCurExeFindFailure` and leaves `host_path`
empty, yet `parse` returns 0 and goes on to set `dotnet_root` to the separator
and `app_path` to the separator followed by `.dll`. -/
theorem parse_succeeds_without_host_path :
    get_host_path palNoExecutable statusCodes 1 [W "host"] [] =
      some ⟨statusCodes.LibHostCurExeFindFailure, [], [], true⟩ ∧
    statusCodes.LibHostCurExeFindFailure ≠ 0 ∧
    host_startup_info_t.parse palNoExecutable statusCodes ⟨[], [], []⟩ 1 [W "host"] =
      some (0, { host_path := [], dotnet_root := W "\\", app_path := W "\\.dll" }) := by
  decide

/-- Witness of `parse_splits_host_path`: the host path `C:\tools\apphost.exe`
on `palWindows`, with `D` = `C:\tools` and `N` = `apphost`. -/
theorem parse_splits_host_path_witness :
    get_host_path palWindows statusCodes 1 [W "C:\\tools\\apphost.exe"] [] =
      some ⟨0, W "C:\\tools\\apphost.exe", [W "C:\\tools\\apphost.exe"], false⟩ ∧
    host_startup_info_t.parse palWindows statusCodes ⟨[], [], []⟩ 1
        [W "C:\\tools\\apphost.exe"] =
      some (0, { host_path := W "C:\\tools\\apphost.exe",
                 dotnet_root := W "C:\\tools\\",
                 app_path := W "C:\\tools\\apphost.dll" }) ∧
    host_startup_info_t.is_valid
      { host_path := W "C:\\tools\\apphost.exe",
        dotnet_root := W "C:\\tools\\",
        app_path := W "C:\\tools\\apphost.dll" } = true :=
  ⟨by decide,
    parse_splits_host_path palWindows statusCodes ⟨[], [], []⟩ 1 [W "C:\\tools\\apphost.exe"]
      ⟨0, W "C:\\tools\\apphost.exe", [W "C:\\tools\\apphost.exe"], false⟩
      (W "C:\\tools") (W "apphost") (by decide) (by decide) (by decide) (by decide)
      (by decide) (by decide) (by decide) (by decide)⟩

/-- C19 (amended): when `CreateAssemblyDelegate` returns a failure code, whatever
the code, `ExecuteAssemblyClassFunction` of the coreload library returns
`StatusCode::InvalidArgFailure` and invokes no delegate. -/
theorem coreload_execute_failure_is_InvalidArgFailure (S : StatusCode)
    (create_delegate : WString → WString → WString → Int × Option Nat) (pid : Nat)
    (assembly type entry : WString) (arguments : Option CoreHook.RemoteFunctionArgs)
    (h : SUCCEEDED (CreateAssemblyDelegate create_delegate assembly type entry).1 = false) :
    ExecuteAssemblyClassFunction S create_delegate pid assembly type entry arguments =
      some ⟨S.InvalidArgFailure, []⟩ := by
  simp only [ExecuteAssemblyClassFunction, h]
  rfl

/-- Witness of `coreload_execute_failure_is_InvalidArgFailure`: the delegate
cannot be created and the code is `HostApiFailed`. -/
theorem coreload_execute_failure_is_InvalidArgFailure_witness :
    SUCCEEDED (CreateAssemblyDelegate (fun _ _ _ => (statusCodes.HostApiFailed, none))
      (W "app") (W "Program") (W "Main")).1 = false ∧
    ExecuteAssemblyClassFunction statusCodes (fun _ _ _ => (statusCodes.HostApiFailed, none))
        4242 (W "app") (W "Program") (W "Main") none =
      some ⟨statusCodes.InvalidArgFailure, []⟩ :=
  ⟨by decide,
    coreload_execute_failure_is_InvalidArgFailure statusCodes
      (fun _ _ _ => (statusCodes.HostApiFailed, none)) 4242 (W "app") (W "Program") (W "Main")
      none (by decide)⟩

/-- C19 (as stated) fails: `CreateAssemblyDelegate` returns the failure code
`HostApiFailed`, and `ExecuteAssemblyClassFunction` returns the different code
`InvalidArgFailure`. -/
theorem coreload_execute_replaces_failure_code :
    (CreateAssemblyDelegate (fun _ _ _ => (statusCodes.HostApiFailed, none))
      (W "app") (W "Program") (W "Main")).1 = statusCodes.HostApiFailed ∧
    SUCCEEDED statusCodes.HostApiFailed = false ∧
    (ExecuteAssemblyClassFunction statusCodes (fun _ _ _ => (statusCodes.HostApiFailed, none))
        4242 (W "app") (W "Program") (W "Main") none).map (fun r => r.exit_code) =
      some statusCodes.InvalidArgFailure ∧
    statusCodes.InvalidArgFailure ≠ statusCodes.HostApiFailed := by
  decide

end coreload

/-! ## Failure paths of the exported functions -/

/-- C20 fails: with a host started and an engine whose `CreateDelegate` returns
`S_OK` and stores a null delegate, `ExecuteAssemblyFunction` invokes nothing
and returns `S_OK`, which is not a failure code. -/
theorem ExecuteAssemblyFunction_null_delegate_returns_S_OK :
    ExecuteAssemblyFunction 256 engineNullDelegate globalsActive 0 (some callMain) =
      some (S_OK, { globalsActive with
        calls := globalsActive.calls ++
          [.CreateDelegate 1 (W "app") (W "Program") (W "Main")] }) ∧
    FAILED S_OK = false := by
  decide

/-- What `StartHost` reports: either it returns `false` with a failure code in
`exitCode` (given that the value on entry is one), or it returns `true` with
`NOERROR` and its last call on the engine is the `CreateAppDomainWithManager`
that the engine accepted. -/
theorem StartHost_outcome (os : Win32) (K : MsCoree) (E : Engine) (g : Globals)
    (dllPath : Option WString) (w : Bool) (exitCode : Int)
    (coreRoot coreLibraries : Option WString) (ok : Bool) (code : Int) (g2 : Globals)
    (h : StartHost os K E g dllPath w exitCode coreRoot coreLibraries = some (ok, code, g2))
    (hexit : FAILED exitCode = true) :
    (ok = false ∧ FAILED code = true) ∨
    (ok = true ∧ code = NOERROR ∧
      ∃ (name : WString) (dw : Nat) (keys values : List WString),
        g2.calls.getLast? = some (.CreateAppDomainWithManager name dw keys values)) := by
  unfold StartHost at h
  by_cases hg : GetGlobalHost g ≠ none
  · rw [if_pos hg] at h
    simp only [Option.some.injEq, Prod.mk.injEq] at h
    exact Or.inl ⟨h.1.symm, by rw [← h.2.1]; exact hexit⟩
  · rw [if_neg hg] at h
    have hg2 : GetGlobalHost g = none := by simpa using hg
    cases henv : HostEnvironment.ctor os coreRoot with
    | none => simp only [henv] at h; exact absurd h (by simp)
    | some env0 =>
      cases dllPath with
      | none =>
        simp only [henv, Option.some.injEq, Prod.mk.injEq] at h
        exact Or.inl ⟨h.1.symm, by rw [← h.2.1]; decide⟩
      | some path =>
        cases hi : wcsrchr (os.GetFullPathNameW path) '\\' with
        | none => simp only [henv, hi] at h; exact absurd h (by simp)
        | some i =>
          cases coreLibraries with
          | none => simp only [henv, hi] at h; exact absurd h (by simp)
          | some cl =>
            simp only [henv, hi, hg2, if_true] at h
            cases hhost : (GetCLRRuntimeHost os env0).2 with
            | none =>
              simp only [hhost, Option.some.injEq, Prod.mk.injEq] at h
              exact Or.inl ⟨h.1.symm, by rw [← h.2.1]; decide⟩
            | some host =>
              simp only [hhost] at h
              split at h
              · rename_i hf
                simp only [Option.some.injEq, Prod.mk.injEq] at h
                exact Or.inl ⟨h.1.symm, by rw [← h.2.1]; exact hf⟩
              · split at h
                · rename_i hf
                  simp only [Option.some.injEq, Prod.mk.injEq] at h
                  exact Or.inl ⟨h.1.symm, by rw [← h.2.1]; exact hf⟩
                · cases coreRoot with
                  | none => exact absurd h (by simp)
                  | some cr =>
                    have hfin : ∀ (gS : Globals) (name : WString) (dw : Nat)
                        (keys values : List WString) (d : Nat),
                        (if FAILED (gS.call E
                              (.CreateAppDomainWithManager name dw keys values)).1 = true then
                            some (false,
                              (gS.call E (.CreateAppDomainWithManager name dw keys values)).1,
                              (gS.call E (.CreateAppDomainWithManager name dw keys values)).2)
                          else some (true, NOERROR,
                            SetDomainId
                              (gS.call E (.CreateAppDomainWithManager name dw keys values)).2
                              d)) = some (ok, code, g2) →
                        (ok = false ∧ FAILED code = true) ∨
                        (ok = true ∧ code = NOERROR ∧
                          ∃ (name : WString) (dw : Nat) (keys values : List WString),
                            g2.calls.getLast? =
                              some (.CreateAppDomainWithManager name dw keys values)) := by
                      intro gS name dw keys values d hh
                      split at hh
                      · rename_i hf
                        simp only [Option.some.injEq, Prod.mk.injEq] at hh
                        exact Or.inl ⟨hh.1.symm, by rw [← hh.2.1]; exact hf⟩
                      · simp only [Option.some.injEq, Prod.mk.injEq] at hh
                        refine Or.inr ⟨hh.1.symm, hh.2.1.symm, name, dw, keys, values, ?_⟩
                        rw [← hh.2.2]
                        simp [Globals.call, SetDomainId]
                    exact hfin _ _ _ _ _ _ h

/-- The failure paths of `StartCoreCLR` return a failure code: when it returns
at all, it returns a negative HRESULT, or `NOERROR` after the engine accepted
`CreateAppDomainWithManager` as its last call. -/
theorem StartCoreCLR_outcome (os : Win32) (K : MsCoree) (E : Engine) (g : Globals)
    (args : Option BinaryLoaderArgs) (hr : Int) (g2 : Globals)
    (h : StartCoreCLR os K E g args = some (hr, g2)) :
    FAILED hr = true ∨
    (hr = NOERROR ∧
      ∃ (name : WString) (dw : Nat) (keys values : List WString),
        g2.calls.getLast? = some (.CreateAppDomainWithManager name dw keys values)) := by
  unfold StartCoreCLR at h
  split at h
  · cases args with
    | none => exact absurd h (by simp)
    | some a =>
      simp only [StartCoreCLRInternal] at h
      cases hs : StartHost os K E g a.BinaryFilePath a.WaitForDebugger (-1) a.CoreRootPath
          a.CoreLibrariesPath with
      | none => simp only [hs] at h; exact absurd h (by simp)
      | some res =>
        obtain ⟨ok, code, g3⟩ := res
        simp only [hs, Option.some.injEq, Prod.mk.injEq] at h
        rcases StartHost_outcome os K E g _ _ _ _ _ ok code g3 hs (by decide) with h1 | h1
        · exact Or.inl (by rw [← h.1]; exact h1.2)
        · refine Or.inr ⟨by rw [← h.1]; exact h1.2.1, ?_⟩
          rw [← h.2]
          exact h1.2.2
  · simp only [Option.some.injEq, Prod.mk.injEq] at h
    exact Or.inl (by rw [← h.1]; decide)

/-- The failure paths of `UnloadRunTime` return a failure code: a code that is
not negative is returned only after `Stop` was called and the host handle was
cleared. -/
theorem UnloadRunTime_outcome (E : Engine) (g : Globals) :
    FAILED (UnloadRunTime E g).1 = true ∨
    ((UnloadRunTime E g).2.g_Host = none ∧ EngineCall.Stop ∈ (UnloadRunTime E g).2.calls) := by
  unfold UnloadRunTime UnloadStopHost
  cases hh : GetGlobalHost g with
  | none =>
    have hE : FAILED E_HANDLE = true := by decide
    exact Or.inl hE
  | some host =>
    simp only []
    split
    · rename_i hf
      exact Or.inl hf
    · split
      · rename_i hf
        exact Or.inl hf
      · exact Or.inr (by simp [Globals.call, SetGlobalHost, SetDomainId])

/-- The one failure path of `ExecuteAssemblyFunction` without a failure code:
when the function returns a code that is not negative, either its last call is
the invocation of the delegate, or `CreateDelegate` stored a null delegate. -/
theorem ExecuteAssemblyFunction_outcome (FunctionNameSize : Nat) (E : Engine) (g : Globals)
    (entryInfoAddress : Int) (args : Option AssemblyFunctionCall) (hr : Int) (g2 : Globals)
    (h : ExecuteAssemblyFunction FunctionNameSize E g entryInfoAddress args = some (hr, g2)) :
    FAILED hr = true ∨ E.delegate g.calls = none ∨
    ∃ pfnDelegate param, g2.calls.getLast? = some (.InvokeDelegate pfnDelegate param) := by
  unfold ExecuteAssemblyFunction at h
  split at h
  · cases args with
    | none => exact absurd h (by simp)
    | some a =>
      simp only [] at h
      cases hA : a.Assembly with
      | none => simp only [hA] at h; exact absurd h (by simp)
      | some assembly =>
        cases hC : a.Class with
        | none => simp only [hA, hC] at h; exact absurd h (by simp)
        | some type =>
          cases hF : a.Function with
          | none => simp only [hA, hC, hF] at h; exact absurd h (by simp)
          | some function =>
            simp only [hA, hC, hF, ExecuteAssemblyClassFunction] at h
            cases hh : GetGlobalHost g with
            | none =>
              simp only [hh, Option.some.injEq, Prod.mk.injEq] at h
              exact Or.inl (by rw [← h.1]; decide)
            | some host =>
              simp only [hh] at h
              cases hd : E.delegate g.calls with
              | none => exact Or.inr (Or.inl rfl)
              | some p =>
                simp only [hd] at h
                split at h
                · rename_i hf
                  simp only [Option.some.injEq, Prod.mk.injEq] at h
                  exact Or.inl (by rw [← h.1]; exact hf)
                · cases hargs : a.Arguments with
                  | none =>
                    simp only [hargs, Option.some.injEq, Prod.mk.injEq] at h
                    refine Or.inr (Or.inr ⟨p, none, ?_⟩)
                    rw [← h.2]
                    simp [Globals.call]
                  | some ra =>
                    simp only [hargs] at h
                    cases hx : ConvertToHexString entryInfoAddress 16 with
                    | none => simp only [hx] at h; exact absurd h (by simp)
                    | some s =>
                      simp only [hx, Option.some.injEq, Prod.mk.injEq] at h
                      refine Or.inr (Or.inr ⟨p, some s, ?_⟩)
                      rw [← h.2]
                      simp [Globals.call]
  · simp only [Option.some.injEq, Prod.mk.injEq] at h
    exact Or.inl (by rw [← h.1]; decide)

/-! ## `ExecuteAssemblyFunction` and the state of the host -/

/-- With a null host handle `ExecuteAssemblyFunction` returns a failure code
(`E_INVALIDARG` or `E_HANDLE`), calls nothing on the engine and leaves the
globals as they were. -/
theorem ExecuteAssemblyFunction_without_host (FunctionNameSize : Nat) (E : Engine)
    (g : Globals) (entryInfoAddress : Int) (args : Option AssemblyFunctionCall)
    (h : g.g_Host = none) :
    ∃ hr, ExecuteAssemblyFunction FunctionNameSize E g entryInfoAddress args = some (hr, g) ∧
      FAILED hr = true := by
  unfold ExecuteAssemblyFunction
  by_cases hv : SUCCEEDED (ValidateAssemblyFunctionCallArgs FunctionNameSize args) = true
  · rw [if_pos hv]
    cases args with
    | none =>
      rw [ValidateAssemblyFunctionCallArgs_invalid _ none (Or.inl rfl)] at hv
      exact absurd hv (by simp)
    | some a =>
      simp only []
      cases hA : a.Assembly with
      | none =>
        rw [ValidateAssemblyFunctionCallArgs_invalid _ (some a)
          (Or.inr ⟨a, rfl, Or.inl (Or.inl hA)⟩)] at hv
        exact absurd hv (by simp)
      | some assembly =>
        cases hC : a.Class with
        | none =>
          rw [ValidateAssemblyFunctionCallArgs_invalid _ (some a)
            (Or.inr ⟨a, rfl, Or.inr (Or.inl (Or.inl hC))⟩)] at hv
          exact absurd hv (by simp)
        | some type =>
          cases hF : a.Function with
          | none =>
            rw [ValidateAssemblyFunctionCallArgs_invalid _ (some a)
              (Or.inr ⟨a, rfl, Or.inr (Or.inr (Or.inl hF))⟩)] at hv
            exact absurd hv (by simp)
          | some function =>
            refine ⟨E_HANDLE, ?_, by decide⟩
            simp only [ExecuteAssemblyClassFunction, GetGlobalHost, h]
  · rw [if_neg hv]
    exact ⟨E_INVALIDARG, rfl, by decide⟩

/-- With a host handle that is not null and arguments that pass validation,
`ExecuteAssemblyFunction` returns and its first call on the engine is
`CreateDelegate` with the stored context identifier, whether or not a context
was ever created. -/
theorem ExecuteAssemblyFunction_with_host (FunctionNameSize : Nat) (E : Engine) (g : Globals)
    (entryInfoAddress : Int) (a : AssemblyFunctionCall) (assembly type function : WString)
    (hh : g.g_Host ≠ none) (hA : a.Assembly = some assembly) (hC : a.Class = some type)
    (hF : a.Function = some function)
    (hv : SUCCEEDED (ValidateAssemblyFunctionCallArgs FunctionNameSize (some a)) = true) :
    ∃ hr g2 rest,
      ExecuteAssemblyFunction FunctionNameSize E g entryInfoAddress (some a) = some (hr, g2) ∧
      g2.calls = g.calls ++ .CreateDelegate g.g_domainId assembly type function :: rest := by
  obtain ⟨host, hhost⟩ := Option.ne_none_iff_exists'.1 hh
  obtain ⟨s, hs, _⟩ := ConvertToHexString_loop_spec entryInfoAddress 16 (le_refl 16)
  have hx : ConvertToHexString entryInfoAddress 16 = some s := hs
  unfold ExecuteAssemblyFunction
  rw [if_pos hv]
  simp only [hA, hC, hF, ExecuteAssemblyClassFunction, GetGlobalHost, hhost]
  cases hd : E.delegate g.calls with
  | none => exact ⟨_, _, [], rfl, by simp [Globals.call, GetDomainId]⟩
  | some p =>
    simp only []
    split
    · exact ⟨_, _, [], rfl, by simp [Globals.call, GetDomainId]⟩
    · cases hargs : a.Arguments with
      | none => exact ⟨_, _, [.InvokeDelegate p none], rfl, by simp [Globals.call, GetDomainId]⟩
      | some ra =>
        simp only [hx]
        exact ⟨_, _, [.InvokeDelegate p (some s)], rfl, by simp [Globals.call, GetDomainId]⟩

/-- C21 fails: on the example system with an engine that fails the creation of
the execution context, `StartCoreCLR` returns `E_FAIL` and leaves the host
handle set although no context is active; `ExecuteAssemblyFunction` then calls
`CreateDelegate` on the engine, with the context identifier 0 that no context
has, before it returns the failure of that call. -/
theorem ExecuteAssemblyFunction_calls_CreateDelegate_without_context :
    StartCoreCLR (osEngineInE []) coreclrHeader engineContextFails globalsUnstarted
        (some argsApp) = some (E_FAIL, globalsNoContext) ∧
    ExecuteAssemblyFunction 256 engineContextFails globalsNoContext 0 (some callMain) =
      some (E_FAIL, { globalsNoContext with
        calls := globalsNoContext.calls ++
          [.CreateDelegate 0 (W "app") (W "Program") (W "Main")] }) := by
  decide

/-! ## Files that the scan skips -/

/-- C22 fails: in a directory that holds `a.ni.dll` and `a.ni.ni.dll`, both
matched by `*.ni.dll`, the scan adds `a.ni.dll`, whose normalized stem is `a`,
and then skips `a.ni.ni.dll`, whose normalized stem is `a.ni`, because the text
`\a.ni` followed by `.dll;` occurs in the list; the resulting list has one
entry, and no entry with the stem `a.ni`. -/
theorem AddFilesFromDirectoryToTPAList_skips_other_stem :
    scanOrder fsNiNi (W "A\\") rgTPAExtensions =
      [(W "A\\", ⟨FILE_ATTRIBUTE_ARCHIVE, W "a.ni.dll"⟩),
       (W "A\\", ⟨FILE_ATTRIBUTE_ARCHIVE, W "a.ni.ni.dll"⟩),
       (W "A\\", ⟨FILE_ATTRIBUTE_ARCHIVE, W "a.ni.dll"⟩),
       (W "A\\", ⟨FILE_ATTRIBUTE_ARCHIVE, W "a.ni.ni.dll"⟩)] ∧
    stemOf (W "A\\", ⟨FILE_ATTRIBUTE_ARCHIVE, W "a.ni.dll"⟩) = W "a" ∧
    stemOf (W "A\\", ⟨FILE_ATTRIBUTE_ARCHIVE, W "a.ni.ni.dll"⟩) = W "a.ni" ∧
    AddFileToTPAList (W "A\\") rgTPAExtensions []
      ⟨FILE_ATTRIBUTE_ARCHIVE, W "a.ni.dll"⟩ = W "A\\a.ni.dll;" ∧
    TPAListContainsFile (W "A\\a.ni.dll;") (W "a.ni") rgTPAExtensions = true ∧
    AddFileToTPAList (W "A\\") rgTPAExtensions (W "A\\a.ni.dll;")
      ⟨FILE_ATTRIBUTE_ARCHIVE, W "a.ni.ni.dll"⟩ = W "A\\a.ni.dll;" ∧
    AddFilesFromDirectoryToTPAList fsNiNi [] (W "A\\") rgTPAExtensions = W "A\\a.ni.dll;" := by
  decide

/-! ## The coreload library: `strip_file_ext` -/

namespace coreload

theorem string_rfind_get (a : Char) (n : WString) :
    ∀ (path : WString) (s : Nat), string_rfind path (a :: n) = some s → path[s]? = some a := by
  intro path
  induction path with
  | nil =>
    intro s h
    simp [string_rfind] at h
  | cons x xs ih =>
    intro s h
    rw [string_rfind] at h
    cases hxs : string_rfind xs (a :: n) with
    | some k =>
      simp only [hxs, Option.some.injEq] at h
      subst h
      simpa using ih k hxs
    | none =>
      simp only [hxs] at h
      split at h
      · rename_i hp
        simp only [Option.some.injEq] at h
        subst h
        simp only [List.isPrefixOf, Bool.and_eq_true, beq_iff_eq] at hp
        simp [hp.1]
      · exact absurd h (by simp)

/-- A path without a dot is returned unchanged. -/
theorem strip_file_ext_no_dot (path : WString) (h : '.' ∉ path) :
    strip_file_ext path = path := by
  unfold strip_file_ext
  simp only [wcsrchr_none path '.' h]
  split
  · rfl
  · split
    · rfl
    · rfl

/-- When no slash follows the last dot, the suffix that starts at the last dot
is removed. -/
theorem strip_file_ext_final_component (pre ext : WString) (hdot : '.' ∉ ext)
    (hsep : '/' ∉ ext) : strip_file_ext (pre ++ '.' :: ext) = pre := by
  unfold strip_file_ext
  have hne : (pre ++ '.' :: ext).isEmpty = false := by
    cases pre <;> rfl
  simp only [hne, wcsrchr_append pre ext '.' hdot, Bool.false_eq_true, if_false]
  have htake : List.take pre.length (pre ++ '.' :: ext) = pre := by simp
  cases hs : string_rfind (pre ++ '.' :: ext) (W "/\\") with
  | none => simp [htake]
  | some s =>
    have hget := string_rfind_get '/' ['\\'] _ s hs
    have hle : ¬ s > pre.length := by
      intro hgt
      rw [List.getElem?_append_right (by omega)] at hget
      obtain ⟨k, hk⟩ : ∃ k, s - pre.length = k + 1 := ⟨s - pre.length - 1, by omega⟩
      rw [hk, List.getElem?_cons_succ] at hget
      exact hsep (List.getElem?_mem hget)
    simp [hle, htake]

/-- C23 fails: the path `dir.d/file`, whose final component has no dot, is cut
at the dot of its directory component and becomes `dir`; likewise
`C:\apps.v2\tool` becomes `C:\apps`, and `get_app_name` of an object with this
`app_path` is `apps`. The separator test looks for the two characters slash
and backslash in a row, which it finds in `a.b/\c`, the one kind of path it
leaves unchanged. -/
theorem strip_file_ext_cuts_directory_component :
    strip_file_ext (W "dir.d/file") = W "dir" ∧
    strip_file_ext (W "C:\\apps.v2\\tool") = W "C:\\apps" ∧
    host_startup_info_t.get_app_name palWindows ⟨[], [], W "C:\\apps.v2\\tool"⟩ = W "apps" ∧
    string_rfind (W "dir.d/file") (W "/\\") = none ∧
    strip_file_ext (W "a.b/\\c") = W "a.b/\\c" := by
  decide

end coreload

/-! ## The coreload library: `replace_char` and `get_replaced_char` -/

namespace coreload

theorem to_int_of_lt (p : Nat) (h : p < 2 ^ 31) : to_int (some p) = (p : Int) := by
  have hm : p % 2 ^ 32 = p := Nat.mod_eq_of_lt (by omega)
  simp only [to_int, hm, h, if_true]

theorem string_find_append (pre post : WString) (c : Char) :
    string_find (pre ++ post) c pre.length =
      (string_find post c 0).map (fun k => k + pre.length) := by
  induction pre with
  | nil => simp
  | cons x xs ih =>
    show string_find (x :: (xs ++ post)) c (xs.length + 1) = _
    rw [string_find, ih, Option.map_map]
    congr 1

theorem string_find_zero_none (post : WString) (c : Char) (h : string_find post c 0 = none) :
    c ∉ post := by
  induction post with
  | nil => simp
  | cons x xs ih =>
    rw [string_find] at h
    split at h
    · exact absurd h (by simp)
    · rename_i hx
      simp only [Option.map_eq_none'] at h
      intro hmem
      rcases List.mem_cons.1 hmem with e | e
      · exact hx e.symm
      · exact ih h e

theorem string_find_zero_some (c : Char) :
    ∀ (post : WString) (k : Nat), string_find post c 0 = some k →
      ∃ mid rest, post = mid ++ c :: rest ∧ mid.length = k ∧ c ∉ mid := by
  intro post
  induction post with
  | nil =>
    intro k h
    simp [string_find] at h
  | cons x xs ih =>
    intro k h
    rw [string_find] at h
    split at h
    · rename_i hx
      simp only [Option.some.injEq] at h
      exact ⟨[], xs, by simp [hx], by simp [← h], by simp⟩
    · rename_i hx
      simp only [Option.map_eq_some'] at h
      obtain ⟨j, hj, rfl⟩ := h
      obtain ⟨mid, rest, rfl, hlen, hmid⟩ := ih j hj
      refine ⟨x :: mid, rest, by simp, by simp [hlen], ?_⟩
      intro hmem
      rcases List.mem_cons.1 hmem with e | e
      · exact hx e.symm
      · exact hmid e

theorem replaceAll_of_not_mem (mtch repl : Char) (s : WString) (h : mtch ∉ s) :
    replaceAll mtch repl s = s := by
  unfold replaceAll
  induction s with
  | nil => rfl
  | cons x xs ih =>
    have hx : ¬ x = mtch := fun e => h (by simp [e])
    have hxs : mtch ∉ xs := fun e => h (by simp [e])
    simp [hx, ih hxs]

/-- The loop of `replace_char` with the same character for `match` and `repl`,
entered at an occurrence of that character: each iteration finds the same
position again and writes the same character. -/
theorem replace_char_loop_running (c : Char) (pre rest : WString)
    (hlen : pre.length < 2 ^ 31) :
    ∀ fuel, replace_char_loop c c fuel (pre ++ c :: rest) (pre.length : Int) = .running := by
  have hfind : string_find (pre ++ c :: rest) c pre.length = some pre.length := by
    rw [string_find_append]
    simp [string_find]
  have hint := to_int_of_lt pre.length hlen
  intro fuel
  induction fuel with
  | zero => rfl
  | succ fuel ih =>
    rw [replace_char_loop]
    simp only [Int.toNat_ofNat, hfind, hint]
    rw [if_neg (by omega), if_neg (by simp)]
    simpa using ih

/-- The loop of `replace_char` with two different characters, entered with no
occurrence of `match` in front of `pos`: it ends after one evaluation of its
condition for each occurrence that is left and one more, with every occurrence
replaced. -/
theorem replace_char_loop_done (mtch repl : Char) (hne : repl ≠ mtch) :
    ∀ (fuel : Nat) (pre post : WString), (pre ++ post).length < 2 ^ 31 →
      post.count mtch < fuel →
      replace_char_loop mtch repl fuel (pre ++ post) (pre.length : Int) =
        .done (pre ++ replaceAll mtch repl post) := by
  intro fuel
  induction fuel with
  | zero =>
    intro pre post _ hc
    exact absurd hc (by omega)
  | succ fuel ih =>
    intro pre post hlen hc
    rw [replace_char_loop]
    simp only [Int.toNat_ofNat, string_find_append]
    cases hf : string_find post mtch 0 with
    | none =>
      have hno := string_find_zero_none post mtch hf
      simp [to_int, replaceAll_of_not_mem mtch repl post hno]
    | some k =>
      obtain ⟨mid, rest, rfl, hk, hmid⟩ := string_find_zero_some mtch post k hf
      have hpos : k + pre.length = (pre ++ mid).length := by
        simp only [List.length_append]
        omega
      have hp : (pre ++ mid).length < 2 ^ 31 := by
        simp only [List.length_append, List.length_cons] at hlen ⊢
        omega
      have hlt : (pre ++ mid).length < (pre ++ (mid ++ mtch :: rest)).length := by
        simp only [List.length_append, List.length_cons]
        omega
      have hset : (pre ++ (mid ++ mtch :: rest)).set (pre ++ mid).length repl =
          (pre ++ mid) ++ repl :: rest := by
        rw [← List.append_assoc, List.set_append_right _ _ (le_refl _)]
        simp
      simp only [Option.map_some', hpos, to_int_of_lt _ hp, Int.toNat_ofNat]
      rw [if_neg (by omega), if_neg (by
        intro h
        rcases h with h | h
        · omega
        · exact absurd hlt (not_lt.2 h))]
      have hcount : (repl :: rest).count mtch < fuel := by
        rw [List.count_cons_of_ne (Ne.symm hne)]
        simp only [List.count_append, List.count_cons_self] at hc
        omega
      rw [hset, ih (pre ++ mid) (repl :: rest) (by
        simp only [List.length_append, List.length_cons] at hlen ⊢
        omega) hcount]
      have h1 : replaceAll mtch repl (repl :: rest) = repl :: replaceAll mtch repl rest := by
        simp [replaceAll, hne]
      have h2 : replaceAll mtch repl (mid ++ mtch :: rest) =
          mid ++ repl :: replaceAll mtch repl rest := by
        have := replaceAll_of_not_mem mtch repl mid hmid
        simp only [replaceAll] at this ⊢
        simp [this]
      rw [h1, h2]
      simp

theorem string_find_lt (c : Char) :
    ∀ (path : WString) (pos q : Nat), string_find path c pos = some q → q < path.length := by
  intro path
  induction path with
  | nil =>
    intro pos q h
    simp [string_find] at h
  | cons x xs ih =>
    intro pos q h
    cases pos with
    | zero =>
      rw [string_find] at h
      split at h
      · simp only [Option.some.injEq] at h
        simp [← h]
      · simp only [Option.map_eq_some'] at h
        obtain ⟨j, hj, rfl⟩ := h
        have := ih 0 j hj
        simp only [List.length_cons]
        omega
    | succ pos =>
      rw [string_find] at h
      simp only [Option.map_eq_some'] at h
      obtain ⟨j, hj, rfl⟩ := h
      have := ih pos j hj
      simp only [List.length_cons]
      omega

/-- The `do ... while` loop of `get_replaced_char` entered at a position in
range does what the loop of `replace_char` does after the first write. -/
theorem get_replaced_char_loop_eq (mtch repl : Char) :
    ∀ (fuel : Nat) (out : WString) (p : Nat), out.length < 2 ^ 31 → p < out.length →
      get_replaced_char_loop mtch repl (fuel + 1) out (p : Int) =
        replace_char_loop mtch repl (fuel + 1) (out.set p repl) (p : Int) := by
  have step : ∀ (fuel : Nat) (out : WString) (p : Nat), out.length < 2 ^ 31 → p < out.length →
      (∀ q, string_find (out.set p repl) mtch p = some q →
        get_replaced_char_loop mtch repl fuel (out.set p repl) (q : Int) =
          replace_char_loop mtch repl fuel ((out.set p repl).set q repl) (q : Int)) →
      get_replaced_char_loop mtch repl (fuel + 1) out (p : Int) =
        replace_char_loop mtch repl (fuel + 1) (out.set p repl) (p : Int) := by
    intro fuel out p hlen hp htail
    rw [get_replaced_char_loop, replace_char_loop]
    simp only [Int.toNat_ofNat]
    rw [if_neg (by
      intro h
      rcases h with h | h
      · omega
      · exact absurd hp (not_lt.2 h))]
    cases hf : string_find (out.set p repl) mtch p with
    | none => simp [to_int]
    | some q =>
      have hq := string_find_lt mtch _ _ _ hf
      have hq2 : q < 2 ^ 31 := by
        simp only [List.length_set] at hq
        omega
      simp only [to_int_of_lt q hq2, Int.toNat_ofNat]
      rw [if_neg (by omega), if_neg (by omega), if_neg (by
        intro h
        rcases h with h | h
        · omega
        · exact absurd hq (not_lt.2 h))]
      exact htail q hf
  intro fuel
  induction fuel with
  | zero =>
    intro out p hlen hp
    exact step 0 out p hlen hp (fun q _ => rfl)
  | succ fuel ih =>
    intro out p hlen hp
    refine step (fuel + 1) out p hlen hp (fun q hf => ?_)
    have hq := string_find_lt mtch _ _ _ hf
    exact ih (out.set p repl) q (by simpa using hlen) hq

/-- With two different characters and a path shorter than `2^31`, both
functions return once the number of iterations allowed exceeds the number of
occurrences of `match`, and both return the path with every occurrence of
`match` replaced by `repl` and every other character unchanged. -/
theorem replace_char_replaces (path : WString) (mtch repl : Char) (fuel : Nat)
    (hne : repl ≠ mtch) (hlen : path.length < 2 ^ 31) (hfuel : path.count mtch < fuel) :
    replace_char fuel path mtch repl = .done (replaceAll mtch repl path) ∧
    get_replaced_char fuel path mtch repl = .done (replaceAll mtch repl path) := by
  constructor
  · have := replace_char_loop_done mtch repl hne fuel [] path (by simpa using hlen) hfuel
    simpa [replace_char] using this
  · unfold get_replaced_char
    cases hf : string_find path mtch 0 with
    | none =>
      have hno := string_find_zero_none path mtch hf
      simp [to_int, replaceAll_of_not_mem mtch repl path hno]
    | some k =>
      obtain ⟨mid, rest, rfl, hk, hmid⟩ := string_find_zero_some mtch path k hf
      subst hk
      have hk2 : mid.length < 2 ^ 31 := by
        simp only [List.length_append, List.length_cons] at hlen
        omega
      simp only [to_int_of_lt _ hk2]
      rw [if_neg (by omega)]
      obtain ⟨f, rfl⟩ : ∃ f, fuel = f + 1 := ⟨fuel - 1, by omega⟩
      rw [get_replaced_char_loop_eq mtch repl f _ mid.length hlen (by simp)]
      have hset : (mid ++ mtch :: rest).set mid.length repl = mid ++ repl :: rest := by
        rw [List.set_append_right _ _ (le_refl _)]
        simp
      have hcount : (repl :: rest).count mtch < f + 1 := by
        rw [List.count_cons_of_ne (Ne.symm hne)]
        simp only [List.count_append, List.count_cons_self] at hfuel
        omega
      rw [hset, replace_char_loop_done mtch repl hne (f + 1) mid (repl :: rest) (by
        simp only [List.length_append, List.length_cons] at hlen ⊢
        omega) hcount]
      have h1 : replaceAll mtch repl (repl :: rest) = repl :: replaceAll mtch repl rest := by
        simp [replaceAll, hne]
      have h2 : replaceAll mtch repl (mid ++ mtch :: rest) =
          mid ++ repl :: replaceAll mtch repl rest := by
        have := replaceAll_of_not_mem mtch repl mid hmid
        simp only [replaceAll] at this ⊢
        simp [this]
      rw [h1, h2]

/-- C24 fails: when `match` and `repl` are the same character and it occurs in
the path (a path shorter than `2^31`), neither `replace_char` nor
`get_replaced_char` returns: whatever number of iterations is allowed, the
loop is still running after them. -/
theorem replace_char_same_character_runs_forever (path : WString) (c : Char)
    (hc : c ∈ path) (hlen : path.length < 2 ^ 31) (fuel : Nat) :
    replace_char fuel path c c = .running ∧ get_replaced_char fuel path c c = .running := by
  cases hf : string_find path c 0 with
  | none => exact absurd hc (string_find_zero_none path c hf)
  | some k =>
    obtain ⟨mid, rest, rfl, hk, _⟩ := string_find_zero_some c path k hf
    subst hk
    have hk2 : mid.length < 2 ^ 31 := by
      simp only [List.length_append, List.length_cons] at hlen
      omega
    have hset : (mid ++ c :: rest).set mid.length c = mid ++ c :: rest := by
      rw [List.set_append_right _ _ (le_refl _)]
      simp
    have hrun := replace_char_loop_running c mid rest hk2
    constructor
    · unfold replace_char
      cases fuel with
      | zero => rfl
      | succ f =>
        rw [replace_char_loop]
        simp only [Int.toNat_zero, hf, to_int_of_lt _ hk2, Int.toNat_ofNat]
        rw [if_neg (by omega), if_neg (by simp), hset]
        exact hrun f
    · unfold get_replaced_char
      simp only [hf, to_int_of_lt _ hk2]
      rw [if_neg (by omega)]
      cases fuel with
      | zero => rfl
      | succ f =>
        rw [get_replaced_char_loop_eq c c f _ mid.length hlen (by simp), hset]
        exact hrun (f + 1)

/-- Witness of `replace_char_same_character_runs_forever`: replacing the slash
by the slash in `a/b`, with 1000 iterations allowed. -/
theorem replace_char_same_character_runs_forever_witness :
    '/' ∈ W "a/b" ∧ (W "a/b").length < 2 ^ 31 ∧
    replace_char 1000 (W "a/b") '/' '/' = .running ∧
    get_replaced_char 1000 (W "a/b") '/' '/' = .running :=
  ⟨by decide, by decide,
    replace_char_same_character_runs_forever (W "a/b") '/' (by decide) (by decide) 1000⟩

/-- The two functions on `a/b/c` with the slash replaced by the backslash: both
return `a\b\c` within three iterations. -/
theorem replace_char_example :
    replace_char 3 (W "a/b/c") '/' '\\' = .done (W "a\\b\\c") ∧
    get_replaced_char 3 (W "a/b/c") '/' '\\' = .done (W "a\\b\\c") ∧
    replace_char 2 (W "a/b/c") '/' '\\' = .running := by
  decide

end coreload
end CoreHook
